import Mathlib

/-! DSC `is_mesh` query engine: embedding and verified properties.

Shallow embedding of `src/is_mesh/query.cpp` and of the attribute records of
`src/is_mesh/attributes.h`.

* Entity keys wrap a 32-bit unsigned integer and are modelled as natural numbers;
  the sentinel key is `(unsigned int)-1`.
* `std::set<Key>` is a list kept ascending and free of duplicates by `setInsert`;
  a `SimplexSet` and a `std::vector` are lists in their own order.
* `Query::neighborhood` computes in `double`, embedded as `F64`: IEEE 754 binary64
  with every operation rounded to nearest, ties to even.
* The raycast compares distances that the external ray-triangle test reports;
  there the distances range over an ordered field `R`, and the test and the value
  of `std::numeric_limits<double>::max()` are parameters (`Geometry`).
* The mesh (`ISMesh`) is an external collaborator and a parameter of everything.
* A read or write outside a vector and a null dereference are undefined
  behaviour (`Run.undefined`); loops and recursion without a syntactic bound take
  fuel (`Run.outOfFuel`).
-/

namespace is_mesh

/-! ## Data model -/

/-- Three-component vector (`CGLA::Vec3d`). -/
structure Vec3 (R : Type) where
  x : R
  y : R
  z : R

/-- Modelled from the spec: the Mesh Facade (`ISMesh`, declared outside `src/`).
It exposes the entities of each kind in a stable enumeration order, the position
of a node, the flag word of a face, and the adjacency queries; `node_keys` of an
edge is an ordered pair, `edge_keys` and `node_keys` of a face an ordered triple
and `face_keys` of a tetrahedron an ordered quadruple. -/
structure ISMesh (R : Type) where
  /-- keys met by `mesh->nodes()`, in iteration order -/
  nodes : List Nat
  /-- keys met by `mesh->edges()` -/
  edges : List Nat
  /-- keys met by `mesh->faces()` -/
  faces : List Nat
  /-- keys met by `mesh->tetrahedra()` -/
  tetrahedra : List Nat
  /-- Value of `mesh->get(n).get_pos()` -/
  node_pos : Nat → Vec3 R
  /-- flag word of `default_face_traits` for `mesh->get(f)` -/
  face_flags : Nat → Nat
  /-- Value of `mesh->get(e).node_keys()` -/
  edge_node_keys : Nat → Nat × Nat
  /-- Value of `mesh->get(e).face_keys()` : the faces incident to an edge -/
  edge_face_keys : Nat → List Nat
  /-- Value of `mesh->get(f).node_keys()` -/
  face_node_keys : Nat → Nat × Nat × Nat
  /-- Value of `mesh->get(f).edge_keys()` -/
  face_edge_keys : Nat → Nat × Nat × Nat
  /-- Value of `mesh->get(f).tet_keys()` -/
  face_tet_keys : Nat → List Nat
  /-- Value of `mesh->get(f).get_co_boundary()` -/
  face_co_boundary : Nat → List Nat
  /-- Value of `mesh->get(t).face_keys()` -/
  tet_face_keys : Nat → Nat × Nat × Nat × Nat
  /-- Value of `mesh->get_faces(tets)` -/
  get_faces : List Nat → List Nat

/-- The query engine: the mesh and the lazily built boundary-face cache
(`boundary_faces`, a null pointer until the first rebuild). -/
structure Query (R : Type) where
  mesh : ISMesh R
  boundary_faces : Option (List Nat)

/-- Keys of an ordered pair, in order (`for (auto n : ...node_keys())`). -/
def keys2 (p : Nat × Nat) : List Nat := [p.1, p.2]

/-- Keys of an ordered triple, in order. -/
def keys3 (p : Nat × Nat × Nat) : List Nat := [p.1, p.2.1, p.2.2]

/-- Keys of an ordered quadruple, in order. -/
def keys4 (p : Nat × Nat × Nat × Nat) : List Nat := [p.1, p.2.1, p.2.2.1, p.2.2.2]

/-- Embeds `std::set::insert`: the list stays ascending and free of duplicates. -/
def setInsert (k : Nat) : List Nat → List Nat
  | [] => [k]
  | x :: xs => if k < x then k :: x :: xs else if k = x then x :: xs else x :: setInsert k xs

/-- Embeds `for (auto k : ks) s.insert(k)`. -/
def setInsertAll (ks : List Nat) (s : List Nat) : List Nat :=
  ks.foldl (fun acc k => setInsert k acc) s

/-- The sentinel key `(unsigned int)-1`. -/
def sentinelKey : Nat := 4294967295

/-- Outcome of a run: a returned value, undefined behaviour, or exhausted fuel. -/
inductive Run (α : Type) where
  | done (a : α)
  | undefined
  | outOfFuel
  deriving DecidableEq

/-! ## `Query::filter_subset` -/

/-- The four sets `filter_subset` works on (all passed by reference). -/
structure Selection where
  nodes : List Nat
  edges : List Nat
  faces : List Nat
  tets : List Nat
  deriving DecidableEq

/-- Embeds `(int)t` for a key: the 32-bit unsigned value read as a signed 32-bit int. -/
def keyToInt (k : Nat) : Int :=
  if k % 4294967296 < 2147483648 then ((k % 4294967296 : Nat) : Int)
  else ((k % 4294967296 : Nat) : Int) - 4294967296

/-- Lines 259-263: faces of the tetrahedra. -/
def closureFaces {R : Type} (m : ISMesh R) (tets : List Nat) : List Nat :=
  tets.foldl (fun faces t => setInsertAll (keys4 (m.tet_face_keys t)) faces) []

/-- Lines 264-268: edges of the faces. -/
def closureEdges {R : Type} (m : ISMesh R) (faces : List Nat) : List Nat :=
  faces.foldl (fun edges f => setInsertAll (keys3 (m.face_edge_keys f)) edges) []

/-- Lines 269-273: nodes of the edges. -/
def closureNodes {R : Type} (m : ISMesh R) (edges : List Nat) : List Nat :=
  edges.foldl (fun nodes e => setInsertAll (keys2 (m.edge_node_keys e)) nodes) []

/-- Lines 276-279: `maxKey`. -/
def maxKeyOf (tets : List Nat) : Int :=
  tets.foldl (fun maxKey t => max maxKey (keyToInt t)) 0

/-- Embeds `v[i]` on a `std::vector<bool>`: defined only inside the bounds. -/
def vecGet (v : List Bool) (i : Int) : Option Bool :=
  if 0 ≤ i then v[i.toNat]? else none

/-- Embeds `v[i] = b` on a `std::vector<bool>`: defined only inside the bounds. -/
def vecSet (v : List Bool) (i : Int) (b : Bool) : Option (List Bool) :=
  if 0 ≤ i ∧ i.toNat < v.length then some (v.set i.toNat b) else none

/-- Lines 280-283: `tetLookup(maxKey+1, false)` with the keys of `tets` set;
`maxKey+1` is computed in `int`. -/
def tetLookupOf (tets : List Nat) : Option (List Bool) :=
  if maxKeyOf tets + 1 ≤ 2147483647 then
    tets.foldlM (fun look t => vecSet look (keyToInt t) true)
      (List.replicate (maxKeyOf tets + 1).toNat false)
  else none

/-- Lines 293-301: what one incident face adds to `boundaryTets`. -/
def faceBoundaryTets (tetLookup : List Bool) (intersection : List Nat) : Option (List Nat) :=
  match intersection with
  | [a] =>
    match vecGet tetLookup (keyToInt a) with
    | some la => some (if la then [a] else [])
    | none => none
  | [a, b] =>
    match vecGet tetLookup (keyToInt a), vecGet tetLookup (keyToInt b) with
    | some la, some lb => some (if xor la lb then (if la then [a] else [b]) else [])
    | _, _ => none
  | _ => some []

/-- Lines 287-302: `boundaryTets` of one edge. -/
def edgeBoundaryTets {R : Type} (m : ISMesh R) (tetLookup : List Bool) (ek : Nat) :
    Option (List Nat) :=
  (m.edge_face_keys ek).foldlM
    (fun boundaryTets fk =>
      match faceBoundaryTets tetLookup (m.face_tet_keys fk) with
      | some add => some (boundaryTets ++ add)
      | none => none) []

/-- Lines 285-309: `tetsToDelete` after the loop over the edges. -/
def tetsToDeleteOf {R : Type} (m : ISMesh R) (tetLookup : List Bool) (edges : List Nat) :
    Option (List Nat) :=
  edges.foldlM
    (fun tetsToDelete ek =>
      match edgeBoundaryTets m tetLookup ek with
      | some boundaryTets =>
        some (if boundaryTets.length > 2 then setInsertAll boundaryTets tetsToDelete
              else tetsToDelete)
      | none => none) []

/-- Lines 311-316: erase every scheduled key that is found in `tets`. -/
def eraseTets (tetsToDelete : List Nat) (tets : List Nat) : List Nat :=
  tetsToDelete.foldl (fun ts tk => if tk ∈ ts then ts.erase tk else ts) tets

/-- Embeds `Query::filter_subset`, with the recursion depth bounded by `fuel`. -/
def filter_subset_fuel {R : Type} (m : ISMesh R) : Nat → Selection → Run Selection
  | 0, _ => Run.outOfFuel
  | fuel + 1, s =>
    let faces := closureFaces m s.tets
    let edges := closureEdges m faces
    let nodes := closureNodes m edges
    match tetLookupOf s.tets with
    | none => Run.undefined
    | some tetLookup =>
      match tetsToDeleteOf m tetLookup edges with
      | none => Run.undefined
      | some tetsToDelete =>
        if tetsToDelete ≠ [] then
          filter_subset_fuel m fuel
            { nodes := nodes, edges := edges, faces := faces,
              tets := eraseTets tetsToDelete s.tets }
        else Run.done { nodes := nodes, edges := edges, faces := faces, tets := s.tets }

/-- Embeds `Query::filter_subset(nodes, edges, faces, tets)`: the recursion is given
`|tets| + 1` calls. -/
def Query.filter_subset {R : Type} (q : Query R) (s : Selection) : Run Selection :=
  filter_subset_fuel q.mesh (s.tets.length + 1) s

/-- One call of `filter_subset` that schedules nothing: the closure of `tets`
is stored and `tets` is left as it is. -/
def IsFixedPoint {R : Type} (m : ISMesh R) (r : Selection) : Prop :=
  r.faces = closureFaces m r.tets ∧ r.edges = closureEdges m r.faces ∧
    r.nodes = closureNodes m r.edges ∧
    ∃ tetLookup, tetLookupOf r.tets = some tetLookup ∧
      tetsToDeleteOf m tetLookup r.edges = some []

/-- In the spec's words: a face is on the boundary of the subset when exactly one
of its incident tetrahedra is in the subset. -/
def isSubsetBoundaryFace (tets : List Nat) (incident : List Nat) : Bool :=
  (incident.filter (fun t => decide (t ∈ tets))).length == 1

/-- In the spec's words: the number of subset-boundary tetrahedra of an edge,
one per incident boundary face. -/
def subsetBoundaryCount {R : Type} (m : ISMesh R) (tets : List Nat) (ek : Nat) : Nat :=
  ((m.edge_face_keys ek).filter
    (fun fk => isSubsetBoundaryFace tets (m.face_tet_keys fk))).length

/-! ## Closure queries -/

/-- Embeds `Query::edges(nodeKeys)`. -/
def Query.edges {R : Type} (q : Query R) (nodeKeys : List Nat) : List Nat :=
  q.mesh.edges.foldl
    (fun res edgeIter =>
      let nodes := q.mesh.edge_node_keys edgeIter
      if nodes.1 ∈ nodeKeys ∧ nodes.2 ∈ nodeKeys then setInsert edgeIter res else res) []

/-- Embeds `Query::faces(edgeKeys)`. -/
def Query.faces {R : Type} (q : Query R) (edgeKeys : List Nat) : List Nat :=
  q.mesh.faces.foldl
    (fun res faceIter =>
      let edges := q.mesh.face_edge_keys faceIter
      if edges.1 ∈ edgeKeys ∧ edges.2.1 ∈ edgeKeys ∧ edges.2.2 ∈ edgeKeys then
        setInsert faceIter res
      else res) []

/-- Embeds `Query::tetrahedra(faceKeys)`. -/
def Query.tetrahedra {R : Type} (q : Query R) (faceKeys : List Nat) : List Nat :=
  q.mesh.tetrahedra.foldl
    (fun res tetIter =>
      let faces := q.mesh.tet_face_keys tetIter
      if faces.1 ∈ faceKeys ∧ faces.2.1 ∈ faceKeys ∧ faces.2.2.1 ∈ faceKeys ∧
          faces.2.2.2 ∈ faceKeys then
        setInsert tetIter res
      else res) []

/-! ## `double` arithmetic

`double` is IEEE 754 binary64. Each of `+`, `-`, `*` returns the exact result
rounded to nearest, ties to even (the default rounding mode); products and sums
are rounded one by one (no fused multiply-add). A finite value is kept as sign,
magnitude and exponent; the operations return 53-bit magnitudes with exponents
from `-1074` to `971`.
-/

/-- An IEEE 754 binary64 value (`double`): the finite value `(-1)^neg * m * 2^e`, an
infinity, or a NaN. -/
inductive F64 where
  | finite (neg : Bool) (m : Nat) (e : Int)
  | inf (neg : Bool)
  | nan

/-- Number of binary digits of `n`, with `fuel` at least that number. -/
def bitLengthAux : Nat → Nat → Nat
  | 0, _ => 0
  | fuel + 1, n => if n = 0 then 0 else bitLengthAux fuel (n / 2) + 1

/-- Number of binary digits of `n`. -/
def bitLength (n : Nat) : Nat := bitLengthAux n n

/-- The quotient of `M` by `2^k` rounded to the nearest integer, ties to even. -/
def roundShift (M k : Nat) : Nat :=
  let q := M / 2 ^ k
  let r := M % 2 ^ k
  if 2 * r < 2 ^ k then q
  else if 2 ^ k < 2 * r then q + 1
  else if q % 2 = 0 then q else q + 1

/-- Rounding of the exact value `(-1)^neg * M * 2^E` to binary64, to nearest with
ties to even: 53 significant bits, least exponent `-1074`, infinity from `2^1024`. -/
def F64.round (neg : Bool) (M : Nat) (E : Int) : F64 :=
  if M = 0 then F64.finite neg 0 0
  else
    let e : Int := max (E + (bitLength M : Int) - 53) (-1074)
    let m : Nat := if e ≤ E then M * 2 ^ (E - e).toNat else roundShift M (e - E).toNat
    if m = 0 then F64.finite neg 0 0
    else if m = 2 ^ 53 then (if 971 < e + 1 then F64.inf neg else F64.finite neg (2 ^ 52) (e + 1))
    else if 971 < e then F64.inf neg
    else F64.finite neg m e

/-- The integer `(-1)^neg * m * 2^k`. -/
def signedScaled (neg : Bool) (m k : Nat) : Int :=
  if neg then -((m * 2 ^ k : Nat) : Int) else ((m * 2 ^ k : Nat) : Int)

/-- Embeds unary minus on `double`. -/
def F64.neg : F64 → F64
  | F64.finite s m e => F64.finite (!s) m e
  | F64.inf s => F64.inf (!s)
  | F64.nan => F64.nan

/-- Embeds `*` on `double`. -/
def F64.mul : F64 → F64 → F64
  | F64.finite s m e, F64.finite s' m' e' => F64.round (xor s s') (m * m') (e + e')
  | F64.finite s m _, F64.inf s' => if m = 0 then F64.nan else F64.inf (xor s s')
  | F64.inf s, F64.finite s' m' _ => if m' = 0 then F64.nan else F64.inf (xor s s')
  | F64.inf s, F64.inf s' => F64.inf (xor s s')
  | _, _ => F64.nan

/-- Embeds `+` on `double`. -/
def F64.add : F64 → F64 → F64
  | F64.finite s m e, F64.finite s' m' e' =>
    let e0 := min e e'
    let sum := signedScaled s m (e - e0).toNat + signedScaled s' m' (e' - e0).toNat
    if sum = 0 then F64.finite (s && s') 0 0
    else F64.round (decide (sum < 0)) sum.natAbs e0
  | F64.finite _ _ _, F64.inf s' => F64.inf s'
  | F64.inf s, F64.finite _ _ _ => F64.inf s
  | F64.inf s, F64.inf s' => if s = s' then F64.inf s else F64.nan
  | _, _ => F64.nan

/-- Embeds binary `-` on `double`. -/
def F64.sub (a b : F64) : F64 := F64.add a (F64.neg b)

/-- Embeds `<` on `double`. -/
def F64.lt : F64 → F64 → Bool
  | F64.finite s m e, F64.finite s' m' e' =>
    let e0 := min e e'
    decide (signedScaled s m (e - e0).toNat < signedScaled s' m' (e' - e0).toNat)
  | F64.finite _ _ _, F64.inf s' => !s'
  | F64.inf s, F64.finite _ _ _ => s
  | F64.inf s, F64.inf s' => s && !s'
  | _, _ => false

instance : Neg F64 := ⟨F64.neg⟩

instance : Add F64 := ⟨F64.add⟩

instance : Sub F64 := ⟨F64.sub⟩

instance : Mul F64 := ⟨F64.mul⟩

instance : LT F64 := ⟨fun a b => F64.lt a b = true⟩

instance (a b : F64) : Decidable (a < b) := inferInstanceAs (Decidable (F64.lt a b = true))

/-- The `double` zero. -/
def F64.zero : F64 := F64.finite false 0 0

/-- The `double` nearest to an integer (exact up to `2^53` in absolute value). -/
def F64.ofInt (n : Int) : F64 := F64.round (decide (n < 0)) n.natAbs 0

/-- The rational value of a finite `double`; `0` for an infinity and a NaN. -/
def F64.toRat : F64 → ℚ
  | F64.finite s m e => (if s then -1 else 1) * (m : ℚ) * (2 : ℚ) ^ e
  | _ => 0

/-- A `double` that is neither an infinity nor a NaN. -/
def F64.isFinite : F64 → Bool
  | F64.finite _ _ _ => true
  | _ => false

/-- A `double` that does not compare below zero for its sign: a finite value that
has no sign or is zero, the positive infinity, or a NaN. -/
def F64.notNegative : F64 → Prop
  | F64.finite s m _ => s = false ∨ m = 0
  | F64.inf s => s = false
  | F64.nan => True

/-! ## Neighbourhood -/

/-- Vector difference (`operator-` of `CGLA`). -/
def Vec3.sub {R : Type} [Sub R] (a b : Vec3 R) : Vec3 R := ⟨a.x - b.x, a.y - b.y, a.z - b.z⟩

/-- Vector sum (`operator+` of `CGLA`). -/
def Vec3.add {R : Type} [Add R] (a b : Vec3 R) : Vec3 R := ⟨a.x + b.x, a.y + b.y, a.z + b.z⟩

/-- Modelled from the spec: squared length of a vector (`CGLA::sqr_length`), the
three squares summed from left to right. -/
def sqr_length {R : Type} [Add R] [Mul R] (v : Vec3 R) : R := v.x * v.x + v.y * v.y + v.z * v.z

/-- Embeds `Query::neighborhood(vec3 from, double max_distance)`, in `double`
arithmetic. -/
def Query.neighborhood (q : Query F64) (from_pos : Vec3 F64) (max_distance : F64) : List Nat :=
  let max_distanceSqr := max_distance * max_distance
  q.mesh.nodes.foldl
    (fun res nodeiter =>
      let to_pos := q.mesh.node_pos nodeiter
      let lengthSqr := sqr_length (Vec3.sub from_pos to_pos)
      if lengthSqr < max_distanceSqr then setInsert nodeiter res else res) []

/-- Embeds `Query::neighborhood(NodeKey from_node, double max_distance)`. -/
def Query.neighborhood_node (q : Query F64) (from_node : Nat) (max_distance : F64) :
    List Nat :=
  let from_pos := q.mesh.node_pos from_node
  q.neighborhood from_pos max_distance

/-- In the spec's words: the square of the Euclidean distance of two points with
finite coordinates, as a rational number. -/
def euclidSqr (a b : Vec3 F64) : ℚ :=
  (a.x.toRat - b.x.toRat) ^ 2 + (a.y.toRat - b.y.toRat) ^ 2 + (a.z.toRat - b.z.toRat) ^ 2

/-! ## Raycast -/

/-- A ray (`CGLA::Ray`): origin and direction. -/
structure Ray (R : Type) where
  origin : Vec3 R
  direction : Vec3 R

/-- The filter of a raycast (`QueryType`). -/
inductive QueryType where
  | All
  | Interface
  | Boundary
  deriving DecidableEq

/-- Modelled from the spec: the external numeric primitives, namely the value of
`std::numeric_limits<double>::max()` and the ray-triangle intersection, which
returns a hit flag and a signed distance (`some dist` on a hit). -/
structure Geometry (R : Type) where
  dblMax : R
  intersect_triangle : Ray R → Vec3 R → Vec3 R → Vec3 R → Option R

/-- Embeds `default_face_traits::is_boundary` (attributes.h). -/
def is_boundary (flags : Nat) : Bool := (flags >>> 1) % 2 == 1

/-- Embeds `default_face_traits::is_interface` (attributes.h). -/
def is_interface (flags : Nat) : Bool := (flags >>> 3) % 2 == 1

/-- Embeds `addEpsilonOffset`. -/
def addEpsilonOffset {R : Type} [LinearOrderedField R] (v : Vec3 R) : Vec3 R :=
  Vec3.add v ⟨1 / 1000, 3 / 1000, 7 / 1000⟩

/-- Modelled from the spec: `mesh->get_pos(node_keys)`, the positions in the
order of the keys. -/
def get_pos {R : Type} (m : ISMesh R) (ks : Nat × Nat × Nat) : Vec3 R × Vec3 R × Vec3 R :=
  (m.node_pos ks.1, m.node_pos ks.2.1, m.node_pos ks.2.2)

/-- The intersection test of lines 51-54 and 127-129 on one face. -/
def hitFace {R : Type} (g : Geometry R) (m : ISMesh R) (ray : Ray R) (fk : Nat) : Option R :=
  let nodePos := get_pos m (m.face_node_keys fk)
  g.intersect_triangle ray nodePos.1 nodePos.2.1 nodePos.2.2

/-- Embeds `Query::rebuild_boundary_cache`. -/
def Query.rebuild_boundary_cache {R : Type} (q : Query R) : Query R :=
  -- lines 76-80: a fresh vector when there is none, else the old one cleared
  let cleared : List Nat :=
    match q.boundary_faces with
    | none => []
    | some old => old.take 0
  { q with
    boundary_faces :=
      some (q.mesh.faces.foldl
        (fun cache f => if is_boundary (q.mesh.face_flags f) then cache ++ [f] else cache)
        cleared) }

/-- Result of a raycast (`QueryResult`). -/
structure QueryResult (R : Type) where
  first_intersection : Nat
  dist : R
  ray : Ray R
  query_type : QueryType
  mesh : Option (ISMesh R)

/-- Modelled from the spec: the default `QueryResult()` has the sentinel face key
and no mesh reference; its other members are never read. -/
def QueryResult.empty {R : Type} [LinearOrderedField R] : QueryResult R :=
  { first_intersection := sentinelKey, dist := 0, ray := ⟨⟨0, 0, 0⟩, ⟨0, 0, 0⟩⟩,
    query_type := QueryType.All, mesh := none }

/-- Lines 50-66: one round of the scan over the cached boundary faces, on the
state `(firstIntersection, dist)`. -/
def raycastStep {R : Type} [LinearOrderedField R] (g : Geometry R) (m : ISMesh R) (ray : Ray R)
    (st : Nat × R) (faceIter : Nat) : Nat × R :=
  match hitFace g m ray faceIter with
  | some newDist =>
    if st.2 = g.dblMax then (faceIter, newDist)
    else if newDist < st.2 then (faceIter, newDist)
    else st
  | none => st

/-- Line 43: the ray with its origin moved by `addEpsilonOffset`. -/
def offsetRay {R : Type} [LinearOrderedField R] (ray : Ray R) : Ray R :=
  Ray.mk (addEpsilonOffset ray.origin) ray.direction

/-- The query engine once the cache is ensured (lines 44-46). -/
def Query.ensureCache {R : Type} (q : Query R) : Query R :=
  match q.boundary_faces with
  | none => q.rebuild_boundary_cache
  | some _ => q

/-- The cached boundary faces scanned by a raycast. -/
def Query.cachedFaces {R : Type} (q : Query R) : List Nat :=
  match q.ensureCache.boundary_faces with
  | some cache => cache
  | none => []

/-- Embeds `Query::raycast_faces(ray, queryType)`: the result and the engine (whose
cache may have been built). -/
def Query.raycast_faces {R : Type} [LinearOrderedField R] (g : Geometry R) (q : Query R)
    (ray : Ray R) (queryType : QueryType) : QueryResult R × Query R :=
  let ray1 := offsetRay ray
  let st := q.cachedFaces.foldl (raycastStep g q.mesh ray1) (sentinelKey, g.dblMax)
  if st.1 = sentinelKey then (QueryResult.empty, q.ensureCache)
  else
    ({ first_intersection := st.1, dist := st.2, ray := ray1, query_type := queryType,
       mesh := some q.mesh }, q.ensureCache)

/-! ## The result iterator -/

/-- State of a `QueryResultIterator`. -/
structure QueryResultIterator (R : Type) where
  dist : R
  ray : Ray R
  query_type : QueryType
  tetrahedron_key : List Nat
  face_key : Nat
  mesh : Option (ISMesh R)

/-- Modelled from the spec: difference of a `SimplexSet` and one key. -/
def simplexSetRemove (s : List Nat) (k : Nat) : List Nat := s.filter (fun x => x ≠ k)

/-- Modelled from the spec: difference of two `SimplexSet`s. -/
def simplexSetDiff (s t : List Nat) : List Nat := s.filter (fun x => x ∉ t)

/-- The default `QueryResultIterator()`: sentinel face key, empty tetrahedron
set; the other members are never read. -/
def QueryResultIterator.default {R : Type} [LinearOrderedField R] : QueryResultIterator R :=
  { dist := 0, ray := ⟨⟨0, 0, 0⟩, ⟨0, 0, 0⟩⟩, query_type := QueryType.All,
    tetrahedron_key := [], face_key := sentinelKey, mesh := none }

/-- Embeds `QueryResultIterator::operator==`. -/
def QueryResultIterator.eq {R : Type} (a b : QueryResultIterator R) : Bool :=
  a.face_key == b.face_key

/-- The query-type filter of lines 133-135. -/
def passesFilter {R : Type} (m : ISMesh R) (query_type : QueryType) (fk : Nat) : Bool :=
  query_type = QueryType.All ||
    (query_type = QueryType.Interface && is_interface (m.face_flags fk)) ||
    (query_type = QueryType.Boundary && is_boundary (m.face_flags fk))

/-- Embeds `QueryResultIterator::tetWalking(faces)`: the returned flag and the state. -/
def QueryResultIterator.tetWalking {R : Type} [LinearOrderedField R] (g : Geometry R)
    (m : ISMesh R) (it : QueryResultIterator R) :
    List Nat → Bool × QueryResultIterator R
  | [] => (false, it)
  | current_face_key :: rest =>
    match hitFace g m it.ray current_face_key with
    | some newDist =>
      let it1 : QueryResultIterator R :=
        { it with
          face_key := current_face_key
          tetrahedron_key := simplexSetDiff (m.face_co_boundary current_face_key) it.tetrahedron_key
          dist := newDist }
      (decide (newDist ≥ it1.dist) && passesFilter m it.query_type current_face_key, it1)
    | none => QueryResultIterator.tetWalking g m it rest

/-- The `while` loop of `next()` (lines 107-118) followed by line 120. -/
def QueryResultIterator.nextLoop {R : Type} [LinearOrderedField R] (g : Geometry R)
    (m : ISMesh R) : Nat → QueryResultIterator R → Run (QueryResultIterator R)
  | 0, _ => Run.outOfFuel
  | fuel + 1, it =>
    if it.tetrahedron_key.length > 0 then
      let faces := simplexSetRemove (m.get_faces it.tetrahedron_key) it.face_key
      let oldDist := it.dist
      match QueryResultIterator.tetWalking g m it faces with
      | (true, it1) => Run.done it1
      | (false, it1) =>
        if oldDist ≠ it1.dist then QueryResultIterator.nextLoop g m fuel it1
        else Run.done { it1 with face_key := sentinelKey }
    else Run.done { it with face_key := sentinelKey }

/-- Embeds `QueryResultIterator::next()`; `fuel` bounds the rounds of the loop. -/
def QueryResultIterator.next {R : Type} [LinearOrderedField R] (g : Geometry R) (fuel : Nat)
    (it : QueryResultIterator R) : Run (QueryResultIterator R) :=
  if it.tetrahedron_key.length = 0 then Run.done { it with face_key := sentinelKey }
  else
    match it.mesh with
    | none => Run.undefined
    | some m => QueryResultIterator.nextLoop g m fuel it

/-- The constructor `QueryResultIterator(first, dist, ray, query_type, mesh)`. -/
def QueryResultIterator.create {R : Type} [LinearOrderedField R] (g : Geometry R) (fuel : Nat)
    (first_boundary_intersection : Nat) (dist : R) (ray : Ray R) (query_type : QueryType)
    (m : ISMesh R) : Run (QueryResultIterator R) :=
  let it : QueryResultIterator R :=
    { face_key := first_boundary_intersection, dist := dist,
      ray := Ray.mk ray.origin ray.direction, query_type := query_type, mesh := some m,
      tetrahedron_key := m.face_tet_keys first_boundary_intersection }
  if dist < 0 ∨ query_type = QueryType.Interface then QueryResultIterator.next g fuel it
  else Run.done it

/-- Embeds `QueryResult::end()`. -/
def QueryResult.end_ {R : Type} [LinearOrderedField R] (_r : QueryResult R) :
    QueryResultIterator R :=
  QueryResultIterator.default

/-- Embeds `QueryResult::begin()`. -/
def QueryResult.begin {R : Type} [LinearOrderedField R] (g : Geometry R) (fuel : Nat)
    (r : QueryResult R) : Run (QueryResultIterator R) :=
  match r.mesh with
  | none => Run.done r.end_
  | some m =>
    QueryResultIterator.create g fuel r.first_intersection r.dist r.ray r.query_type m

/-- In the spec's words: `f`, hit at distance `d`, is the closest intersected
face of `cache`, and the first enumerated among those at that distance. -/
def IsFirstMinHit {R : Type} [LinearOrderedField R] (hit : Nat → Option R) (cache : List Nat)
    (f : Nat) (d : R) : Prop :=
  ∃ pre post, cache = pre ++ f :: post ∧ hit f = some d ∧
    (∀ x ∈ pre, ∀ dx, hit x = some dx → d < dx) ∧
    (∀ x ∈ post, ∀ dx, hit x = some dx → d ≤ dx)

/-- The scenario of a tetrahedron `t` whose four faces are the cached boundary
faces, each with `t` as its only incident tetrahedron, and a ray (origin offset as
in the code) whose intersection test succeeds on exactly two of them: `fa` at
distance `d1` and `fb` at distance `d2`, with `d1 < d2`. -/
structure TwoHitTet {R : Type} [LinearOrderedField R] (g : Geometry R) (q : Query R)
    (ray : Ray R) (t fa fb : Nat) (d1 d2 : R) : Prop where
  cache : ∀ f, f ∈ q.cachedFaces ↔ f ∈ keys4 (q.mesh.tet_face_keys t)
  faces : ∀ f, f ∈ q.mesh.get_faces [t] ↔ f ∈ keys4 (q.mesh.tet_face_keys t)
  valid : ∀ f ∈ keys4 (q.mesh.tet_face_keys t), f ≠ sentinelKey
  boundary : ∀ f ∈ keys4 (q.mesh.tet_face_keys t),
    q.mesh.face_tet_keys f = [t] ∧ q.mesh.face_co_boundary f = [t]
  mem_a : fa ∈ keys4 (q.mesh.tet_face_keys t)
  mem_b : fb ∈ keys4 (q.mesh.tet_face_keys t)
  hit_a : hitFace g q.mesh (offsetRay ray) fa = some d1
  hit_b : hitFace g q.mesh (offsetRay ray) fb = some d2
  miss : ∀ f ∈ keys4 (q.mesh.tet_face_keys t), f ≠ fa → f ≠ fb →
    hitFace g q.mesh (offsetRay ray) f = none
  lt : d1 < d2

/-! ## Test data -/

/-- Cross product. -/
def Vec3.cross (a b : Vec3 ℚ) : Vec3 ℚ :=
  ⟨a.y * b.z - a.z * b.y, a.z * b.x - a.x * b.z, a.x * b.y - a.y * b.x⟩

/-- Dot product. -/
def Vec3.dot (a b : Vec3 ℚ) : ℚ := a.x * b.x + a.y * b.y + a.z * b.z

/-- A ray-triangle test over the rationals (Moeller-Trumbore), used as the
intersection primitive of the test geometry. -/
def rayTriangle (ray : Ray ℚ) (v0 v1 v2 : Vec3 ℚ) : Option ℚ :=
  let e1 := Vec3.sub v1 v0
  let e2 := Vec3.sub v2 v0
  let h := Vec3.cross ray.direction e2
  let a := Vec3.dot e1 h
  if a = 0 then none
  else
    let s := Vec3.sub ray.origin v0
    let u := Vec3.dot s h / a
    if u < 0 ∨ 1 < u then none
    else
      let qv := Vec3.cross s e1
      let v := Vec3.dot ray.direction qv / a
      if v < 0 ∨ 1 < u + v then none else some (Vec3.dot e2 qv / a)

/-- Test geometry: exact ray-triangle test; `DBL_MAX` is `2^1024 - 2^971`. -/
def testGeometry : Geometry ℚ :=
  { dblMax := 2 ^ 1024 - 2 ^ 971, intersect_triangle := rayTriangle }

/-- Three tetrahedra: 0 (nodes 0 1 2 3) and 1 (nodes 0 1 4 5) touch along edge 0
only, 2 (nodes 6 7 8 9) is apart. Every face has one incident tetrahedron. -/
def bowtieMesh : ISMesh ℚ where
  nodes := [0, 1, 2, 3, 4, 5, 6, 7, 8, 9]
  edges := [0, 1, 2, 3, 4, 5, 6, 7, 8, 9, 10, 11, 12, 13, 14, 15, 16]
  faces := [0, 1, 2, 3, 4, 5, 6, 7, 8, 9, 10, 11]
  tetrahedra := [0, 1, 2]
  node_pos := fun n =>
    [(⟨0, 0, 0⟩ : Vec3 ℚ), ⟨1, 0, 0⟩, ⟨0, 1, 0⟩, ⟨0, 0, 1⟩, ⟨0, -1, 0⟩, ⟨0, 0, -1⟩,
      ⟨5, 0, 0⟩, ⟨6, 0, 0⟩, ⟨5, 1, 0⟩, ⟨5, 0, 1⟩].getD n ⟨0, 0, 0⟩
  face_flags := fun _ => 2
  edge_node_keys := fun e =>
    [(0, 1), (0, 2), (0, 3), (1, 2), (1, 3), (2, 3), (0, 4), (0, 5), (1, 4), (1, 5), (4, 5),
      (6, 7), (6, 8), (6, 9), (7, 8), (7, 9), (8, 9)].getD e (0, 0)
  edge_face_keys := fun e =>
    [[0, 1, 4, 5], [0, 2], [1, 2], [0, 3], [1, 3], [2, 3], [4, 6], [5, 6], [4, 7], [5, 7],
      [6, 7], [8, 9], [8, 10], [9, 10], [8, 11], [9, 11], [10, 11]].getD e []
  face_node_keys := fun f =>
    [(0, 1, 2), (0, 1, 3), (0, 2, 3), (1, 2, 3), (0, 1, 4), (0, 1, 5), (0, 4, 5), (1, 4, 5),
      (6, 7, 8), (6, 7, 9), (6, 8, 9), (7, 8, 9)].getD f (0, 0, 0)
  face_edge_keys := fun f =>
    [(0, 1, 3), (0, 2, 4), (1, 2, 5), (3, 4, 5), (0, 6, 8), (0, 7, 9), (6, 7, 10), (8, 9, 10),
      (11, 12, 14), (11, 13, 15), (12, 13, 16), (14, 15, 16)].getD f (0, 0, 0)
  face_tet_keys := fun f => if f < 4 then [0] else if f < 8 then [1] else if f < 12 then [2] else []
  face_co_boundary := fun f =>
    if f < 4 then [0] else if f < 8 then [1] else if f < 12 then [2] else []
  tet_face_keys := fun t => [(0, 1, 2, 3), (4, 5, 6, 7), (8, 9, 10, 11)].getD t (0, 0, 0, 0)
  get_faces := fun ts =>
    ts.foldl (fun fs t =>
      fs ++ (keys4 ([(0, 1, 2, 3), (4, 5, 6, 7), (8, 9, 10, 11)].getD t (0, 0, 0, 0))).filter
        (fun f => f ∉ fs)) []

/-- A mesh of one tetrahedron (nodes 0 1 2 3) with its four boundary faces. -/
def singleTetMesh : ISMesh ℚ where
  nodes := [0, 1, 2, 3]
  edges := [0, 1, 2, 3, 4, 5]
  faces := [0, 1, 2, 3]
  tetrahedra := [0]
  node_pos := fun n =>
    [(⟨0, 0, 0⟩ : Vec3 ℚ), ⟨1, 0, 0⟩, ⟨0, 1, 0⟩, ⟨0, 0, 1⟩].getD n ⟨0, 0, 0⟩
  face_flags := fun _ => 2
  edge_node_keys := fun e => [(0, 1), (0, 2), (0, 3), (1, 2), (1, 3), (2, 3)].getD e (0, 0)
  edge_face_keys := fun e => [[0, 1], [0, 2], [1, 2], [0, 3], [1, 3], [2, 3]].getD e []
  face_node_keys := fun f => [(0, 1, 2), (0, 1, 3), (0, 2, 3), (1, 2, 3)].getD f (0, 0, 0)
  face_edge_keys := fun f => [(0, 1, 3), (0, 2, 4), (1, 2, 5), (3, 4, 5)].getD f (0, 0, 0)
  face_tet_keys := fun f => if f < 4 then [0] else []
  face_co_boundary := fun f => if f < 4 then [0] else []
  tet_face_keys := fun _ => (0, 1, 2, 3)
  get_faces := fun ts => if ts = [] then [] else [0, 1, 2, 3]

/-- A ray through the bottom face and the slanted face of `singleTetMesh`. -/
def upRay : Ray ℚ := ⟨⟨1 / 5, 1 / 5, -1⟩, ⟨0, 0, 1⟩⟩

/-- A ray that starts inside `singleTetMesh`, after the bottom face. -/
def insideRay : Ray ℚ := ⟨⟨1 / 5, 1 / 5, 1 / 10⟩, ⟨0, 0, 1⟩⟩

/-- A ray that passes beside `singleTetMesh`. -/
def missRay : Ray ℚ := ⟨⟨3, 3, -1⟩, ⟨0, 0, 1⟩⟩

/-- Engine on `bowtieMesh` with no cache yet. -/
def bowtieQuery : Query ℚ := ⟨bowtieMesh, none⟩

/-- Engine on `singleTetMesh` with no cache yet. -/
def singleTetQuery : Query ℚ := ⟨singleTetMesh, none⟩

/-- A mesh of one node, at the origin. -/
def pointMesh : ISMesh F64 where
  nodes := [0]
  edges := []
  faces := []
  tetrahedra := []
  node_pos := fun _ => ⟨F64.zero, F64.zero, F64.zero⟩
  face_flags := fun _ => 0
  edge_node_keys := fun _ => (0, 0)
  edge_face_keys := fun _ => []
  face_node_keys := fun _ => (0, 0, 0)
  face_edge_keys := fun _ => (0, 0, 0)
  face_tet_keys := fun _ => []
  face_co_boundary := fun _ => []
  tet_face_keys := fun _ => (0, 0, 0, 0)
  get_faces := fun _ => []

/-- Iterator at the bottom face of `singleTetMesh` for `upRay`, `Boundary` query. -/
def upRayStart : QueryResultIterator ℚ :=
  { dist := 993 / 1000, ray := offsetRay upRay, query_type := QueryType.Boundary,
    tetrahedron_key := [0], face_key := 0, mesh := some singleTetMesh }

/-- Iterator in `singleTetMesh` whose ray passes beside the tetrahedron. -/
def missRayStart : QueryResultIterator ℚ :=
  { dist := 0, ray := offsetRay missRay, query_type := QueryType.All,
    tetrahedron_key := [0], face_key := 0, mesh := some singleTetMesh }

/-- Face keys of a set of tetrahedra given by a table of quadruples, in order and
without repetition (used as `get_faces` of the test meshes). -/
def facesOfTets (table : List (Nat × Nat × Nat × Nat)) (ts : List Nat) : List Nat :=
  ts.foldl (fun fs t => fs ++ (keys4 (table.getD t (0, 0, 0, 0))).filter (fun f => f ∉ fs)) []

/-- Two tetrahedra, 0 (nodes 0 1 2 3) and 1 (nodes 0 1 3 4), sharing face 1; their
union is the convex tetrahedron with corners 1 2 3 4. Face 1 is interior, the six
other faces are boundary faces. -/
def wedgeMesh : ISMesh ℚ where
  nodes := [0, 1, 2, 3, 4]
  edges := [0, 1, 2, 3, 4, 5, 6, 7, 8]
  faces := [0, 1, 2, 3, 4, 5, 6]
  tetrahedra := [0, 1]
  node_pos := fun n =>
    [(⟨0, 0, 0⟩ : Vec3 ℚ), ⟨1, 0, 0⟩, ⟨0, 1, 0⟩, ⟨0, 0, 1⟩, ⟨0, -1, 0⟩].getD n ⟨0, 0, 0⟩
  face_flags := fun f => if f = 1 then 0 else if f < 7 then 2 else 0
  edge_node_keys := fun e =>
    [(0, 1), (0, 2), (0, 3), (1, 2), (1, 3), (2, 3), (0, 4), (1, 4), (3, 4)].getD e (0, 0)
  edge_face_keys := fun e =>
    [[0, 1, 4], [0, 2], [1, 2, 5], [0, 3], [1, 3, 6], [2, 3], [4, 5], [4, 6], [5, 6]].getD e []
  face_node_keys := fun f =>
    [(0, 1, 2), (0, 1, 3), (0, 2, 3), (1, 2, 3), (0, 1, 4), (0, 3, 4), (1, 3, 4)].getD f
      (0, 0, 0)
  face_edge_keys := fun f =>
    [(0, 1, 3), (0, 2, 4), (1, 2, 5), (3, 4, 5), (0, 6, 7), (2, 6, 8), (4, 7, 8)].getD f
      (0, 0, 0)
  face_tet_keys := fun f => [[0], [0, 1], [0], [0], [1], [1], [1]].getD f []
  face_co_boundary := fun f => [[0], [0, 1], [0], [0], [1], [1], [1]].getD f []
  tet_face_keys := fun t => [(0, 1, 2, 3), (1, 4, 5, 6)].getD t (0, 0, 0, 0)
  get_faces := facesOfTets [(0, 1, 2, 3), (1, 4, 5, 6)]

/-- Engine on `wedgeMesh` with no cache yet. -/
def wedgeQuery : Query ℚ := ⟨wedgeMesh, none⟩

/-- A ray that, once offset, meets `wedgeMesh` at the point (1/2, 0, 0) of edge 0,
common to faces 0, 1 and 4, and leaves through face 3. -/
def edgeRay : Ray ℚ := ⟨⟨499 / 1000, -1003 / 1000, -1007 / 1000⟩, ⟨0, 1, 1⟩⟩

/-- Iterator of a `Boundary` query at the entry face 0 of `wedgeMesh` for `edgeRay`. -/
def edgeRayStart : QueryResultIterator ℚ :=
  { dist := 1, ray := offsetRay edgeRay, query_type := QueryType.Boundary,
    tetrahedron_key := [0], face_key := 0, mesh := some wedgeMesh }

/-- Iterator of an `All` query at the entry face 0 of `wedgeMesh` for `edgeRay`. -/
def edgeRayAllStart : QueryResultIterator ℚ :=
  { dist := 1, ray := offsetRay edgeRay, query_type := QueryType.All,
    tetrahedron_key := [0], face_key := 0, mesh := some wedgeMesh }

/-- A ray from far below that, once offset, runs along the line x = y = 1/2 and
touches `singleTetMesh` in one point, (1/2, 1/2, 0) on the edge of nodes 1 and 2,
at distance `DBL_MAX`. -/
def grazingRay : Ray ℚ :=
  ⟨⟨499 / 1000, 497 / 1000, -(2 ^ 1024 - 2 ^ 971) - 7 / 1000⟩, ⟨0, 0, 1⟩⟩

/-- A ray that, once offset, crosses `wedgeMesh` through the interiors of faces 4, 1
and 3, at distances 1/4, 1/2 and 3/4. -/
def crossRay : Ray ℚ := ⟨⟨249 / 1000, -503 / 1000, -257 / 1000⟩, ⟨0, 1, 1⟩⟩

/-- Three tetrahedra 0, 1, 2 around the edge of nodes 0 and 1, connected as in
`foldedFanMesh`, with node positions that embed them: a pyramid with apex node 1
over the triangle of nodes 2, 3, 4, split from node 0 in the interior of its base.
Faces 0, 1, 2 are interior and meet in the edge of nodes 0 and 1; the boundary
(faces 3 to 8) is convex. Tetrahedron 0 lists its side face 4 first. -/
def pyramidMesh : ISMesh ℚ where
  nodes := [0, 1, 2, 3, 4]
  edges := [0, 1, 2, 3, 4, 5, 6, 7, 8, 9]
  faces := [0, 1, 2, 3, 4, 5, 6, 7, 8]
  tetrahedra := [0, 1, 2]
  node_pos := fun n =>
    [(⟨0, 0, 0⟩ : Vec3 ℚ), ⟨0, 0, 1⟩, ⟨2, 0, 0⟩, ⟨-1, 2, 0⟩, ⟨-1, -2, 0⟩].getD n ⟨0, 0, 0⟩
  face_flags := fun f => if f < 3 then 0 else if f < 9 then 2 else 0
  edge_node_keys := fun e =>
    [(0, 1), (0, 2), (0, 3), (0, 4), (1, 2), (1, 3), (1, 4), (2, 3), (3, 4), (4, 2)].getD e
      (0, 0)
  edge_face_keys := fun e =>
    [[0, 1, 2], [0, 3, 7], [1, 3, 5], [2, 5, 7], [0, 4, 8], [1, 4, 6], [2, 6, 8], [3, 4],
      [5, 6], [7, 8]].getD e []
  face_node_keys := fun f =>
    [(0, 1, 2), (0, 1, 3), (0, 1, 4), (0, 2, 3), (1, 2, 3), (0, 3, 4), (1, 3, 4), (0, 4, 2),
      (1, 4, 2)].getD f (0, 0, 0)
  face_edge_keys := fun f =>
    [(0, 1, 4), (0, 2, 5), (0, 3, 6), (1, 2, 7), (4, 5, 7), (2, 3, 8), (5, 6, 8), (3, 1, 9),
      (6, 4, 9)].getD f (0, 0, 0)
  face_tet_keys := fun f => [[0, 2], [0, 1], [1, 2], [0], [0], [1], [1], [2], [2]].getD f []
  face_co_boundary := fun f =>
    [[0, 2], [0, 1], [1, 2], [0], [0], [1], [1], [2], [2]].getD f []
  tet_face_keys := fun t => [(4, 0, 1, 3), (1, 2, 5, 6), (2, 0, 7, 8)].getD t (0, 0, 0, 0)
  get_faces := facesOfTets [(4, 0, 1, 3), (1, 2, 5, 6), (2, 0, 7, 8)]

/-- Engine on `pyramidMesh` with no cache yet. -/
def pyramidQuery : Query ℚ := ⟨pyramidMesh, none⟩

/-- A ray that, once offset, enters `pyramidMesh` through the interior of face 4 at
distance 3/5, passes through the point (0, 0, 1/2) of the interior edge of nodes 0
and 1 at distance 1, and leaves through the interior of face 6 at distance 3/2. -/
def backRay : Ray ℚ := ⟨⟨999 / 1000, 997 / 1000, 493 / 1000⟩, ⟨-1, -1, 0⟩⟩

/-- A ray that, once offset, enters `pyramidMesh` through the interior of face 8 at
distance 8/5, passes through the point (0, 0, 1/2) of the interior edge of nodes 0
and 1 at distance 2, and leaves through the interior of face 6 at distance 5/2. -/
def roundRay : Ray ℚ := ⟨⟨1999 / 1000, -2003 / 1000, 493 / 1000⟩, ⟨-1, 1, 0⟩⟩

/-- Iterator of an `All` query at the entry face 4 of `pyramidMesh` for `backRay`. -/
def backStart : QueryResultIterator ℚ :=
  { dist := 3 / 5, ray := offsetRay backRay, query_type := QueryType.All,
    tetrahedron_key := [0], face_key := 4, mesh := some pyramidMesh }

/-- Iterator of an `All` query at the entry face 8 of `pyramidMesh` for `roundRay`. -/
def roundStart : QueryResultIterator ℚ :=
  { dist := 8 / 5, ray := offsetRay roundRay, query_type := QueryType.All,
    tetrahedron_key := [2], face_key := 8, mesh := some pyramidMesh }

/-- Iterator of the `All` query for `roundRay` at face `f` of `pyramidMesh`, on the
interior edge at distance 2, with candidate tetrahedron `t`. -/
def roundAt (f t : Nat) : QueryResultIterator ℚ :=
  { dist := 2, ray := offsetRay roundRay, query_type := QueryType.All,
    tetrahedron_key := [t], face_key := f, mesh := some pyramidMesh }

/-- Iterator of an `All` query at the entry face 4 of `wedgeMesh` for `crossRay`. -/
def crossRayStart : QueryResultIterator ℚ :=
  { dist := 1 / 4, ray := offsetRay crossRay, query_type := QueryType.All,
    tetrahedron_key := [1], face_key := 4, mesh := some wedgeMesh }

/-! ## Attribute records (`attributes.h`) -/

/-- The assignment `if (b) flags |= mask; else flags &= ~mask;` on an `unsigned int`
flag word; `~mask` is the complement within 32 bits. -/
def assignMask (flags mask : Nat) (b : Bool) : Nat :=
  if b then flags ||| mask else flags &&& (4294967295 ^^^ mask)

/-- Attribute record of a node: position, destination and flag word. -/
structure default_node_traits (R : Type) where
  p : Vec3 R
  p_new : Vec3 R
  flags : Nat

/-- Attribute record of an edge: the flag word. -/
structure default_edge_traits where
  flags : Nat
  deriving DecidableEq

/-- Attribute record of a face: the flag word. -/
structure default_face_traits where
  flags : Nat
  deriving DecidableEq

namespace default_node_traits

/-- Embeds `get_pos()`. -/
def get_pos {R : Type} (t : default_node_traits R) : Vec3 R := t.p

/-- Embeds `get_destination()`. -/
def get_destination {R : Type} (t : default_node_traits R) : Vec3 R := t.p_new

/-- Embeds `is_crossing()`. -/
def is_crossing {R : Type} (t : default_node_traits R) : Bool := t.flags % 2 == 1

/-- Embeds `is_boundary()`. -/
def is_boundary {R : Type} (t : default_node_traits R) : Bool := (t.flags >>> 1) % 2 == 1

/-- Embeds `is_interface()`. -/
def is_interface {R : Type} (t : default_node_traits R) : Bool := (t.flags >>> 2) % 2 == 1

/-- Embeds `set_crossing(b)`. -/
def set_crossing {R : Type} (t : default_node_traits R) (b : Bool) : default_node_traits R :=
  { t with flags := assignMask t.flags 1 b }

/-- Embeds `set_boundary(b)`. -/
def set_boundary {R : Type} (t : default_node_traits R) (b : Bool) : default_node_traits R :=
  { t with flags := assignMask t.flags 2 b }

/-- Embeds `set_interface(b)`. -/
def set_interface {R : Type} (t : default_node_traits R) (b : Bool) : default_node_traits R :=
  { t with flags := assignMask t.flags 4 b }

end default_node_traits

namespace default_edge_traits

/-- Embeds `is_crossing()`. -/
def is_crossing (t : default_edge_traits) : Bool := t.flags % 2 == 1

/-- Embeds `is_boundary()`. -/
def is_boundary (t : default_edge_traits) : Bool := (t.flags >>> 1) % 2 == 1

/-- Embeds `is_interface()`. -/
def is_interface (t : default_edge_traits) : Bool := (t.flags >>> 2) % 2 == 1

/-- Embeds `set_crossing(b)`. -/
def set_crossing (t : default_edge_traits) (b : Bool) : default_edge_traits :=
  { t with flags := assignMask t.flags 1 b }

/-- Embeds `set_boundary(b)`. -/
def set_boundary (t : default_edge_traits) (b : Bool) : default_edge_traits :=
  { t with flags := assignMask t.flags 2 b }

/-- Embeds `set_interface(b)`. -/
def set_interface (t : default_edge_traits) (b : Bool) : default_edge_traits :=
  { t with flags := assignMask t.flags 4 b }

end default_edge_traits

namespace default_face_traits

/-- Embeds `is_locked()`. -/
def is_locked (t : default_face_traits) : Bool := t.flags % 2 == 1

/-- Embeds `is_boundary()`. -/
def is_boundary (t : default_face_traits) : Bool := (t.flags >>> 1) % 2 == 1

/-- Embeds `is_processed()`. -/
def is_processed (t : default_face_traits) : Bool := (t.flags >>> 2) % 2 == 1

/-- Embeds `is_interface()`. -/
def is_interface (t : default_face_traits) : Bool := (t.flags >>> 3) % 2 == 1

/-- Embeds `is_error()`. -/
def is_error (t : default_face_traits) : Bool := (t.flags >>> 4) % 2 == 1

/-- Embeds `set_error(b)`. -/
def set_error (t : default_face_traits) (b : Bool) : default_face_traits :=
  { t with flags := assignMask t.flags 16 b }

/-- Embeds `set_locked(b)`. -/
def set_locked (t : default_face_traits) (b : Bool) : default_face_traits :=
  { t with flags := assignMask t.flags 1 b }

/-- Embeds `set_boundary(b)`. -/
def set_boundary (t : default_face_traits) (b : Bool) : default_face_traits :=
  { t with flags := assignMask t.flags 2 b }

/-- Embeds `set_processed(b)`. -/
def set_processed (t : default_face_traits) (b : Bool) : default_face_traits :=
  { t with flags := assignMask t.flags 4 b }

/-- Embeds `set_interface(b)`. -/
def set_interface (t : default_face_traits) (b : Bool) : default_face_traits :=
  { t with flags := assignMask t.flags 8 b }

end default_face_traits

/-- The two flag words are equal or differ in the bits of `mask` only. -/
def DiffersOnlyIn (mask new old : Nat) : Prop := new = old ∨ new ^^^ old = mask

/-! ## Iterator: comparison and the filter in the spec's words -/

/-- Embeds `QueryResultIterator::operator!=`. -/
def QueryResultIterator.ne {R : Type} (a b : QueryResultIterator R) : Bool :=
  !(a.face_key == b.face_key)

/-- In the spec's words: `All` accepts any face, `Interface` only faces with the
interface flag, `Boundary` only faces with the boundary flag. -/
def filterAccepts {R : Type} (m : ISMesh R) (query_type : QueryType) (fk : Nat) : Bool :=
  match query_type with
  | QueryType.All => true
  | QueryType.Interface => is_interface (m.face_flags fk)
  | QueryType.Boundary => is_boundary (m.face_flags fk)

/-- The faces scanned by one round of `next()`: `get_faces(tetrahedron_key) - face_key`. -/
def QueryResultIterator.scanFaces {R : Type} (m : ISMesh R) (it : QueryResultIterator R) :
    List Nat :=
  simplexSetRemove (m.get_faces it.tetrahedron_key) it.face_key

/-! ## Iteration of a raycast result, crossings, convexity -/

/-- In the spec's words: the iterators met when a raycast result is iterated,
`begin()` first and then `operator++` for as long as the iterator differs from
`end()`. -/
inductive Visits {R : Type} [LinearOrderedField R] (g : Geometry R) (r : QueryResult R) :
    QueryResultIterator R → Prop where
  | first (fuel : Nat) (it : QueryResultIterator R) :
      r.begin g fuel = Run.done it → Visits g r it
  | step (fuel : Nat) (it it1 : QueryResultIterator R) :
      Visits g r it → it.face_key ≠ sentinelKey → it.next g fuel = Run.done it1 →
      Visits g r it1

/-- In the spec's words: the ray crosses tetrahedron `t` through exactly two of its
faces, entering by `fentry` at distance `dentry` and leaving by `fleave` at the
larger distance `dleave`. -/
structure Pierces {R : Type} [LinearOrderedField R] (g : Geometry R) (m : ISMesh R)
    (ray : Ray R) (t fentry fleave : Nat) (dentry dleave : R) : Prop where
  mem_entry : fentry ∈ m.get_faces [t]
  mem_leave : fleave ∈ m.get_faces [t]
  hit_entry : hitFace g m ray fentry = some dentry
  hit_leave : hitFace g m ray fleave = some dleave
  miss : ∀ f ∈ m.get_faces [t], f ≠ fentry → f ≠ fleave → hitFace g m ray f = none
  lt : dentry < dleave

/-- In the spec's words: a ray (origin offset as in the code) that meets no edge
and no vertex of an embedded mesh. It enters the mesh by the closest intersected
cached boundary face, crossing the tetrahedron of that face; behind the face by
which it leaves a tetrahedron there is no tetrahedron, or one tetrahedron, which
it crosses entering by that face. The sentinel key is no face. -/
structure CrossesCleanly {R : Type} [LinearOrderedField R] (g : Geometry R) (q : Query R)
    (ray : Ray R) : Prop where
  valid : hitFace g q.mesh (offsetRay ray) sentinelKey = none
  enters : ∀ f d, IsFirstMinHit (hitFace g q.mesh (offsetRay ray)) q.cachedFaces f d →
    ∃ t fleave dleave, q.mesh.face_tet_keys f = [t] ∧
      Pierces g q.mesh (offsetRay ray) t f fleave d dleave
  onward : ∀ t fentry fleave dentry dleave,
    Pierces g q.mesh (offsetRay ray) t fentry fleave dentry dleave →
    simplexSetDiff (q.mesh.face_co_boundary fleave) [t] = [] ∨
      ∃ t1 fleave1 dleave1, simplexSetDiff (q.mesh.face_co_boundary fleave) [t] = [t1] ∧
        Pierces g q.mesh (offsetRay ray) t1 fleave fleave1 dleave dleave1

/-- Six times the signed volume of the tetrahedron `a b c d`. -/
def orient3 (a b c d : Vec3 ℚ) : ℚ :=
  Vec3.dot (Vec3.cross (Vec3.sub b a) (Vec3.sub c a)) (Vec3.sub d a)

/-- In the spec's words: the boundary of the mesh is convex, that is, the plane of
every boundary face has all the nodes of the mesh on one of its sides. -/
def convexBoundary (m : ISMesh ℚ) : Prop :=
  ∀ f ∈ m.faces, is_boundary (m.face_flags f) = true →
    (∀ n ∈ m.nodes,
      0 ≤ orient3 (m.node_pos (m.face_node_keys f).1) (m.node_pos (m.face_node_keys f).2.1)
        (m.node_pos (m.face_node_keys f).2.2) (m.node_pos n)) ∨
    (∀ n ∈ m.nodes,
      orient3 (m.node_pos (m.face_node_keys f).1) (m.node_pos (m.face_node_keys f).2.1)
        (m.node_pos (m.face_node_keys f).2.2) (m.node_pos n) ≤ 0)

/-- Invariant of the `All` walk of a ray that crosses the mesh `m` cleanly: the
iterator is at the end, or has no candidate tetrahedron, or is at the face by which
the ray enters its one candidate tetrahedron, with the distance of that face. -/
def walkInvariant {R : Type} [LinearOrderedField R] (g : Geometry R) (m : ISMesh R)
    (ray : Ray R) (it : QueryResultIterator R) : Prop :=
  it.mesh = some m ∧ it.ray = ray ∧ it.query_type = QueryType.All ∧
    (it.tetrahedron_key = [] ∨
      ∃ t fleave dleave, it.tetrahedron_key = [t] ∧
        Pierces g m ray t it.face_key fleave it.dist dleave)

/-! # Lemmas -/

/-! ## Sets -/

theorem mem_setInsert (k x : Nat) (s : List Nat) : x ∈ setInsert k s ↔ x = k ∨ x ∈ s := by
  induction s with
  | nil => simp [setInsert]
  | cons y ys ih =>
    unfold setInsert
    split_ifs with h1 h2
    · simp
    · subst h2
      simp
    · simp [ih]
      tauto

theorem mem_setInsertAll (ks : List Nat) (x : Nat) (s : List Nat) :
    x ∈ setInsertAll ks s ↔ x ∈ ks ∨ x ∈ s := by
  unfold setInsertAll
  induction ks generalizing s with
  | nil => simp
  | cons k ks ih =>
    simp only [List.foldl_cons, ih, mem_setInsert, List.mem_cons]
    tauto

theorem mem_foldl_setInsertAll (g : Nat → List Nat) (l : List Nat) (init : List Nat) (x : Nat) :
    x ∈ l.foldl (fun acc a => setInsertAll (g a) acc) init ↔
      x ∈ init ∨ ∃ a ∈ l, x ∈ g a := by
  induction l generalizing init with
  | nil => simp
  | cons a l ih =>
    simp only [List.foldl_cons, ih, mem_setInsertAll, List.mem_cons]
    constructor
    · rintro ((h | h) | ⟨b, hb, hx⟩)
      · exact Or.inr ⟨a, Or.inl rfl, h⟩
      · exact Or.inl h
      · exact Or.inr ⟨b, Or.inr hb, hx⟩
    · rintro (h | ⟨b, hb | hb, hx⟩)
      · exact Or.inl (Or.inr h)
      · subst hb
        exact Or.inl (Or.inl hx)
      · exact Or.inr ⟨b, hb, hx⟩

theorem mem_foldl_setInsert_if (p : Nat → Prop) [DecidablePred p] (l init : List Nat) (x : Nat) :
    x ∈ l.foldl (fun res a => if p a then setInsert a res else res) init ↔
      x ∈ init ∨ (x ∈ l ∧ p x) := by
  induction l generalizing init with
  | nil => simp
  | cons a l ih =>
    simp only [List.foldl_cons, ih, List.mem_cons]
    by_cases hp : p a
    · simp only [hp, if_true, mem_setInsert]
      constructor
      · rintro ((h | h) | ⟨h1, h2⟩)
        · exact Or.inr ⟨Or.inl h, h ▸ hp⟩
        · exact Or.inl h
        · exact Or.inr ⟨Or.inr h1, h2⟩
      · rintro (h | ⟨h1 | h1, h2⟩)
        · exact Or.inl (Or.inr h)
        · exact Or.inl (Or.inl h1)
        · exact Or.inr ⟨h1, h2⟩
    · simp only [hp, if_false]
      constructor
      · rintro (h | ⟨h1, h2⟩)
        · exact Or.inl h
        · exact Or.inr ⟨Or.inr h1, h2⟩
      · rintro (h | ⟨h1 | h1, h2⟩)
        · exact Or.inl h
        · exact absurd (h1 ▸ h2) hp
        · exact Or.inr ⟨h1, h2⟩

theorem setInsertAll_ne_nil (ks s : List Nat) (h : ks ≠ [] ∨ s ≠ []) : setInsertAll ks s ≠ [] := by
  intro hnil
  rcases h with h | h
  · obtain ⟨x, xs, rfl⟩ := List.exists_cons_of_ne_nil h
    have : x ∈ setInsertAll (x :: xs) s := (mem_setInsertAll _ _ _).mpr (Or.inl (by simp))
    rw [hnil] at this
    simp at this
  · obtain ⟨x, xs, rfl⟩ := List.exists_cons_of_ne_nil h
    have : x ∈ setInsertAll ks (x :: xs) := (mem_setInsertAll _ _ _).mpr (Or.inr (by simp))
    rw [hnil] at this
    simp at this

/-! ## Closure of a tetrahedron set -/

theorem mem_closureFaces {R : Type} (m : ISMesh R) (tets : List Nat) (f : Nat) :
    f ∈ closureFaces m tets ↔ ∃ t ∈ tets, f ∈ keys4 (m.tet_face_keys t) := by
  unfold closureFaces
  rw [mem_foldl_setInsertAll (fun t => keys4 (m.tet_face_keys t))]
  simp

theorem mem_closureEdges {R : Type} (m : ISMesh R) (faces : List Nat) (e : Nat) :
    e ∈ closureEdges m faces ↔ ∃ f ∈ faces, e ∈ keys3 (m.face_edge_keys f) := by
  unfold closureEdges
  rw [mem_foldl_setInsertAll (fun f => keys3 (m.face_edge_keys f))]
  simp

theorem mem_closureNodes {R : Type} (m : ISMesh R) (edges : List Nat) (n : Nat) :
    n ∈ closureNodes m edges ↔ ∃ e ∈ edges, n ∈ keys2 (m.edge_node_keys e) := by
  unfold closureNodes
  rw [mem_foldl_setInsertAll (fun e => keys2 (m.edge_node_keys e))]
  simp

theorem mem_of_mem_eraseTets (d : List Nat) (ts : List Nat) (x : Nat)
    (h : x ∈ eraseTets d ts) : x ∈ ts := by
  unfold eraseTets at h
  induction d generalizing ts with
  | nil => simpa using h
  | cons k d ih =>
    simp only [List.foldl_cons] at h
    have h2 := ih _ h
    split_ifs at h2
    · exact List.mem_of_mem_erase h2
    · exact h2

/-! ## The shape of a returning run of `filter_subset` -/

theorem filter_subset_fuel_step {R : Type} (m : ISMesh R) (fuel : Nat) (s r : Selection)
    (h : filter_subset_fuel m (fuel + 1) s = Run.done r) :
    (IsFixedPoint m r ∧ r.tets = s.tets) ∨
      ∃ tetLookup tetsToDelete, tetLookupOf s.tets = some tetLookup ∧
        tetsToDeleteOf m tetLookup (closureEdges m (closureFaces m s.tets)) = some tetsToDelete ∧
        tetsToDelete ≠ [] ∧
        filter_subset_fuel m fuel
          { nodes := closureNodes m (closureEdges m (closureFaces m s.tets)),
            edges := closureEdges m (closureFaces m s.tets),
            faces := closureFaces m s.tets,
            tets := eraseTets tetsToDelete s.tets } = Run.done r := by
  simp only [filter_subset_fuel] at h
  split at h
  · exact absurd h (by simp)
  · rename_i look hlook
    split at h
    · exact absurd h (by simp)
    · rename_i del hdel
      split_ifs at h with hne
      · exact Or.inr ⟨look, del, hlook, hdel, hne, h⟩
      · left
        simp only [Run.done.injEq] at h
        subst h
        simp only [ne_eq, not_not] at hne
        subst hne
        exact ⟨⟨rfl, rfl, rfl, look, hlook, hdel⟩, rfl⟩

theorem filter_subset_fuel_fixed {R : Type} (m : ISMesh R) (fuel : Nat) (s r : Selection)
    (h : filter_subset_fuel m fuel s = Run.done r) :
    IsFixedPoint m r ∧ ∀ t ∈ r.tets, t ∈ s.tets := by
  induction fuel generalizing s with
  | zero => simp [filter_subset_fuel] at h
  | succ fuel ih =>
    rcases filter_subset_fuel_step m fuel s r h with ⟨hfix, htets⟩ | ⟨look, del, _, _, _, hrec⟩
    · exact ⟨hfix, fun t ht => htets ▸ ht⟩
    · obtain ⟨hfix, hsub⟩ := ih _ hrec
      exact ⟨hfix, fun t ht => mem_of_mem_eraseTets del s.tets t (hsub t ht)⟩

theorem filter_subset_fuel_of_fixed {R : Type} (m : ISMesh R) (fuel : Nat)
    (nodes edges faces : List Nat) (r : Selection) (h : IsFixedPoint m r) :
    filter_subset_fuel m (fuel + 1)
      { nodes := nodes, edges := edges, faces := faces, tets := r.tets } = Run.done r := by
  obtain ⟨hf, he, hn, look, hlook, hdel⟩ := h
  rw [he, hf] at hdel
  simp only [filter_subset_fuel, hlook, hdel]
  cases r
  simp_all

theorem filter_subset_fuel_nil {R : Type} (m : ISMesh R) (fuel : Nat)
    (nodes edges faces : List Nat) :
    filter_subset_fuel m (fuel + 1)
      { nodes := nodes, edges := edges, faces := faces, tets := [] } =
      Run.done { nodes := [], edges := [], faces := [], tets := [] } := by
  simp [filter_subset_fuel, closureFaces, closureEdges, closureNodes, tetLookupOf, maxKeyOf,
    tetsToDeleteOf]

/-! ## The membership array -/

theorem keyToInt_inj (a b : Nat) (ha : a < 4294967296) (hb : b < 4294967296)
    (h : keyToInt a = keyToInt b) : a = b := by
  unfold keyToInt at h
  rw [Nat.mod_eq_of_lt ha, Nat.mod_eq_of_lt hb] at h
  split_ifs at h <;> omega

theorem foldlM_vecSet_length {l : List Nat} {init look : List Bool}
    (h : l.foldlM (fun look t => vecSet look (keyToInt t) true) init = some look) :
    look.length = init.length := by
  induction l generalizing init with
  | nil =>
    simp only [List.foldlM_nil, pure, Option.some.injEq] at h
    subst h
    rfl
  | cons a l ih =>
    simp only [List.foldlM_cons, bind, Option.bind_eq_some] at h
    obtain ⟨mid, hmid, hrest⟩ := h
    unfold vecSet at hmid
    split_ifs at hmid with hb
    simp only [Option.some.injEq] at hmid
    subst hmid
    rw [ih hrest, List.length_set]

theorem foldlM_vecSet {l : List Nat} {init look : List Bool}
    (h : l.foldlM (fun look t => vecSet look (keyToInt t) true) init = some look) :
    ∀ i : Nat, look[i]? = some true ↔
      (init[i]? = some true ∨ (i < init.length ∧ ∃ t ∈ l, keyToInt t = (i : Int))) := by
  induction l generalizing init with
  | nil =>
    simp only [List.foldlM_nil, pure, Option.some.injEq] at h
    subst h
    simp
  | cons a l ih =>
    simp only [List.foldlM_cons, bind, Option.bind_eq_some] at h
    obtain ⟨mid, hmid, hrest⟩ := h
    unfold vecSet at hmid
    split_ifs at hmid with hb
    simp only [Option.some.injEq] at hmid
    subst hmid
    intro i
    rw [ih hrest i, List.getElem?_set, List.length_set]
    by_cases hi : (keyToInt a).toNat = i
    · simp only [hi, if_true, List.mem_cons, exists_eq_or_imp]
      have : keyToInt a = (i : Int) := by omega
      have hlt : i < init.length := by omega
      simp [this, hlt]
    · simp only [hi, if_false, List.mem_cons, exists_eq_or_imp]
      have : keyToInt a ≠ (i : Int) := by omega
      simp [this]

theorem vecGet_tetLookupOf {tets : List Nat} {look : List Bool} (h : tetLookupOf tets = some look)
    (hfit : ∀ t ∈ tets, t < 4294967296) (k : Nat) (hk : k < 4294967296) (b : Bool)
    (hget : vecGet look (keyToInt k) = some b) : b = decide (k ∈ tets) := by
  unfold tetLookupOf at h
  split_ifs at h
  have key := foldlM_vecSet h (keyToInt k).toNat
  unfold vecGet at hget
  split_ifs at hget with h0
  rw [hget] at key
  have hcast : (((keyToInt k).toNat : Nat) : Int) = keyToInt k := Int.toNat_of_nonneg h0
  cases b with
  | true =>
    have := key.mp rfl
    rcases this with h1 | ⟨_, t, ht, heq⟩
    · rw [List.getElem?_replicate] at h1
      split_ifs at h1
      simp at h1
    · rw [hcast] at heq
      have := keyToInt_inj t k (hfit t ht) hk heq
      subst this
      simp [ht]
  | false =>
    by_contra hc
    simp only [decide_eq_true_eq, Bool.false_eq, decide_eq_false_iff_not, not_not] at hc
    have hlen : (keyToInt k).toNat < (List.replicate (maxKeyOf tets + 1).toNat false).length := by
      rw [← foldlM_vecSet_length h]
      by_contra hge
      rw [List.getElem?_eq_none (by omega)] at hget
      simp at hget
    have := key.mpr (Or.inr ⟨hlen, k, hc, hcast.symm⟩)
    simp at this

/-! ## Counting boundary tetrahedra -/

theorem faceBoundaryTets_length {tets : List Nat} {look : List Bool} {inc add : List Nat}
    (hlook : ∀ k ∈ inc, ∀ b, vecGet look (keyToInt k) = some b → b = decide (k ∈ tets))
    (hlen : inc.length ≤ 2) (h : faceBoundaryTets look inc = some add) :
    add.length = if isSubsetBoundaryFace tets inc then 1 else 0 := by
  match inc, hlook, hlen, h with
  | [], _, _, h =>
    simp only [faceBoundaryTets, Option.some.injEq] at h
    subst h
    simp [isSubsetBoundaryFace]
  | [a], hlook, _, h =>
    simp only [faceBoundaryTets] at h
    split at h
    · rename_i la hla
      have := hlook a (by simp) la hla
      simp only [Option.some.injEq] at h
      subst h
      subst this
      by_cases ha : a ∈ tets <;> simp [isSubsetBoundaryFace, ha]
    · exact absurd h (by simp)
  | [a, b], hlook, _, h =>
    simp only [faceBoundaryTets] at h
    split at h
    · rename_i la lb hla hlb
      have h1 := hlook a (by simp) la hla
      have h2 := hlook b (by simp) lb hlb
      simp only [Option.some.injEq] at h
      subst h
      subst h1
      subst h2
      by_cases ha : a ∈ tets <;> by_cases hb : b ∈ tets <;>
        simp [isSubsetBoundaryFace, ha, hb, List.filter_cons]
    · exact absurd h (by simp)
  | _ :: _ :: _ :: _, _, hlen, _ =>
    simp at hlen

theorem foldlM_boundaryTets_length {R : Type} (m : ISMesh R) (tets : List Nat)
    {look : List Bool} {fks acc bt : List Nat}
    (hlook : ∀ fk ∈ fks, ∀ k ∈ m.face_tet_keys fk, ∀ b,
      vecGet look (keyToInt k) = some b → b = decide (k ∈ tets))
    (hlen : ∀ fk ∈ fks, (m.face_tet_keys fk).length ≤ 2)
    (h : fks.foldlM
      (fun boundaryTets fk =>
        match faceBoundaryTets look (m.face_tet_keys fk) with
        | some add => some (boundaryTets ++ add)
        | none => none) acc = some bt) :
    bt.length = acc.length +
      (fks.filter (fun fk => isSubsetBoundaryFace tets (m.face_tet_keys fk))).length := by
  induction fks generalizing acc with
  | nil =>
    simp only [List.foldlM_nil, pure, Option.some.injEq] at h
    subst h
    simp
  | cons fk fks ih =>
    simp only [List.foldlM_cons, bind, Option.bind_eq_some] at h
    obtain ⟨mid, hmid, hrest⟩ := h
    split at hmid
    · rename_i add hadd
      simp only [Option.some.injEq] at hmid
      subst hmid
      have hl := faceBoundaryTets_length (hlook fk (by simp)) (hlen fk (by simp)) hadd
      rw [ih (fun f hf => hlook f (List.mem_cons_of_mem _ hf))
        (fun f hf => hlen f (List.mem_cons_of_mem _ hf)) hrest]
      rw [List.length_append, hl, List.filter_cons]
      split_ifs
      · simp
        omega
      · simp
    · exact absurd hmid (by simp)

theorem foldlM_tetsToDelete_nil {R : Type} (m : ISMesh R) {look : List Bool}
    {edges init : List Nat}
    (h : edges.foldlM
      (fun tetsToDelete ek =>
        match edgeBoundaryTets m look ek with
        | some boundaryTets =>
          some (if boundaryTets.length > 2 then setInsertAll boundaryTets tetsToDelete
                else tetsToDelete)
        | none => none) init = some []) :
    init = [] ∧ ∀ ek ∈ edges, ∃ bt, edgeBoundaryTets m look ek = some bt ∧ bt.length ≤ 2 := by
  induction edges generalizing init with
  | nil =>
    simp only [List.foldlM_nil, pure, Option.some.injEq] at h
    simp [h]
  | cons ek edges ih =>
    simp only [List.foldlM_cons, bind, Option.bind_eq_some] at h
    obtain ⟨mid, hmid, hrest⟩ := h
    obtain ⟨hnil, hall⟩ := ih hrest
    subst hnil
    split at hmid
    · rename_i bt hbt
      simp only [Option.some.injEq] at hmid
      split_ifs at hmid with hgt
      · exfalso
        refine setInsertAll_ne_nil bt init (Or.inl ?_) hmid
        intro hb
        simp [hb] at hgt
      · refine ⟨hmid, ?_⟩
        intro e he
        rcases List.mem_cons.mp he with rfl | he
        · exact ⟨bt, hbt, by omega⟩
        · exact hall e he
    · exact absurd hmid (by simp)

/-! # Theorems on `Query::filter_subset` -/

/-- C1. Whatever `nodes`, `edges` and `faces` hold on entry, the `tets` left by
`filter_subset` is a subset of the input `tets`. -/
theorem filter_subset_tets_subset {R : Type} (q : Query R) (s r : Selection)
    (h : q.filter_subset s = Run.done r) : ∀ t ∈ r.tets, t ∈ s.tets :=
  (filter_subset_fuel_fixed q.mesh _ s r h).2

theorem filter_subset_tets_subset_witness :
    bowtieQuery.filter_subset ⟨[3], [4], [5], [0, 1, 2]⟩ =
        Run.done ⟨[6, 7, 8, 9], [11, 12, 13, 14, 15, 16], [8, 9, 10, 11], [2]⟩ ∧
      ∀ t ∈ [2], t ∈ [0, 1, 2] :=
  ⟨by decide,
    filter_subset_tets_subset bowtieQuery ⟨[3], [4], [5], [0, 1, 2]⟩
      ⟨[6, 7, 8, 9], [11, 12, 13, 14, 15, 16], [8, 9, 10, 11], [2]⟩ (by decide)⟩

/-- C2. `filter_subset` is idempotent: run again on the four sets it returned, it
removes nothing and returns the same four sets. -/
theorem filter_subset_idempotent {R : Type} (q : Query R) (s r : Selection)
    (h : q.filter_subset s = Run.done r) : q.filter_subset r = Run.done r :=
  filter_subset_fuel_of_fixed q.mesh r.tets.length r.nodes r.edges r.faces r
    (filter_subset_fuel_fixed q.mesh _ s r h).1

theorem filter_subset_idempotent_witness :
    bowtieQuery.filter_subset ⟨[], [], [], [0, 1, 2]⟩ =
        Run.done ⟨[6, 7, 8, 9], [11, 12, 13, 14, 15, 16], [8, 9, 10, 11], [2]⟩ ∧
      bowtieQuery.filter_subset ⟨[6, 7, 8, 9], [11, 12, 13, 14, 15, 16], [8, 9, 10, 11], [2]⟩ =
        Run.done ⟨[6, 7, 8, 9], [11, 12, 13, 14, 15, 16], [8, 9, 10, 11], [2]⟩ :=
  ⟨by decide,
    filter_subset_idempotent bowtieQuery ⟨[], [], [], [0, 1, 2]⟩
      ⟨[6, 7, 8, 9], [11, 12, 13, 14, 15, 16], [8, 9, 10, 11], [2]⟩ (by decide)⟩

/-- C3. After `filter_subset` returns, no returned edge is non-manifold with
respect to the returned `tets`: over the faces incident to the edge, at most two
are subset-boundary faces (exactly one incident tetrahedron in the returned
`tets`). Keys are 32-bit values and a face has at most two incident tetrahedra. -/
theorem filter_subset_manifold {R : Type} (q : Query R) (s r : Selection)
    (hkeys : ∀ t ∈ s.tets, t < 4294967296)
    (hmesh : ∀ fk, ∀ k ∈ q.mesh.face_tet_keys fk, k < 4294967296)
    (hface : ∀ fk, (q.mesh.face_tet_keys fk).length ≤ 2)
    (h : q.filter_subset s = Run.done r) :
    ∀ ek ∈ r.edges, subsetBoundaryCount q.mesh r.tets ek ≤ 2 := by
  obtain ⟨⟨_, _, _, look, hlook, hdel⟩, hsub⟩ := filter_subset_fuel_fixed q.mesh _ s r h
  intro ek hek
  obtain ⟨bt, hbt, hle⟩ := (foldlM_tetsToDelete_nil q.mesh hdel).2 ek hek
  have hcount := foldlM_boundaryTets_length q.mesh r.tets
    (fun fk _ k hk b hb =>
      vecGet_tetLookupOf hlook (fun t ht => hkeys t (hsub t ht)) k (hmesh fk k hk) b hb)
    (fun fk _ => hface fk) hbt
  simp only [List.length_nil, Nat.zero_add] at hcount
  unfold subsetBoundaryCount
  omega

theorem bowtieMesh_face_tet_keys (fk : Nat) :
    (∀ k ∈ bowtieMesh.face_tet_keys fk, k < 4294967296) ∧
      (bowtieMesh.face_tet_keys fk).length ≤ 2 := by
  unfold bowtieMesh
  dsimp only
  split_ifs <;> simp

theorem filter_subset_manifold_witness :
    (∀ t ∈ [1, 2], t < 4294967296) ∧
      bowtieQuery.filter_subset ⟨[], [], [], [1, 2]⟩ =
        Run.done ⟨[0, 1, 4, 5, 6, 7, 8, 9], [0, 6, 7, 8, 9, 10, 11, 12, 13, 14, 15, 16],
          [4, 5, 6, 7, 8, 9, 10, 11], [1, 2]⟩ ∧
      ∀ ek ∈ [0, 6, 7, 8, 9, 10, 11, 12, 13, 14, 15, 16],
        subsetBoundaryCount bowtieMesh [1, 2] ek ≤ 2 :=
  ⟨by decide, by decide,
    filter_subset_manifold bowtieQuery ⟨[], [], [], [1, 2]⟩
      ⟨[0, 1, 4, 5, 6, 7, 8, 9], [0, 6, 7, 8, 9, 10, 11, 12, 13, 14, 15, 16],
        [4, 5, 6, 7, 8, 9, 10, 11], [1, 2]⟩
      (by decide) (fun fk => (bowtieMesh_face_tet_keys fk).1)
      (fun fk => (bowtieMesh_face_tet_keys fk).2) (by decide)⟩

/-- C4. After `filter_subset` returns, the returned faces, edges and nodes are
exactly the downward closure of the returned `tets`, whatever the three sets held
on entry; when no tetrahedron is left all four sets are empty, and on an empty
`tets` the filter returns the four empty sets. -/
theorem filter_subset_closure {R : Type} (q : Query R) (s r : Selection)
    (h : q.filter_subset s = Run.done r) :
    (∀ f, f ∈ r.faces ↔ ∃ t ∈ r.tets, f ∈ keys4 (q.mesh.tet_face_keys t)) ∧
      (∀ e, e ∈ r.edges ↔ ∃ f ∈ r.faces, e ∈ keys3 (q.mesh.face_edge_keys f)) ∧
      (∀ n, n ∈ r.nodes ↔ ∃ e ∈ r.edges, n ∈ keys2 (q.mesh.edge_node_keys e)) ∧
      (r.tets = [] → r.faces = [] ∧ r.edges = [] ∧ r.nodes = []) ∧
      (∀ nodes edges faces, q.filter_subset ⟨nodes, edges, faces, []⟩ =
        Run.done ⟨[], [], [], []⟩) := by
  obtain ⟨⟨hf, he, hn, _⟩, _⟩ := filter_subset_fuel_fixed q.mesh _ s r h
  refine ⟨?_, ?_, ?_, ?_, ?_⟩
  · intro f
    rw [hf]
    exact mem_closureFaces q.mesh r.tets f
  · intro e
    rw [he]
    exact mem_closureEdges q.mesh r.faces e
  · intro n
    rw [hn]
    exact mem_closureNodes q.mesh r.edges n
  · intro ht
    have hf0 : r.faces = [] := by rw [hf, ht]; rfl
    have he0 : r.edges = [] := by rw [he, hf0]; rfl
    have hn0 : r.nodes = [] := by rw [hn, he0]; rfl
    exact ⟨hf0, he0, hn0⟩
  · intro nodes edges faces
    exact filter_subset_fuel_nil q.mesh _ nodes edges faces

theorem filter_subset_closure_witness :
    bowtieQuery.filter_subset ⟨[7], [8], [9], [0, 1]⟩ = Run.done ⟨[], [], [], []⟩ ∧
      bowtieQuery.filter_subset ⟨[7], [8], [9], [0, 1, 2]⟩ =
        Run.done ⟨[6, 7, 8, 9], [11, 12, 13, 14, 15, 16], [8, 9, 10, 11], [2]⟩ ∧
      (∀ f, f ∈ [8, 9, 10, 11] ↔ ∃ t ∈ [2], f ∈ keys4 (bowtieMesh.tet_face_keys t)) :=
  ⟨by decide, by decide,
    (filter_subset_closure bowtieQuery ⟨[7], [8], [9], [0, 1, 2]⟩
      ⟨[6, 7, 8, 9], [11, 12, 13, 14, 15, 16], [8, 9, 10, 11], [2]⟩ (by decide)).1⟩

/-! # Theorems on the closure queries -/

/-- C5. The closure queries have exact conjunction semantics: `edges(nodes)` is the
set of mesh edges with both endpoints in `nodes`, `faces(edges)` the set of mesh
faces with all three edges in `edges`, `tetrahedra(faces)` the set of mesh
tetrahedra with all four faces in `faces`; an empty input gives an empty result. -/
theorem closure_queries_conjunction {R : Type} (q : Query R) :
    (∀ nodeKeys e, e ∈ q.edges nodeKeys ↔
        e ∈ q.mesh.edges ∧ (q.mesh.edge_node_keys e).1 ∈ nodeKeys ∧
          (q.mesh.edge_node_keys e).2 ∈ nodeKeys) ∧
      (∀ edgeKeys f, f ∈ q.faces edgeKeys ↔
        f ∈ q.mesh.faces ∧ (q.mesh.face_edge_keys f).1 ∈ edgeKeys ∧
          (q.mesh.face_edge_keys f).2.1 ∈ edgeKeys ∧ (q.mesh.face_edge_keys f).2.2 ∈ edgeKeys) ∧
      (∀ faceKeys t, t ∈ q.tetrahedra faceKeys ↔
        t ∈ q.mesh.tetrahedra ∧ (q.mesh.tet_face_keys t).1 ∈ faceKeys ∧
          (q.mesh.tet_face_keys t).2.1 ∈ faceKeys ∧ (q.mesh.tet_face_keys t).2.2.1 ∈ faceKeys ∧
          (q.mesh.tet_face_keys t).2.2.2 ∈ faceKeys) ∧
      q.edges [] = [] ∧ q.faces [] = [] ∧ q.tetrahedra [] = [] := by
  have hE : ∀ nodeKeys e, e ∈ q.edges nodeKeys ↔
      e ∈ q.mesh.edges ∧ (q.mesh.edge_node_keys e).1 ∈ nodeKeys ∧
        (q.mesh.edge_node_keys e).2 ∈ nodeKeys := by
    intro nodeKeys e
    unfold Query.edges
    rw [mem_foldl_setInsert_if (fun a => (q.mesh.edge_node_keys a).1 ∈ nodeKeys ∧
      (q.mesh.edge_node_keys a).2 ∈ nodeKeys)]
    simp
  have hF : ∀ edgeKeys f, f ∈ q.faces edgeKeys ↔
      f ∈ q.mesh.faces ∧ (q.mesh.face_edge_keys f).1 ∈ edgeKeys ∧
        (q.mesh.face_edge_keys f).2.1 ∈ edgeKeys ∧ (q.mesh.face_edge_keys f).2.2 ∈ edgeKeys := by
    intro edgeKeys f
    unfold Query.faces
    rw [mem_foldl_setInsert_if (fun a => (q.mesh.face_edge_keys a).1 ∈ edgeKeys ∧
      (q.mesh.face_edge_keys a).2.1 ∈ edgeKeys ∧ (q.mesh.face_edge_keys a).2.2 ∈ edgeKeys)]
    simp
  have hT : ∀ faceKeys t, t ∈ q.tetrahedra faceKeys ↔
      t ∈ q.mesh.tetrahedra ∧ (q.mesh.tet_face_keys t).1 ∈ faceKeys ∧
        (q.mesh.tet_face_keys t).2.1 ∈ faceKeys ∧ (q.mesh.tet_face_keys t).2.2.1 ∈ faceKeys ∧
        (q.mesh.tet_face_keys t).2.2.2 ∈ faceKeys := by
    intro faceKeys t
    unfold Query.tetrahedra
    rw [mem_foldl_setInsert_if (fun a => (q.mesh.tet_face_keys a).1 ∈ faceKeys ∧
      (q.mesh.tet_face_keys a).2.1 ∈ faceKeys ∧ (q.mesh.tet_face_keys a).2.2.1 ∈ faceKeys ∧
      (q.mesh.tet_face_keys a).2.2.2 ∈ faceKeys)]
    simp
  refine ⟨hE, hF, hT, ?_, ?_, ?_⟩
  · apply List.eq_nil_iff_forall_not_mem.mpr
    intro e he
    simpa using ((hE [] e).mp he).2.1
  · apply List.eq_nil_iff_forall_not_mem.mpr
    intro f hf
    simpa using ((hF [] f).mp hf).2.1
  · apply List.eq_nil_iff_forall_not_mem.mpr
    intro t ht
    simpa using ((hT [] t).mp ht).2.1

/-! # Theorems on `double` arithmetic -/

theorem bitLengthAux_spec (fuel n : Nat) (h : n ≤ fuel) :
    n < 2 ^ bitLengthAux fuel n ∧ (n ≠ 0 → 2 ^ (bitLengthAux fuel n - 1) ≤ n) := by
  induction fuel generalizing n with
  | zero =>
    have h0 : n = 0 := by omega
    subst h0
    simp [bitLengthAux]
  | succ fuel ih =>
    by_cases hn : n = 0
    · subst hn
      simp [bitLengthAux]
    · have hhalf : n / 2 ≤ fuel := by omega
      obtain ⟨h1, h2⟩ := ih (n / 2) hhalf
      simp only [bitLengthAux, hn, if_false, Nat.add_sub_cancel]
      constructor
      · rw [pow_succ]
        omega
      · intro _
        by_cases hq : n / 2 = 0
        · have hk : bitLengthAux fuel (n / 2) = 0 := by
            rw [hq]
            cases fuel <;> simp [bitLengthAux]
          rw [hk]
          simp
          omega
        · have h3 := h2 hq
          have hk : 1 ≤ bitLengthAux fuel (n / 2) := by
            by_contra hlt
            have hz : bitLengthAux fuel (n / 2) = 0 := by omega
            rw [hz] at h1
            simp at h1
            exact hq h1
          have hp : 2 ^ bitLengthAux fuel (n / 2) = 2 * 2 ^ (bitLengthAux fuel (n / 2) - 1) := by
            conv_lhs => rw [← Nat.sub_add_cancel hk]
            rw [pow_succ]
            ring
          rw [hp]
          omega

/-- The fuel of `bitLength` is enough: `bitLength n` is the number of binary digits
of `n`. -/
theorem bitLength_spec (n : Nat) (hn : n ≠ 0) :
    2 ^ (bitLength n - 1) ≤ n ∧ n < 2 ^ bitLength n :=
  ⟨(bitLengthAux_spec n n (le_refl n)).2 hn, (bitLengthAux_spec n n (le_refl n)).1⟩

theorem F64.mul_neg_neg (a b : F64) : (-a) * (-b) = a * b := by
  show F64.mul (F64.neg a) (F64.neg b) = F64.mul a b
  cases a with
  | finite s m e =>
    cases b with
    | finite s' m' e' => cases s <;> cases s' <;> rfl
    | inf s' => cases s <;> cases s' <;> rfl
    | nan => rfl
  | inf s =>
    cases b with
    | finite s' m' e' => cases s <;> cases s' <;> rfl
    | inf s' => cases s <;> cases s' <;> rfl
    | nan => rfl
  | nan => cases b <;> rfl

theorem F64.round_notNegative (M : Nat) (E : Int) : (F64.round false M E).notNegative := by
  unfold F64.round
  simp only
  split_ifs <;> simp [F64.notNegative]

theorem F64.mul_self_notNegative (a : F64) : (a * a).notNegative := by
  show (F64.mul a a).notNegative
  cases a with
  | finite s m e =>
    have h : F64.mul (F64.finite s m e) (F64.finite s m e) = F64.round false (m * m) (e + e) := by
      cases s <;> rfl
    rw [h]
    exact F64.round_notNegative _ _
  | inf s => cases s <;> simp [F64.mul, F64.notNegative]
  | nan => simp [F64.mul, F64.notNegative]

theorem signedScaled_nonneg (s : Bool) (m k : Nat) (h : s = false ∨ m = 0) :
    0 ≤ signedScaled s m k := by
  unfold signedScaled
  rcases h with h | h
  · subst h
    simp
  · subst h
    cases s <;> simp

theorem F64.add_notNegative (a b : F64) (ha : a.notNegative) (hb : b.notNegative) :
    (a + b).notNegative := by
  show (F64.add a b).notNegative
  cases a with
  | finite s m e =>
    cases b with
    | finite s' m' e' =>
      have h1 := signedScaled_nonneg s m (e - min e e').toNat ha
      have h2 := signedScaled_nonneg s' m' (e' - min e e').toNat hb
      simp only [F64.add]
      split_ifs with h0
      · simp [F64.notNegative]
      · have hneg : decide (signedScaled s m (e - min e e').toNat +
            signedScaled s' m' (e' - min e e').toNat < 0) = false := by
          simp only [decide_eq_false_iff_not, not_lt]
          omega
        rw [hneg]
        exact F64.round_notNegative _ _
    | inf s' => simpa [F64.add, F64.notNegative] using hb
    | nan => simp [F64.add, F64.notNegative]
  | inf s =>
    cases b with
    | finite s' m' e' => simpa [F64.add, F64.notNegative] using ha
    | inf s' =>
      simp only [F64.notNegative] at ha hb
      subst ha
      subst hb
      simp [F64.add, F64.notNegative]
    | nan => simp [F64.add, F64.notNegative]
  | nan => cases b <;> simp [F64.add, F64.notNegative]

theorem F64.not_lt_zero (a : F64) (ha : a.notNegative) : ¬ a < F64.zero := by
  show ¬ F64.lt a F64.zero = true
  cases a with
  | finite s m e =>
    have h1 := signedScaled_nonneg s m (e - min e 0).toNat ha
    simp only [F64.zero, F64.lt, decide_eq_true_eq, not_lt]
    simpa [signedScaled] using h1
  | inf s =>
    simp only [F64.notNegative] at ha
    subst ha
    simp [F64.zero, F64.lt]
  | nan => simp [F64.zero, F64.lt]

theorem F64.zero_mul_zero : F64.zero * F64.zero = F64.zero := rfl

theorem sqr_length_notNegative (v : Vec3 F64) : (sqr_length v).notNegative := by
  unfold sqr_length
  exact F64.add_notNegative _ _
    (F64.add_notNegative _ _ (F64.mul_self_notNegative _) (F64.mul_self_notNegative _))
    (F64.mul_self_notNegative _)

theorem signedScaled_cast (s : Bool) (m : Nat) (e e0 : Int) (h : e0 ≤ e) :
    ((signedScaled s m (e - e0).toNat : Int) : ℚ) * (2 : ℚ) ^ e0 = (F64.finite s m e).toRat := by
  have hk : (((e - e0).toNat : Nat) : Int) = e - e0 := Int.toNat_of_nonneg (by omega)
  have hpow : (2 : ℚ) ^ (e - e0).toNat * (2 : ℚ) ^ e0 = (2 : ℚ) ^ e := by
    rw [← zpow_natCast, ← zpow_add₀ (by norm_num : (2 : ℚ) ≠ 0), hk]
    congr 1
    omega
  unfold signedScaled F64.toRat
  cases s
  · simp only [Bool.false_eq_true, if_false, one_mul]
    push_cast
    rw [mul_assoc, hpow]
  · simp only [if_true, neg_mul, one_mul]
    push_cast
    rw [neg_mul, mul_assoc, hpow]

/-- The order of finite `double`s is the order of their values. -/
theorem F64.lt_iff_toRat (a b : F64) (ha : a.isFinite = true) (hb : b.isFinite = true) :
    a < b ↔ a.toRat < b.toRat := by
  show F64.lt a b = true ↔ a.toRat < b.toRat
  cases a with
  | finite s m e =>
    cases b with
    | finite s' m' e' =>
      rw [← signedScaled_cast s m e (min e e') (min_le_left _ _),
        ← signedScaled_cast s' m' e' (min e e') (min_le_right _ _)]
      have hpos : (0 : ℚ) < (2 : ℚ) ^ (min e e') := zpow_pos (by norm_num) _
      rw [mul_lt_mul_right hpos, Int.cast_lt]
      simp [F64.lt]
    | inf s' => simp [F64.isFinite] at hb
    | nan => simp [F64.isFinite] at hb
  | inf s => simp [F64.isFinite] at ha
  | nan => simp [F64.isFinite] at ha

/-! # Theorems on `Query::neighborhood` -/

theorem mem_neighborhood (q : Query F64) (p : Vec3 F64) (r : F64) (n : Nat) :
    n ∈ q.neighborhood p r ↔
      n ∈ q.mesh.nodes ∧ sqr_length (Vec3.sub p (q.mesh.node_pos n)) < r * r := by
  unfold Query.neighborhood
  simp only
  rw [mem_foldl_setInsert_if
    (fun a => sqr_length (Vec3.sub p (q.mesh.node_pos a)) < r * r)]
  simp

/-- C6 (amended). `neighborhood(point, radius)` is exactly the set of nodes whose
squared distance to `point`, computed in `double` as the code does, is strictly
less than `radius * radius` computed in `double`. The sign of `radius` has no
effect: `-radius` selects the same nodes. For a node whose squared distance and
the squared radius are computed without rounding error (finite, and equal to
the exact values), membership is: Euclidean distance strictly less than the
absolute value of `radius`. -/
theorem neighborhood_computed_radius (q : Query F64) (p : Vec3 F64) (r : F64) :
    (∀ n, n ∈ q.neighborhood p r ↔
        n ∈ q.mesh.nodes ∧ sqr_length (Vec3.sub p (q.mesh.node_pos n)) < r * r) ∧
      q.neighborhood p (-r) = q.neighborhood p r ∧
      ∀ n, (sqr_length (Vec3.sub p (q.mesh.node_pos n))).isFinite = true →
        (r * r).isFinite = true →
        (sqr_length (Vec3.sub p (q.mesh.node_pos n))).toRat = euclidSqr p (q.mesh.node_pos n) →
        (r * r).toRat = r.toRat * r.toRat →
        (n ∈ q.neighborhood p r ↔
          n ∈ q.mesh.nodes ∧
            Real.sqrt ((euclidSqr p (q.mesh.node_pos n) : ℚ) : ℝ) < |((r.toRat : ℚ) : ℝ)|) := by
  refine ⟨mem_neighborhood q p r, ?_, ?_⟩
  · unfold Query.neighborhood
    simp only [F64.mul_neg_neg]
  · intro n hf1 hf2 he1 he2
    rw [mem_neighborhood, F64.lt_iff_toRat _ _ hf1 hf2, he1, he2]
    have hnn : (0 : ℝ) ≤ ((euclidSqr p (q.mesh.node_pos n) : ℚ) : ℝ) := by
      have : (0 : ℚ) ≤ euclidSqr p (q.mesh.node_pos n) := by
        unfold euclidSqr
        positivity
      exact_mod_cast this
    rw [← Real.sqrt_sq_eq_abs, Real.sqrt_lt_sqrt_iff hnn, sq]
    constructor
    · rintro ⟨h1, h2⟩
      exact ⟨h1, by exact_mod_cast h2⟩
    · rintro ⟨h1, h2⟩
      exact ⟨h1, by exact_mod_cast h2⟩

set_option maxRecDepth 4000 in
theorem F64.ofInt_neg_one : F64.ofInt (-1) = F64.finite true (2 ^ 52) (-52) := rfl

set_option maxRecDepth 4000 in
theorem F64.neg_one_mul_neg_one :
    F64.ofInt (-1) * F64.ofInt (-1) = F64.finite false (2 ^ 52) (-52) := rfl

theorem F64.toRat_neg_one : (F64.ofInt (-1)).toRat = -1 := by
  rw [F64.ofInt_neg_one]
  norm_num [F64.toRat]

theorem pointMesh_sqr_length :
    sqr_length (Vec3.sub (⟨F64.zero, F64.zero, F64.zero⟩ : Vec3 F64) (pointMesh.node_pos 0)) =
      F64.zero := rfl

theorem pointMesh_euclidSqr :
    euclidSqr ⟨F64.zero, F64.zero, F64.zero⟩ (pointMesh.node_pos 0) = 0 := by
  simp [euclidSqr, pointMesh, F64.zero, F64.toRat]

theorem pointMesh_neighborhood :
    (Query.mk pointMesh none).neighborhood ⟨F64.zero, F64.zero, F64.zero⟩ (F64.ofInt (-1)) =
      [0] := by
  unfold Query.neighborhood
  have hm : (Query.mk pointMesh none).mesh = pointMesh := rfl
  have hn : pointMesh.nodes = [0] := rfl
  have hlt : F64.zero < F64.finite false (2 ^ 52) (-52) := by
    show F64.lt F64.zero (F64.finite false (2 ^ 52) (-52)) = true
    rfl
  rw [hm, hn, F64.neg_one_mul_neg_one]
  simp only [List.foldl, pointMesh_sqr_length, hlt, if_true]
  rfl

theorem neighborhood_computed_radius_witness :
    (0 ∈ (Query.mk pointMesh none).neighborhood ⟨F64.zero, F64.zero, F64.zero⟩ (F64.ofInt (-1)) ↔
      0 ∈ pointMesh.nodes ∧
        Real.sqrt ((euclidSqr ⟨F64.zero, F64.zero, F64.zero⟩ (pointMesh.node_pos 0) : ℚ) : ℝ) <
          |(((F64.ofInt (-1)).toRat : ℚ) : ℝ)|) :=
  (neighborhood_computed_radius (Query.mk pointMesh none) ⟨F64.zero, F64.zero, F64.zero⟩
    (F64.ofInt (-1))).2.2 0
    (by
      have hm : (Query.mk pointMesh none).mesh = pointMesh := rfl
      rw [hm, pointMesh_sqr_length]
      rfl)
    (by
      rw [F64.neg_one_mul_neg_one]
      rfl)
    (by
      have hm : (Query.mk pointMesh none).mesh = pointMesh := rfl
      rw [hm, pointMesh_sqr_length, pointMesh_euclidSqr]
      simp [F64.zero, F64.toRat])
    (by
      rw [F64.neg_one_mul_neg_one, F64.toRat_neg_one]
      norm_num [F64.toRat])

/-- C6 (as stated) fails for a negative radius: with radius `-1` the node at the
query point is returned, though its distance `0` is not below `-1`. -/
theorem neighborhood_negative_radius_counterexample :
    (F64.ofInt (-1)).toRat = -1 ∧
      (Query.mk pointMesh none).neighborhood ⟨F64.zero, F64.zero, F64.zero⟩ (F64.ofInt (-1)) =
        [0] ∧
      euclidSqr ⟨F64.zero, F64.zero, F64.zero⟩ (pointMesh.node_pos 0) = 0 ∧
      ¬ Real.sqrt ((euclidSqr ⟨F64.zero, F64.zero, F64.zero⟩ (pointMesh.node_pos 0) : ℚ) : ℝ) <
        (((F64.ofInt (-1)).toRat : ℚ) : ℝ) := by
  refine ⟨F64.toRat_neg_one, pointMesh_neighborhood, pointMesh_euclidSqr, ?_⟩
  rw [pointMesh_euclidSqr, F64.toRat_neg_one]
  norm_num

/-- A positive radius whose square underflows: with radius `2^-600` the bound
`radius * radius` is computed as `0` and the node at the query point, at distance
`0`, is not returned. -/
theorem neighborhood_underflow_radius :
    (0 : ℚ) < (F64.finite false 1 (-600)).toRat ∧
      F64.finite false 1 (-600) * F64.finite false 1 (-600) = F64.zero ∧
      (Query.mk pointMesh none).neighborhood ⟨F64.zero, F64.zero, F64.zero⟩
        (F64.finite false 1 (-600)) = [] := by
  have hsq : F64.finite false 1 (-600) * F64.finite false 1 (-600) = F64.zero := rfl
  refine ⟨?_, hsq, ?_⟩
  · simp only [F64.toRat, Bool.false_eq_true, if_false, Nat.cast_one, mul_one, one_mul]
    exact zpow_pos (by norm_num) _
  · unfold Query.neighborhood
    have hm : (Query.mk pointMesh none).mesh = pointMesh := rfl
    have hn : pointMesh.nodes = [0] := rfl
    have hlt : ¬ F64.zero < F64.zero := by
      show ¬ F64.lt F64.zero F64.zero = true
      decide
    rw [hm, hn, hsq]
    simp only [List.foldl, pointMesh_sqr_length, hlt, if_false]

/-- C7. `neighborhood(p, 0)` is empty for every mesh and point, also when a node
lies at `p`; the node-key overload at radius `0` is empty as well, so it does not
return the query node. -/
theorem neighborhood_zero_radius (q : Query F64) :
    (∀ p : Vec3 F64, q.neighborhood p F64.zero = []) ∧
      (∀ from_node : Nat, q.neighborhood_node from_node F64.zero = []) := by
  have h : ∀ p : Vec3 F64, q.neighborhood p F64.zero = [] := by
    intro p
    apply List.eq_nil_iff_forall_not_mem.mpr
    intro n hn
    have h1 := ((mem_neighborhood q p F64.zero n).mp hn).2
    rw [F64.zero_mul_zero] at h1
    exact F64.not_lt_zero _ (sqr_length_notNegative _) h1
  exact ⟨h, fun from_node => h _⟩

/-! # Theorems on `Query::raycast_faces` and the iterator -/

theorem foldl_raycastStep_miss {R : Type} [LinearOrderedField R] (g : Geometry R) (m : ISMesh R)
    (ray : Ray R) (cache : List Nat) (st : Nat × R)
    (h : ∀ f ∈ cache, hitFace g m ray f = none) :
    cache.foldl (raycastStep g m ray) st = st := by
  induction cache generalizing st with
  | nil => rfl
  | cons f cache ih =>
    have hf : raycastStep g m ray st f = st := by
      unfold raycastStep
      rw [h f (by simp)]
    rw [List.foldl_cons, hf]
    exact ih st (fun x hx => h x (List.mem_cons_of_mem _ hx))

/-- C8. When the intersection test (run on the ray with its origin offset, as the
code runs it) fails on every cached boundary face, `raycast_faces` returns the
empty result for every query type: sentinel face key, no mesh, and `begin()`
equals `end()`. -/
theorem raycast_faces_miss_empty {R : Type} [LinearOrderedField R] (g : Geometry R)
    (q : Query R) (ray : Ray R) (queryType : QueryType) (fuel : Nat)
    (hmiss : ∀ f ∈ q.cachedFaces, hitFace g q.mesh (offsetRay ray) f = none) :
    (q.raycast_faces g ray queryType).1.first_intersection = sentinelKey ∧
      ∃ it, (q.raycast_faces g ray queryType).1.begin g fuel = Run.done it ∧
        it.eq (q.raycast_faces g ray queryType).1.end_ = true := by
  have hst := foldl_raycastStep_miss g q.mesh (offsetRay ray) q.cachedFaces
    (sentinelKey, g.dblMax) hmiss
  have hr : (q.raycast_faces g ray queryType).1 = QueryResult.empty := by
    unfold Query.raycast_faces
    simp only [hst, if_true]
  rw [hr]
  refine ⟨rfl, QueryResultIterator.default, rfl, ?_⟩
  simp [QueryResultIterator.eq, QueryResult.end_]

theorem singleTetQuery_cachedFaces : singleTetQuery.cachedFaces = [0, 1, 2, 3] := by decide

theorem missRay_misses :
    ∀ f ∈ singleTetQuery.cachedFaces,
      hitFace testGeometry singleTetQuery.mesh (offsetRay missRay) f = none := by
  rw [singleTetQuery_cachedFaces]
  intro f hf
  simp only [List.mem_cons, List.mem_singleton, List.not_mem_nil, or_false] at hf
  rcases hf with rfl | rfl | rfl | rfl <;>
    norm_num [hitFace, get_pos, singleTetQuery, singleTetMesh, testGeometry, rayTriangle,
      Vec3.sub, Vec3.cross, Vec3.dot, offsetRay, addEpsilonOffset, Vec3.add, missRay]

theorem raycast_faces_miss_empty_witness :
    (∀ f ∈ singleTetQuery.cachedFaces,
        hitFace testGeometry singleTetQuery.mesh (offsetRay missRay) f = none) ∧
      ((singleTetQuery.raycast_faces testGeometry missRay QueryType.Boundary).1.first_intersection
          = sentinelKey ∧
        ∃ it, (singleTetQuery.raycast_faces testGeometry missRay QueryType.Boundary).1.begin
            testGeometry 0 = Run.done it ∧
          it.eq (singleTetQuery.raycast_faces testGeometry missRay QueryType.Boundary).1.end_
            = true) :=
  ⟨missRay_misses,
    raycast_faces_miss_empty testGeometry singleTetQuery missRay QueryType.Boundary 0
      missRay_misses⟩

/-- State of the scan after the faces `pre`: nothing found yet, or the first
closest hit of `pre`. -/
theorem raycastStep_invariant {R : Type} [LinearOrderedField R] (g : Geometry R) (m : ISMesh R)
    (ray : Ray R) (pre : List Nat) (x : Nat) (st : Nat × R)
    (hmax : ∀ f ∈ pre ++ [x], hitFace g m ray f ≠ some g.dblMax)
    (hinv : ((∀ f ∈ pre, hitFace g m ray f = none) ∧ st = (sentinelKey, g.dblMax)) ∨
      IsFirstMinHit (hitFace g m ray) pre st.1 st.2) :
    ((∀ f ∈ pre ++ [x], hitFace g m ray f = none) ∧
        raycastStep g m ray st x = (sentinelKey, g.dblMax)) ∨
      IsFirstMinHit (hitFace g m ray) (pre ++ [x]) (raycastStep g m ray st x).1
        (raycastStep g m ray st x).2 := by
  unfold raycastStep
  cases hx : hitFace g m ray x with
  | none =>
    simp only
    rcases hinv with ⟨hnone, hst⟩ | ⟨p0, p1, hpre, hf, hlt, hle⟩
    · left
      refine ⟨?_, hst⟩
      intro f hf
      rcases List.mem_append.mp hf with h | h
      · exact hnone f h
      · simp only [List.mem_singleton] at h
        rw [h, hx]
    · right
      refine ⟨p0, p1 ++ [x], by rw [hpre]; simp, hf, hlt, ?_⟩
      intro y hy dy hdy
      rcases List.mem_append.mp hy with h | h
      · exact hle y h dy hdy
      · simp only [List.mem_singleton] at h
        rw [h, hx] at hdy
        simp at hdy
  | some nd =>
    simp only
    right
    rcases hinv with ⟨hnone, hst⟩ | ⟨p0, p1, hpre, hf, hlt, hle⟩
    · rw [hst]
      simp only [if_true]
      refine ⟨pre, [], rfl, hx, ?_, by simp⟩
      intro y hy dy hdy
      rw [hnone y hy] at hdy
      simp at hdy
    · have hne : st.2 ≠ g.dblMax := by
        intro heq
        apply hmax st.1 (by rw [hpre]; simp)
        rw [hf, heq]
      have hall : ∀ y ∈ pre, ∀ dy, hitFace g m ray y = some dy → st.2 ≤ dy := by
        intro y hy dy hdy
        rw [hpre] at hy
        rcases List.mem_append.mp hy with h | h
        · exact le_of_lt (hlt y h dy hdy)
        · rcases List.mem_cons.mp h with h | h
          · rw [h, hf] at hdy
            simp only [Option.some.injEq] at hdy
            exact le_of_eq hdy
          · exact hle y h dy hdy
      simp only [hne, if_false]
      by_cases hlt2 : nd < st.2
      · simp only [hlt2, if_true]
        refine ⟨pre, [], rfl, hx, ?_, by simp⟩
        intro y hy dy hdy
        exact lt_of_lt_of_le hlt2 (hall y hy dy hdy)
      · simp only [hlt2, if_false]
        refine ⟨p0, p1 ++ [x], by rw [hpre]; simp, hf, hlt, ?_⟩
        intro y hy dy hdy
        rcases List.mem_append.mp hy with h | h
        · exact hle y h dy hdy
        · simp only [List.mem_singleton] at h
          rw [h, hx] at hdy
          simp only [Option.some.injEq] at hdy
          rw [← hdy]
          exact not_lt.mp hlt2

theorem foldl_raycastStep_invariant {R : Type} [LinearOrderedField R] (g : Geometry R)
    (m : ISMesh R) (ray : Ray R) (rest pre : List Nat) (st : Nat × R)
    (hmax : ∀ f ∈ pre ++ rest, hitFace g m ray f ≠ some g.dblMax)
    (hinv : ((∀ f ∈ pre, hitFace g m ray f = none) ∧ st = (sentinelKey, g.dblMax)) ∨
      IsFirstMinHit (hitFace g m ray) pre st.1 st.2) :
    ((∀ f ∈ pre ++ rest, hitFace g m ray f = none) ∧
        rest.foldl (raycastStep g m ray) st = (sentinelKey, g.dblMax)) ∨
      IsFirstMinHit (hitFace g m ray) (pre ++ rest) (rest.foldl (raycastStep g m ray) st).1
        (rest.foldl (raycastStep g m ray) st).2 := by
  induction rest generalizing pre st with
  | nil => simpa using hinv
  | cons x rest ih =>
    have hstep := raycastStep_invariant g m ray pre x st
      (fun f hf => hmax f (by simp only [List.mem_append, List.mem_singleton] at hf; simp; tauto))
      hinv
    have := ih (pre ++ [x]) (raycastStep g m ray st x) (by simpa using hmax) hstep
    simpa using this

theorem raycast_scan_closest {R : Type} [LinearOrderedField R] (g : Geometry R) (m : ISMesh R)
    (ray : Ray R) (cache : List Nat)
    (hmax : ∀ f ∈ cache, hitFace g m ray f ≠ some g.dblMax)
    (hhit : ∃ f ∈ cache, (hitFace g m ray f).isSome = true) :
    IsFirstMinHit (hitFace g m ray) cache
      (cache.foldl (raycastStep g m ray) (sentinelKey, g.dblMax)).1
      (cache.foldl (raycastStep g m ray) (sentinelKey, g.dblMax)).2 := by
  have := foldl_raycastStep_invariant g m ray cache [] (sentinelKey, g.dblMax)
    (by simpa using hmax) (Or.inl ⟨by simp, rfl⟩)
  rcases this with ⟨hnone, _⟩ | h
  · obtain ⟨f, hf, hsome⟩ := hhit
    rw [hnone f (by simpa using hf)] at hsome
    simp at hsome
  · simpa using h

theorem IsFirstMinHit.mem {R : Type} [LinearOrderedField R] {hit : Nat → Option R}
    {cache : List Nat} {f : Nat} {d : R} (h : IsFirstMinHit hit cache f d) : f ∈ cache := by
  obtain ⟨p0, p1, hc, _⟩ := h
  rw [hc]
  simp

theorem raycast_faces_anchor {R : Type} [LinearOrderedField R] (g : Geometry R) (q : Query R)
    (ray : Ray R) (queryType : QueryType)
    (hkey : ∀ f ∈ q.cachedFaces, f ≠ sentinelKey)
    (hmax : ∀ f ∈ q.cachedFaces, hitFace g q.mesh (offsetRay ray) f ≠ some g.dblMax)
    (hhit : ∃ f ∈ q.cachedFaces, (hitFace g q.mesh (offsetRay ray) f).isSome = true) :
    IsFirstMinHit (hitFace g q.mesh (offsetRay ray)) q.cachedFaces
        (q.raycast_faces g ray queryType).1.first_intersection
        (q.raycast_faces g ray queryType).1.dist ∧
      (q.raycast_faces g ray queryType).1.ray = offsetRay ray ∧
      (q.raycast_faces g ray queryType).1.query_type = queryType ∧
      (q.raycast_faces g ray queryType).1.mesh = some q.mesh := by
  have hscan := raycast_scan_closest g q.mesh (offsetRay ray) q.cachedFaces hmax hhit
  have hne := hkey _ hscan.mem
  have hr : (q.raycast_faces g ray queryType).1 =
      { first_intersection :=
          (q.cachedFaces.foldl (raycastStep g q.mesh (offsetRay ray)) (sentinelKey, g.dblMax)).1,
        dist :=
          (q.cachedFaces.foldl (raycastStep g q.mesh (offsetRay ray)) (sentinelKey, g.dblMax)).2,
        ray := offsetRay ray, query_type := queryType, mesh := some q.mesh } := by
    unfold Query.raycast_faces
    simp only [hne, if_false]
  rw [hr]
  exact ⟨hscan, rfl, rfl, rfl⟩

/-- State of the scan after the faces `pre`: no hit below `DBL_MAX` so far and a
stored distance that is not below it either, or a stored distance below `DBL_MAX`
that belongs to the first closest hit of `pre`. -/
theorem raycastStep_below_invariant {R : Type} [LinearOrderedField R] (g : Geometry R)
    (m : ISMesh R) (ray : Ray R) (pre : List Nat) (x : Nat) (st : Nat × R)
    (hinv : ((∀ f ∈ pre, ∀ d, hitFace g m ray f = some d → g.dblMax ≤ d) ∧ g.dblMax ≤ st.2) ∨
      (st.2 < g.dblMax ∧ IsFirstMinHit (hitFace g m ray) pre st.1 st.2)) :
    ((∀ f ∈ pre ++ [x], ∀ d, hitFace g m ray f = some d → g.dblMax ≤ d) ∧
        g.dblMax ≤ (raycastStep g m ray st x).2) ∨
      ((raycastStep g m ray st x).2 < g.dblMax ∧
        IsFirstMinHit (hitFace g m ray) (pre ++ [x]) (raycastStep g m ray st x).1
          (raycastStep g m ray st x).2) := by
  unfold raycastStep
  cases hx : hitFace g m ray x with
  | none =>
    simp only
    rcases hinv with ⟨hfar, hst⟩ | ⟨hst, p0, p1, hpre, hf, hlt, hle⟩
    · left
      refine ⟨?_, hst⟩
      intro f hf d hd
      rcases List.mem_append.mp hf with h | h
      · exact hfar f h d hd
      · simp only [List.mem_singleton] at h
        rw [h, hx] at hd
        simp at hd
    · right
      refine ⟨hst, p0, p1 ++ [x], by rw [hpre]; simp, hf, hlt, ?_⟩
      intro y hy dy hdy
      rcases List.mem_append.mp hy with h | h
      · exact hle y h dy hdy
      · simp only [List.mem_singleton] at h
        rw [h, hx] at hdy
        simp at hdy
  | some nd =>
    simp only
    rcases hinv with ⟨hfar, hst⟩ | ⟨hst, p0, p1, hpre, hf, hlt, hle⟩
    · -- nothing below `DBL_MAX` so far
      have hfresh : (nd < g.dblMax ∧
          IsFirstMinHit (hitFace g m ray) (pre ++ [x]) x nd) ∨
          ((∀ f ∈ pre ++ [x], ∀ d, hitFace g m ray f = some d → g.dblMax ≤ d) ∧
            g.dblMax ≤ nd) := by
        by_cases hnd : nd < g.dblMax
        · left
          refine ⟨hnd, pre, [], rfl, hx, ?_, by simp⟩
          intro y hy dy hdy
          exact lt_of_lt_of_le hnd (hfar y hy dy hdy)
        · right
          refine ⟨?_, not_lt.mp hnd⟩
          intro f hf d hd
          rcases List.mem_append.mp hf with h | h
          · exact hfar f h d hd
          · simp only [List.mem_singleton] at h
            rw [h, hx] at hd
            simp only [Option.some.injEq] at hd
            rw [← hd]
            exact not_lt.mp hnd
      by_cases heq : st.2 = g.dblMax
      · simp only [heq, if_true]
        rcases hfresh with h | h
        · exact Or.inr h
        · exact Or.inl h
      · simp only [heq, if_false]
        by_cases hlt2 : nd < st.2
        · simp only [hlt2, if_true]
          rcases hfresh with h | h
          · exact Or.inr h
          · exact Or.inl h
        · simp only [hlt2, if_false]
          left
          refine ⟨?_, hst⟩
          intro f hf d hd
          rcases List.mem_append.mp hf with h | h
          · exact hfar f h d hd
          · simp only [List.mem_singleton] at h
            rw [h, hx] at hd
            simp only [Option.some.injEq] at hd
            rw [← hd]
            exact le_trans hst (not_lt.mp hlt2)
    · -- a hit below `DBL_MAX` is stored
      right
      have hne : st.2 ≠ g.dblMax := ne_of_lt hst
      have hall : ∀ y ∈ pre, ∀ dy, hitFace g m ray y = some dy → st.2 ≤ dy := by
        intro y hy dy hdy
        rw [hpre] at hy
        rcases List.mem_append.mp hy with h | h
        · exact le_of_lt (hlt y h dy hdy)
        · rcases List.mem_cons.mp h with h | h
          · rw [h, hf] at hdy
            simp only [Option.some.injEq] at hdy
            exact le_of_eq hdy
          · exact hle y h dy hdy
      simp only [hne, if_false]
      by_cases hlt2 : nd < st.2
      · simp only [hlt2, if_true]
        refine ⟨lt_trans hlt2 hst, pre, [], rfl, hx, ?_, by simp⟩
        intro y hy dy hdy
        exact lt_of_lt_of_le hlt2 (hall y hy dy hdy)
      · simp only [hlt2, if_false]
        refine ⟨hst, p0, p1 ++ [x], by rw [hpre]; simp, hf, hlt, ?_⟩
        intro y hy dy hdy
        rcases List.mem_append.mp hy with h | h
        · exact hle y h dy hdy
        · simp only [List.mem_singleton] at h
          rw [h, hx] at hdy
          simp only [Option.some.injEq] at hdy
          rw [← hdy]
          exact not_lt.mp hlt2

theorem foldl_raycastStep_below_invariant {R : Type} [LinearOrderedField R] (g : Geometry R)
    (m : ISMesh R) (ray : Ray R) (rest pre : List Nat) (st : Nat × R)
    (hinv : ((∀ f ∈ pre, ∀ d, hitFace g m ray f = some d → g.dblMax ≤ d) ∧ g.dblMax ≤ st.2) ∨
      (st.2 < g.dblMax ∧ IsFirstMinHit (hitFace g m ray) pre st.1 st.2)) :
    ((∀ f ∈ pre ++ rest, ∀ d, hitFace g m ray f = some d → g.dblMax ≤ d) ∧
        g.dblMax ≤ (rest.foldl (raycastStep g m ray) st).2) ∨
      ((rest.foldl (raycastStep g m ray) st).2 < g.dblMax ∧
        IsFirstMinHit (hitFace g m ray) (pre ++ rest) (rest.foldl (raycastStep g m ray) st).1
          (rest.foldl (raycastStep g m ray) st).2) := by
  induction rest generalizing pre st with
  | nil => simpa using hinv
  | cons x rest ih =>
    have hstep := raycastStep_below_invariant g m ray pre x st hinv
    have := ih (pre ++ [x]) (raycastStep g m ray st x) hstep
    simpa using this

/-- The scan is right whenever some cached face is intersected at a distance below
`DBL_MAX`: the stored face is then the first closest hit, whatever other faces
report (distances equal to or above `DBL_MAX` included). -/
theorem raycast_scan_closest_below {R : Type} [LinearOrderedField R] (g : Geometry R)
    (m : ISMesh R) (ray : Ray R) (cache : List Nat)
    (hhit : ∃ f ∈ cache, ∃ d, hitFace g m ray f = some d ∧ d < g.dblMax) :
    (cache.foldl (raycastStep g m ray) (sentinelKey, g.dblMax)).2 < g.dblMax ∧
      IsFirstMinHit (hitFace g m ray) cache
        (cache.foldl (raycastStep g m ray) (sentinelKey, g.dblMax)).1
        (cache.foldl (raycastStep g m ray) (sentinelKey, g.dblMax)).2 := by
  have := foldl_raycastStep_below_invariant g m ray cache [] (sentinelKey, g.dblMax)
    (Or.inl ⟨by simp, le_refl _⟩)
  rcases this with ⟨hfar, _⟩ | h
  · obtain ⟨f, hf, d, hd, hlt⟩ := hhit
    exact absurd hlt (not_lt.mpr (hfar f (by simpa using hf) d hd))
  · simpa using h

/-- The result of `raycast_faces` when some cached face is intersected below
`DBL_MAX`: anchored at the first closest hit, with the offset ray, the query type
and the mesh. -/
theorem raycast_faces_anchor_below {R : Type} [LinearOrderedField R] (g : Geometry R)
    (q : Query R) (ray : Ray R) (queryType : QueryType)
    (hkey : ∀ f ∈ q.cachedFaces, f ≠ sentinelKey)
    (hhit : ∃ f ∈ q.cachedFaces, ∃ d, hitFace g q.mesh (offsetRay ray) f = some d ∧
      d < g.dblMax) :
    ∃ f d, IsFirstMinHit (hitFace g q.mesh (offsetRay ray)) q.cachedFaces f d ∧
      d < g.dblMax ∧
      (q.raycast_faces g ray queryType).1 =
        { first_intersection := f, dist := d, ray := offsetRay ray, query_type := queryType,
          mesh := some q.mesh } := by
  have hscan := raycast_scan_closest_below g q.mesh (offsetRay ray) q.cachedFaces hhit
  have hne := hkey _ hscan.2.mem
  refine ⟨_, _, hscan.2, hscan.1, ?_⟩
  unfold Query.raycast_faces
  simp only [hne, if_false]

/-! ## Walking -/

theorem tetWalking_single_hit {R : Type} [LinearOrderedField R] (g : Geometry R) (m : ISMesh R)
    (it : QueryResultIterator R) (faces : List Nat) (fb : Nat) (d : R)
    (hmem : fb ∈ faces) (hhit : hitFace g m it.ray fb = some d)
    (hmiss : ∀ f ∈ faces, f ≠ fb → hitFace g m it.ray f = none) :
    QueryResultIterator.tetWalking g m it faces =
      (passesFilter m it.query_type fb,
        { it with
          face_key := fb
          tetrahedron_key := simplexSetDiff (m.face_co_boundary fb) it.tetrahedron_key
          dist := d }) := by
  induction faces with
  | nil => simp at hmem
  | cons f faces ih =>
    by_cases hf : f = fb
    · subst hf
      simp [QueryResultIterator.tetWalking, hhit]
    · have hnone := hmiss f (by simp) hf
      have hmem2 : fb ∈ faces := by
        rcases List.mem_cons.mp hmem with h | h
        · exact absurd h.symm hf
        · exact h
      simp only [QueryResultIterator.tetWalking, hnone]
      exact ih hmem2 (fun x hx hxb => hmiss x (List.mem_cons_of_mem _ hx) hxb)

theorem next_of_single_hit {R : Type} [LinearOrderedField R] (g : Geometry R) (m : ISMesh R)
    (it : QueryResultIterator R) (fuel : Nat) (fb : Nat) (d : R)
    (hmesh : it.mesh = some m) (htets : it.tetrahedron_key ≠ [])
    (hmem : fb ∈ simplexSetRemove (m.get_faces it.tetrahedron_key) it.face_key)
    (hhit : hitFace g m it.ray fb = some d)
    (hmiss : ∀ f ∈ simplexSetRemove (m.get_faces it.tetrahedron_key) it.face_key, f ≠ fb →
      hitFace g m it.ray f = none)
    (hpass : passesFilter m it.query_type fb = true) :
    it.next g (fuel + 1) =
      Run.done { it with
        face_key := fb
        tetrahedron_key := simplexSetDiff (m.face_co_boundary fb) it.tetrahedron_key
        dist := d } := by
  have hlen : it.tetrahedron_key.length ≠ 0 := by
    intro h
    exact htets (List.length_eq_zero.mp h)
  have hpos : it.tetrahedron_key.length > 0 := Nat.pos_of_ne_zero hlen
  unfold QueryResultIterator.next
  simp only [hlen, if_false, hmesh]
  unfold QueryResultIterator.nextLoop
  simp only [hpos, if_true]
  rw [tetWalking_single_hit g m it _ fb d hmem hhit hmiss, hpass]
  simp only [hmesh]

theorem next_of_no_tets {R : Type} [LinearOrderedField R] (g : Geometry R) (fuel : Nat)
    (it : QueryResultIterator R) (htets : it.tetrahedron_key = []) :
    it.next g fuel = Run.done { it with face_key := sentinelKey } := by
  unfold QueryResultIterator.next
  simp [htets]

/-! ## One tetrahedron, two intersected faces -/

theorem TwoHitTet.ne {R : Type} [LinearOrderedField R] {g : Geometry R} {q : Query R}
    {ray : Ray R} {t fa fb : Nat} {d1 d2 : R} (h : TwoHitTet g q ray t fa fb d1 d2) :
    fa ≠ fb := by
  intro heq
  have h1 := h.hit_a
  rw [heq, h.hit_b] at h1
  simp only [Option.some.injEq] at h1
  exact absurd h1.symm (ne_of_lt h.lt)

theorem TwoHitTet.result {R : Type} [LinearOrderedField R] {g : Geometry R} {q : Query R}
    {ray : Ray R} {t fa fb : Nat} {d1 d2 : R} (h : TwoHitTet g q ray t fa fb d1 d2)
    (hm1 : d1 ≠ g.dblMax) (hm2 : d2 ≠ g.dblMax) (queryType : QueryType) :
    (q.raycast_faces g ray queryType).1 =
      { first_intersection := fa, dist := d1, ray := offsetRay ray, query_type := queryType,
        mesh := some q.mesh } := by
  have hhits : ∀ f ∈ q.cachedFaces, ∀ d, hitFace g q.mesh (offsetRay ray) f = some d →
      (f = fa ∧ d = d1) ∨ (f = fb ∧ d = d2) := by
    intro f hf d hd
    have hf4 := (h.cache f).mp hf
    by_cases ha : f = fa
    · left
      rw [ha, h.hit_a] at hd
      simp only [Option.some.injEq] at hd
      exact ⟨ha, hd.symm⟩
    · by_cases hb : f = fb
      · right
        rw [hb, h.hit_b] at hd
        simp only [Option.some.injEq] at hd
        exact ⟨hb, hd.symm⟩
      · rw [h.miss f hf4 ha hb] at hd
        simp at hd
  have hmax : ∀ f ∈ q.cachedFaces, hitFace g q.mesh (offsetRay ray) f ≠ some g.dblMax := by
    intro f hf hd
    rcases hhits f hf _ hd with ⟨_, h1⟩ | ⟨_, h2⟩
    · exact hm1 h1.symm
    · exact hm2 h2.symm
  obtain ⟨hmin, hray, hqt, hmesh⟩ := raycast_faces_anchor g q ray queryType
    (fun f hf => h.valid f ((h.cache f).mp hf)) hmax
    ⟨fa, (h.cache fa).mpr h.mem_a, by rw [h.hit_a]; rfl⟩
  have hfirst : (q.raycast_faces g ray queryType).1.first_intersection = fa ∧
      (q.raycast_faces g ray queryType).1.dist = d1 := by
    have hmemf := hmin.mem
    obtain ⟨p0, p1, hc, hf, hlt, hle⟩ := hmin
    rcases hhits _ hmemf _ hf with hA | ⟨hB1, hB2⟩
    · exact hA
    · exfalso
      have hamem : fa ∈ q.cachedFaces := (h.cache fa).mpr h.mem_a
      rw [hc, hB1] at hamem
      rw [hB2] at hlt hle
      rcases List.mem_append.mp hamem with hp | hp
      · exact absurd (hlt fa hp d1 h.hit_a) (not_lt.mpr (le_of_lt h.lt))
      · rcases List.mem_cons.mp hp with hp | hp
        · exact h.ne hp
        · exact absurd (hle fa hp d1 h.hit_a) (not_le.mpr h.lt)
  generalize (q.raycast_faces g ray queryType).1 = r at *
  cases r
  simp only at hray hqt hmesh hfirst
  simp [hray, hqt, hmesh, hfirst.1, hfirst.2]

theorem TwoHitTet.walk {R : Type} [LinearOrderedField R] {g : Geometry R} {q : Query R}
    {ray : Ray R} {t fa fb : Nat} {d1 d2 : R} (h : TwoHitTet g q ray t fa fb d1 d2)
    (fuel : Nat) :
    QueryResultIterator.next g (fuel + 1)
        { dist := d1, ray := offsetRay ray, query_type := QueryType.All,
          tetrahedron_key := [t], face_key := fa, mesh := some q.mesh } =
      Run.done
        { dist := d2, ray := offsetRay ray, query_type := QueryType.All,
          tetrahedron_key := [], face_key := fb, mesh := some q.mesh } := by
  have hmem : fb ∈ simplexSetRemove (q.mesh.get_faces [t]) fa := by
    unfold simplexSetRemove
    simp only [List.mem_filter, decide_eq_true_eq]
    exact ⟨(h.faces fb).mpr h.mem_b, fun hh => h.ne hh.symm⟩
  have hmiss : ∀ f ∈ simplexSetRemove (q.mesh.get_faces [t]) fa, f ≠ fb →
      hitFace g q.mesh (offsetRay ray) f = none := by
    intro f hf hfb
    unfold simplexSetRemove at hf
    simp only [List.mem_filter, decide_eq_true_eq] at hf
    exact h.miss f ((h.faces f).mp hf.1) hf.2 hfb
  rw [next_of_single_hit g q.mesh _ fuel fb d2 rfl (by simp) hmem h.hit_b hmiss
    (by simp [passesFilter])]
  simp [(h.boundary fb h.mem_b).2, simplexSetDiff]

theorem TwoHitTet.begin_nonneg {R : Type} [LinearOrderedField R] {g : Geometry R}
    {q : Query R} {ray : Ray R} {t fa fb : Nat} {d1 d2 : R}
    (h : TwoHitTet g q ray t fa fb d1 d2) (hm1 : d1 ≠ g.dblMax) (hm2 : d2 ≠ g.dblMax)
    (h0 : 0 ≤ d1) (fuel : Nat) :
    (q.raycast_faces g ray QueryType.All).1.begin g fuel =
      Run.done
        { dist := d1, ray := offsetRay ray, query_type := QueryType.All,
          tetrahedron_key := [t], face_key := fa, mesh := some q.mesh } := by
  rw [h.result hm1 hm2]
  simp [QueryResult.begin, QueryResultIterator.create, not_lt.mpr h0,
    (h.boundary fa h.mem_a).1, offsetRay]

theorem TwoHitTet.begin_neg {R : Type} [LinearOrderedField R] {g : Geometry R}
    {q : Query R} {ray : Ray R} {t fa fb : Nat} {d1 d2 : R}
    (h : TwoHitTet g q ray t fa fb d1 d2) (hm1 : d1 ≠ g.dblMax) (hm2 : d2 ≠ g.dblMax)
    (hneg : d1 < 0) (fuel : Nat) :
    (q.raycast_faces g ray QueryType.All).1.begin g (fuel + 1) =
      Run.done
        { dist := d2, ray := offsetRay ray, query_type := QueryType.All,
          tetrahedron_key := [], face_key := fb, mesh := some q.mesh } := by
  rw [h.result hm1 hm2, ← h.walk fuel]
  simp [QueryResult.begin, QueryResultIterator.create, hneg,
    (h.boundary fa h.mem_a).1, offsetRay]

/-- C10 (amended). One tetrahedron whose four faces are the cached boundary faces,
a ray whose intersection test succeeds on exactly two of them at distances
`0 ≤ d1 < d2`, neither equal to `DBL_MAX`: with query type `All`, `begin()` is at
the `d1` face with distance `d1`, one `next()` moves to the `d2` face with
distance `d2`, and a further `next()` reaches `end()`. -/
theorem single_tet_two_intersections {R : Type} [LinearOrderedField R] (g : Geometry R)
    (q : Query R) (ray : Ray R) (t fa fb : Nat) (d1 d2 : R)
    (h : TwoHitTet g q ray t fa fb d1 d2) (h0 : 0 ≤ d1) (hm1 : d1 ≠ g.dblMax)
    (hm2 : d2 ≠ g.dblMax) (fuel : Nat) :
    ∃ it0 it1 it2 : QueryResultIterator R,
      (q.raycast_faces g ray QueryType.All).1.begin g fuel = Run.done it0 ∧
        it0.face_key = fa ∧ it0.dist = d1 ∧
        it0.eq (q.raycast_faces g ray QueryType.All).1.end_ = false ∧
      it0.next g (fuel + 1) = Run.done it1 ∧
        it1.face_key = fb ∧ it1.dist = d2 ∧
        it1.eq (q.raycast_faces g ray QueryType.All).1.end_ = false ∧
      it1.next g fuel = Run.done it2 ∧
        it2.eq (q.raycast_faces g ray QueryType.All).1.end_ = true := by
  refine ⟨_, _, _, h.begin_nonneg hm1 hm2 h0 fuel, rfl, rfl, ?_, h.walk fuel, rfl, rfl, ?_,
    next_of_no_tets g fuel _ rfl, ?_⟩
  · simpa [QueryResultIterator.eq, QueryResult.end_, QueryResultIterator.default] using
      h.valid fa h.mem_a
  · simpa [QueryResultIterator.eq, QueryResult.end_, QueryResultIterator.default] using
      h.valid fb h.mem_b
  · simp [QueryResultIterator.eq, QueryResult.end_, QueryResultIterator.default]

/-! ## Concrete rays through `singleTetMesh` -/

theorem upRay_hits :
    hitFace testGeometry singleTetQuery.mesh (offsetRay upRay) 0 = some (993 / 1000) ∧
      hitFace testGeometry singleTetQuery.mesh (offsetRay upRay) 1 = none ∧
      hitFace testGeometry singleTetQuery.mesh (offsetRay upRay) 2 = none ∧
      hitFace testGeometry singleTetQuery.mesh (offsetRay upRay) 3 = some (1589 / 1000) := by
  refine ⟨?_, ?_, ?_, ?_⟩ <;>
    norm_num [hitFace, get_pos, singleTetQuery, singleTetMesh, testGeometry, rayTriangle,
      Vec3.sub, Vec3.cross, Vec3.dot, offsetRay, addEpsilonOffset, Vec3.add, upRay]

theorem insideRay_hits :
    hitFace testGeometry singleTetQuery.mesh (offsetRay insideRay) 0 = some (-107 / 1000) ∧
      hitFace testGeometry singleTetQuery.mesh (offsetRay insideRay) 1 = none ∧
      hitFace testGeometry singleTetQuery.mesh (offsetRay insideRay) 2 = none ∧
      hitFace testGeometry singleTetQuery.mesh (offsetRay insideRay) 3 = some (489 / 1000) := by
  refine ⟨?_, ?_, ?_, ?_⟩ <;>
    norm_num [hitFace, get_pos, singleTetQuery, singleTetMesh, testGeometry, rayTriangle,
      Vec3.sub, Vec3.cross, Vec3.dot, offsetRay, addEpsilonOffset, Vec3.add, insideRay]

theorem singleTet_two_hit (ray : Ray ℚ) (d1 d2 : ℚ) (hlt : d1 < d2)
    (hits : hitFace testGeometry singleTetQuery.mesh (offsetRay ray) 0 = some d1 ∧
      hitFace testGeometry singleTetQuery.mesh (offsetRay ray) 1 = none ∧
      hitFace testGeometry singleTetQuery.mesh (offsetRay ray) 2 = none ∧
      hitFace testGeometry singleTetQuery.mesh (offsetRay ray) 3 = some d2) :
    TwoHitTet testGeometry singleTetQuery ray 0 0 3 d1 d2 where
  cache := by
    intro f
    rw [singleTetQuery_cachedFaces]
    rfl
  faces := by
    intro f
    rfl
  valid := by decide
  boundary := by decide
  mem_a := by decide
  mem_b := by decide
  hit_a := hits.1
  hit_b := hits.2.2.2
  miss := by
    intro f hf ha hb
    have hf4 : f = 0 ∨ f = 1 ∨ f = 2 ∨ f = 3 := by
      simpa [keys4, singleTetQuery, singleTetMesh] using hf
    rcases hf4 with h | h | h | h
    · exact absurd h ha
    · rw [h]
      exact hits.2.1
    · rw [h]
      exact hits.2.2.1
    · exact absurd h hb
  lt := hlt

theorem single_tet_two_intersections_witness :
    TwoHitTet testGeometry singleTetQuery upRay 0 0 3 (993 / 1000) (1589 / 1000) ∧
      (0 : ℚ) ≤ 993 / 1000 ∧ (993 / 1000 : ℚ) ≠ testGeometry.dblMax ∧
      (1589 / 1000 : ℚ) ≠ testGeometry.dblMax ∧
      ∃ it0 it1 it2 : QueryResultIterator ℚ,
        (singleTetQuery.raycast_faces testGeometry upRay QueryType.All).1.begin testGeometry 0 =
            Run.done it0 ∧
          it0.face_key = 0 ∧ it0.dist = 993 / 1000 ∧
          it0.eq (singleTetQuery.raycast_faces testGeometry upRay QueryType.All).1.end_ = false ∧
        it0.next testGeometry (0 + 1) = Run.done it1 ∧
          it1.face_key = 3 ∧ it1.dist = 1589 / 1000 ∧
          it1.eq (singleTetQuery.raycast_faces testGeometry upRay QueryType.All).1.end_ = false ∧
        it1.next testGeometry 0 = Run.done it2 ∧
          it2.eq (singleTetQuery.raycast_faces testGeometry upRay QueryType.All).1.end_ = true :=
  ⟨singleTet_two_hit upRay _ _ (by norm_num) upRay_hits, by norm_num,
    by norm_num [testGeometry], by norm_num [testGeometry],
    single_tet_two_intersections testGeometry singleTetQuery upRay 0 0 3 (993 / 1000)
      (1589 / 1000) (singleTet_two_hit upRay _ _ (by norm_num) upRay_hits) (by norm_num)
      (by norm_num [testGeometry]) (by norm_num [testGeometry]) 0⟩

/-- C10 (as stated) fails when `d1` is negative: for a ray starting inside the
tetrahedron the two intersected faces are at `d1 = -107/1000 < d2 = 489/1000`,
yet `begin()` is already at the `d2` face and one `next()` reaches `end()`. -/
theorem single_tet_negative_first_hit_counterexample :
    TwoHitTet testGeometry singleTetQuery insideRay 0 0 3 (-107 / 1000) (489 / 1000) ∧
      ∃ it0 it1 : QueryResultIterator ℚ,
        (singleTetQuery.raycast_faces testGeometry insideRay QueryType.All).1.begin
            testGeometry 1 = Run.done it0 ∧
          it0.face_key = 3 ∧ it0.dist = 489 / 1000 ∧
        it0.next testGeometry 1 = Run.done it1 ∧
          it1.eq (singleTetQuery.raycast_faces testGeometry insideRay QueryType.All).1.end_
            = true := by
  have hs := singleTet_two_hit insideRay _ _ (by norm_num) insideRay_hits
  refine ⟨hs, _, _,
    hs.begin_neg (by norm_num [testGeometry]) (by norm_num [testGeometry]) (by norm_num) 0,
    rfl, rfl, next_of_no_tets testGeometry 1 _ rfl, ?_⟩
  simp [QueryResultIterator.eq, QueryResult.end_, QueryResultIterator.default]

/-! ## A ray that touches `singleTetMesh` at distance `DBL_MAX` -/

theorem grazingRay_hits :
    hitFace testGeometry singleTetMesh (offsetRay grazingRay) 0 = some testGeometry.dblMax ∧
      hitFace testGeometry singleTetMesh (offsetRay grazingRay) 1 = none ∧
      hitFace testGeometry singleTetMesh (offsetRay grazingRay) 2 = none ∧
      hitFace testGeometry singleTetMesh (offsetRay grazingRay) 3 =
        some testGeometry.dblMax := by
  refine ⟨?_, ?_, ?_, ?_⟩ <;>
    norm_num [hitFace, get_pos, singleTetMesh, testGeometry, rayTriangle,
      Vec3.sub, Vec3.cross, Vec3.dot, offsetRay, addEpsilonOffset, Vec3.add, grazingRay]

theorem grazingRay_raycast (queryType : QueryType) :
    (singleTetQuery.raycast_faces testGeometry grazingRay queryType).1 =
      { first_intersection := 3, dist := testGeometry.dblMax, ray := offsetRay grazingRay,
        query_type := queryType, mesh := some singleTetMesh } := by
  have hm : singleTetQuery.mesh = singleTetMesh := rfl
  obtain ⟨h0, h1, h2, h3⟩ := grazingRay_hits
  unfold Query.raycast_faces
  rw [singleTetQuery_cachedFaces, hm]
  simp only [List.foldl, raycastStep, h0, h1, h2, h3, if_true]
  simp [sentinelKey]

/-- C9 (failing input). A ray from far below touches `singleTetMesh` in one point
of the edge common to the cached boundary faces 0 and 3, at distance `DBL_MAX`
(exact ray-triangle test); faces 1 and 2 are not intersected. Face 0, enumerated
first, is the first closest hit, but `raycast_faces` returns a result anchored at
face 3: the stored distance `DBL_MAX` of face 0 reads as "nothing found yet" and
face 3 replaces it. -/
theorem raycast_faces_marker_collision :
    singleTetQuery.cachedFaces = [0, 1, 2, 3] ∧
      hitFace testGeometry singleTetMesh (offsetRay grazingRay) 0 = some testGeometry.dblMax ∧
      hitFace testGeometry singleTetMesh (offsetRay grazingRay) 1 = none ∧
      hitFace testGeometry singleTetMesh (offsetRay grazingRay) 2 = none ∧
      hitFace testGeometry singleTetMesh (offsetRay grazingRay) 3 = some testGeometry.dblMax ∧
      IsFirstMinHit (hitFace testGeometry singleTetQuery.mesh (offsetRay grazingRay))
        singleTetQuery.cachedFaces 0 testGeometry.dblMax ∧
      (singleTetQuery.raycast_faces testGeometry grazingRay QueryType.All).1.first_intersection
        = 3 ∧
      (singleTetQuery.raycast_faces testGeometry grazingRay QueryType.All).1.dist =
        testGeometry.dblMax ∧
      ¬ IsFirstMinHit (hitFace testGeometry singleTetQuery.mesh (offsetRay grazingRay))
          singleTetQuery.cachedFaces
          (singleTetQuery.raycast_faces testGeometry grazingRay QueryType.All).1.first_intersection
          (singleTetQuery.raycast_faces testGeometry grazingRay QueryType.All).1.dist := by
  have hm : singleTetQuery.mesh = singleTetMesh := rfl
  obtain ⟨h0, h1, h2, h3⟩ := grazingRay_hits
  refine ⟨singleTetQuery_cachedFaces, h0, h1, h2, h3, ?_, ?_, ?_, ?_⟩
  · rw [singleTetQuery_cachedFaces, hm]
    refine ⟨[], [1, 2, 3], rfl, h0, by simp, ?_⟩
    intro x hx dx hdx
    simp only [List.mem_cons, List.mem_singleton, List.not_mem_nil, or_false] at hx
    rcases hx with rfl | rfl | rfl
    · rw [h1] at hdx
      simp at hdx
    · rw [h2] at hdx
      simp at hdx
    · rw [h3] at hdx
      simp only [Option.some.injEq] at hdx
      exact le_of_eq hdx
  · rw [grazingRay_raycast]
  · rw [grazingRay_raycast]
  · rw [grazingRay_raycast, singleTetQuery_cachedFaces, hm]
    rintro ⟨p0, p1, hc, _, hlt, _⟩
    cases p0 with
    | nil => simp at hc
    | cons a p0 =>
      simp only [List.cons_append, List.cons.injEq] at hc
      have ha : a = 0 := hc.1.symm
      have h := hlt a (by simp) testGeometry.dblMax (by rw [ha]; exact h0)
      exact lt_irrefl _ h

/-! # Theorems on `Query::rebuild_boundary_cache` -/

theorem foldl_push_if (p : Nat → Bool) (l init : List Nat) :
    l.foldl (fun cache f => if p f then cache ++ [f] else cache) init = init ++ l.filter p := by
  induction l generalizing init with
  | nil => simp
  | cons a l ih =>
    rw [List.foldl_cons, ih, List.filter_cons]
    by_cases h : p a <;> simp [h]

/-- C13. Whatever the cache held before (absent, empty or stale), after
`rebuild_boundary_cache` it is exactly the keys of the mesh faces whose
`is_boundary()` holds, in mesh iteration order; the mesh is untouched, and
rebuilding again gives the same engine state. -/
theorem rebuild_boundary_cache_exact {R : Type} (q : Query R) :
    q.rebuild_boundary_cache.boundary_faces =
        some (q.mesh.faces.filter (fun f => is_boundary (q.mesh.face_flags f))) ∧
      q.rebuild_boundary_cache.mesh = q.mesh ∧
      (∀ previous : Option (List Nat),
        (Query.mk q.mesh previous).rebuild_boundary_cache = q.rebuild_boundary_cache) ∧
      q.rebuild_boundary_cache.rebuild_boundary_cache = q.rebuild_boundary_cache := by
  have h : ∀ q0 : Query R, q0.rebuild_boundary_cache =
      { mesh := q0.mesh,
        boundary_faces :=
          some (q0.mesh.faces.filter (fun f => is_boundary (q0.mesh.face_flags f))) } := by
    intro q0
    unfold Query.rebuild_boundary_cache
    cases hq : q0.boundary_faces <;> simp [foldl_push_if]
  refine ⟨?_, ?_, ?_, ?_⟩
  · rw [h q]
  · rw [h q]
  · intro previous
    rw [h q, h (Query.mk q.mesh previous)]
  · rw [h q.rebuild_boundary_cache, h q]

/-! # Theorems on the attribute records -/

theorem flag_bit_eq_testBit (flags i : Nat) : ((flags >>> i) % 2 == 1) = flags.testBit i := by
  rw [Nat.testBit_to_div_mod, Nat.shiftRight_eq_div_pow]
  by_cases h : flags / 2 ^ i % 2 = 1 <;> simp [h]

theorem flag_bit_zero_eq_testBit (flags : Nat) : (flags % 2 == 1) = flags.testBit 0 := by
  rw [Nat.testBit_zero]
  by_cases h : flags % 2 = 1 <;> simp [h]

theorem testBit_of_lt_32 (flags i : Nat) (h : flags < 4294967296) (hi : 32 ≤ i) :
    flags.testBit i = false := by
  apply Nat.testBit_lt_two_pow
  calc flags < 2 ^ 32 := h
    _ ≤ 2 ^ i := Nat.pow_le_pow_right (by decide) hi

theorem testBit_assignMask (flags k i : Nat) (b : Bool) (hk : k < 32)
    (hflags : flags < 4294967296) :
    (assignMask flags (2 ^ k) b).testBit i = if i = k then b else flags.testBit i := by
  have hall : (4294967295 : Nat) = 2 ^ 32 - 1 := by decide
  unfold assignMask
  cases b with
  | true =>
    simp only [if_true, Nat.testBit_or, Nat.testBit_two_pow]
    by_cases h : i = k
    · subst h
      simp
    · have h2 : ¬ k = i := fun e => h e.symm
      simp [h, h2]
  | false =>
    simp only [Bool.false_eq_true, if_false, Nat.testBit_and, Nat.testBit_xor, hall,
      Nat.testBit_two_pow_sub_one, Nat.testBit_two_pow]
    by_cases h : i = k
    · subst h
      simp [hk]
    · have h2 : ¬ k = i := fun e => h e.symm
      by_cases h32 : i < 32
      · simp [h, h2, h32]
      · simp [h, h2, h32, testBit_of_lt_32 flags i hflags (by omega)]

theorem assignMask_lt (flags k : Nat) (b : Bool) (hk : k < 32) (hflags : flags < 4294967296) :
    assignMask flags (2 ^ k) b < 4294967296 := by
  have h32 : (4294967296 : Nat) = 2 ^ 32 := by decide
  rw [h32]
  apply Nat.lt_pow_two_of_testBit
  intro i hi
  rw [testBit_assignMask flags k i b hk hflags]
  have hne : i ≠ k := by omega
  simp only [hne, if_false]
  exact testBit_of_lt_32 flags i hflags hi

/-- Frame of one setter: every other flag bit reads as before, and the flag word
is unchanged or differs exactly in the bit of the mask. -/
theorem assignMask_frame (flags k : Nat) (b : Bool) (hk : k < 32)
    (hflags : flags < 4294967296) :
    (∀ i, i ≠ k → (assignMask flags (2 ^ k) b).testBit i = flags.testBit i) ∧
      DiffersOnlyIn (2 ^ k) (assignMask flags (2 ^ k) b) flags := by
  constructor
  · intro i hi
    rw [testBit_assignMask flags k i b hk hflags]
    simp [hi]
  · unfold DiffersOnlyIn
    by_cases hsame : (assignMask flags (2 ^ k) b).testBit k = flags.testBit k
    · left
      apply Nat.eq_of_testBit_eq
      intro i
      by_cases hi : i = k
      · rw [hi]
        exact hsame
      · rw [testBit_assignMask flags k i b hk hflags]
        simp [hi]
    · right
      apply Nat.eq_of_testBit_eq
      intro i
      rw [Nat.testBit_xor, Nat.testBit_two_pow]
      by_cases hi : i = k
      · subst hi
        cases h1 : (assignMask flags (2 ^ i) b).testBit i <;>
          cases h2 : flags.testBit i <;> simp_all
      · have h2 : ¬ k = i := fun e => hi e.symm
        rw [testBit_assignMask flags k i b hk hflags]
        simp [hi, h2]

theorem assignMask_roundtrip (flags k : Nat) (hk : k < 32) (hflags : flags < 4294967296) :
    assignMask (assignMask flags (2 ^ k) true) (2 ^ k) false = assignMask flags (2 ^ k) false ∧
      (flags.testBit k = false →
        assignMask (assignMask flags (2 ^ k) true) (2 ^ k) false = flags) := by
  have hlt := assignMask_lt flags k true hk hflags
  constructor
  · apply Nat.eq_of_testBit_eq
    intro i
    rw [testBit_assignMask _ k i false hk hlt, testBit_assignMask flags k i false hk hflags,
      testBit_assignMask flags k i true hk hflags]
    by_cases hi : i = k <;> simp [hi]
  · intro hclear
    apply Nat.eq_of_testBit_eq
    intro i
    rw [testBit_assignMask _ k i false hk hlt, testBit_assignMask flags k i true hk hflags]
    by_cases hi : i = k
    · subst hi
      simp [hclear]
    · simp [hi]

theorem shifted_flag_assignMask (flags k j : Nat) (b : Bool) (hk : k < 32)
    (hflags : flags < 4294967296) (hne : j ≠ k) :
    ((assignMask flags (2 ^ k) b >>> j) % 2 == 1) = ((flags >>> j) % 2 == 1) := by
  rw [flag_bit_eq_testBit, flag_bit_eq_testBit]
  exact (assignMask_frame flags k b hk hflags).1 j hne

theorem low_flag_assignMask (flags k : Nat) (b : Bool) (hk : k < 32)
    (hflags : flags < 4294967296) (hne : 0 ≠ k) :
    (assignMask flags (2 ^ k) b % 2 == 1) = (flags % 2 == 1) := by
  rw [flag_bit_zero_eq_testBit, flag_bit_zero_eq_testBit]
  exact (assignMask_frame flags k b hk hflags).1 0 hne


/-- C14. For a node, edge or face record with a 32-bit flag word, every boolean `b`
and every two distinct flags X and Y of the kind, `set_X(b)` leaves `is_Y()` as it
was (for a node also position and destination), and the flag word is unchanged or
differs exactly in the bit of X. -/
theorem set_flag_frame {R : Type} (n : default_node_traits R) (e : default_edge_traits)
    (f : default_face_traits) (b : Bool) (hn : n.flags < 4294967296)
    (he : e.flags < 4294967296) (hf : f.flags < 4294967296) :
    ((n.set_crossing b).is_boundary = n.is_boundary ∧
        (n.set_crossing b).is_interface = n.is_interface ∧
        (n.set_crossing b).p = n.p ∧
        (n.set_crossing b).p_new = n.p_new ∧
        DiffersOnlyIn 1 (n.set_crossing b).flags n.flags) ∧
      ((n.set_boundary b).is_crossing = n.is_crossing ∧
        (n.set_boundary b).is_interface = n.is_interface ∧
        (n.set_boundary b).p = n.p ∧
        (n.set_boundary b).p_new = n.p_new ∧
        DiffersOnlyIn 2 (n.set_boundary b).flags n.flags) ∧
      ((n.set_interface b).is_crossing = n.is_crossing ∧
        (n.set_interface b).is_boundary = n.is_boundary ∧
        (n.set_interface b).p = n.p ∧
        (n.set_interface b).p_new = n.p_new ∧
        DiffersOnlyIn 4 (n.set_interface b).flags n.flags) ∧
      ((e.set_crossing b).is_boundary = e.is_boundary ∧
        (e.set_crossing b).is_interface = e.is_interface ∧
        DiffersOnlyIn 1 (e.set_crossing b).flags e.flags) ∧
      ((e.set_boundary b).is_crossing = e.is_crossing ∧
        (e.set_boundary b).is_interface = e.is_interface ∧
        DiffersOnlyIn 2 (e.set_boundary b).flags e.flags) ∧
      ((e.set_interface b).is_crossing = e.is_crossing ∧
        (e.set_interface b).is_boundary = e.is_boundary ∧
        DiffersOnlyIn 4 (e.set_interface b).flags e.flags) ∧
      ((f.set_locked b).is_boundary = f.is_boundary ∧
        (f.set_locked b).is_processed = f.is_processed ∧
        (f.set_locked b).is_interface = f.is_interface ∧
        (f.set_locked b).is_error = f.is_error ∧
        DiffersOnlyIn 1 (f.set_locked b).flags f.flags) ∧
      ((f.set_boundary b).is_locked = f.is_locked ∧
        (f.set_boundary b).is_processed = f.is_processed ∧
        (f.set_boundary b).is_interface = f.is_interface ∧
        (f.set_boundary b).is_error = f.is_error ∧
        DiffersOnlyIn 2 (f.set_boundary b).flags f.flags) ∧
      ((f.set_processed b).is_locked = f.is_locked ∧
        (f.set_processed b).is_boundary = f.is_boundary ∧
        (f.set_processed b).is_interface = f.is_interface ∧
        (f.set_processed b).is_error = f.is_error ∧
        DiffersOnlyIn 4 (f.set_processed b).flags f.flags) ∧
      ((f.set_interface b).is_locked = f.is_locked ∧
        (f.set_interface b).is_boundary = f.is_boundary ∧
        (f.set_interface b).is_processed = f.is_processed ∧
        (f.set_interface b).is_error = f.is_error ∧
        DiffersOnlyIn 8 (f.set_interface b).flags f.flags) ∧
      ((f.set_error b).is_locked = f.is_locked ∧
        (f.set_error b).is_boundary = f.is_boundary ∧
        (f.set_error b).is_processed = f.is_processed ∧
        (f.set_error b).is_interface = f.is_interface ∧
        DiffersOnlyIn 16 (f.set_error b).flags f.flags) :=
  ⟨⟨shifted_flag_assignMask n.flags 0 1 b (by decide) hn (by decide),
      shifted_flag_assignMask n.flags 0 2 b (by decide) hn (by decide),
      rfl,
      rfl,
      (assignMask_frame n.flags 0 b (by decide) hn).2⟩,
    ⟨low_flag_assignMask n.flags 1 b (by decide) hn (by decide),
      shifted_flag_assignMask n.flags 1 2 b (by decide) hn (by decide),
      rfl,
      rfl,
      (assignMask_frame n.flags 1 b (by decide) hn).2⟩,
    ⟨low_flag_assignMask n.flags 2 b (by decide) hn (by decide),
      shifted_flag_assignMask n.flags 2 1 b (by decide) hn (by decide),
      rfl,
      rfl,
      (assignMask_frame n.flags 2 b (by decide) hn).2⟩,
    ⟨shifted_flag_assignMask e.flags 0 1 b (by decide) he (by decide),
      shifted_flag_assignMask e.flags 0 2 b (by decide) he (by decide),
      (assignMask_frame e.flags 0 b (by decide) he).2⟩,
    ⟨low_flag_assignMask e.flags 1 b (by decide) he (by decide),
      shifted_flag_assignMask e.flags 1 2 b (by decide) he (by decide),
      (assignMask_frame e.flags 1 b (by decide) he).2⟩,
    ⟨low_flag_assignMask e.flags 2 b (by decide) he (by decide),
      shifted_flag_assignMask e.flags 2 1 b (by decide) he (by decide),
      (assignMask_frame e.flags 2 b (by decide) he).2⟩,
    ⟨shifted_flag_assignMask f.flags 0 1 b (by decide) hf (by decide),
      shifted_flag_assignMask f.flags 0 2 b (by decide) hf (by decide),
      shifted_flag_assignMask f.flags 0 3 b (by decide) hf (by decide),
      shifted_flag_assignMask f.flags 0 4 b (by decide) hf (by decide),
      (assignMask_frame f.flags 0 b (by decide) hf).2⟩,
    ⟨low_flag_assignMask f.flags 1 b (by decide) hf (by decide),
      shifted_flag_assignMask f.flags 1 2 b (by decide) hf (by decide),
      shifted_flag_assignMask f.flags 1 3 b (by decide) hf (by decide),
      shifted_flag_assignMask f.flags 1 4 b (by decide) hf (by decide),
      (assignMask_frame f.flags 1 b (by decide) hf).2⟩,
    ⟨low_flag_assignMask f.flags 2 b (by decide) hf (by decide),
      shifted_flag_assignMask f.flags 2 1 b (by decide) hf (by decide),
      shifted_flag_assignMask f.flags 2 3 b (by decide) hf (by decide),
      shifted_flag_assignMask f.flags 2 4 b (by decide) hf (by decide),
      (assignMask_frame f.flags 2 b (by decide) hf).2⟩,
    ⟨low_flag_assignMask f.flags 3 b (by decide) hf (by decide),
      shifted_flag_assignMask f.flags 3 1 b (by decide) hf (by decide),
      shifted_flag_assignMask f.flags 3 2 b (by decide) hf (by decide),
      shifted_flag_assignMask f.flags 3 4 b (by decide) hf (by decide),
      (assignMask_frame f.flags 3 b (by decide) hf).2⟩,
    ⟨low_flag_assignMask f.flags 4 b (by decide) hf (by decide),
      shifted_flag_assignMask f.flags 4 1 b (by decide) hf (by decide),
      shifted_flag_assignMask f.flags 4 2 b (by decide) hf (by decide),
      shifted_flag_assignMask f.flags 4 3 b (by decide) hf (by decide),
      (assignMask_frame f.flags 4 b (by decide) hf).2⟩⟩


theorem set_flag_frame_witness :
    (5 : Nat) < 4294967296 ∧ (6 : Nat) < 4294967296 ∧ (21 : Nat) < 4294967296 ∧
      ((default_node_traits.mk (⟨1, 2, 3⟩ : Vec3 ℚ) ⟨4, 5, 6⟩ 5).set_crossing false).is_interface
        = (default_node_traits.mk (⟨1, 2, 3⟩ : Vec3 ℚ) ⟨4, 5, 6⟩ 5).is_interface :=
  ⟨by decide, by decide, by decide,
    (set_flag_frame (default_node_traits.mk (⟨1, 2, 3⟩ : Vec3 ℚ) ⟨4, 5, 6⟩ 5) ⟨6⟩ ⟨21⟩ false
      (by decide) (by decide) (by decide)).1.2.1⟩


theorem node_flags_ext {R : Type} (n : default_node_traits R) (flags : Nat)
    (h : flags = n.flags) : ({ n with flags := flags } : default_node_traits R) = n := by
  cases n
  simp only at h
  simp [h]

theorem edge_flags_ext (e : default_edge_traits) (flags : Nat) (h : flags = e.flags) :
    ({ e with flags := flags } : default_edge_traits) = e := by
  cases e
  simp only at h
  simp [h]

theorem face_flags_ext (f : default_face_traits) (flags : Nat) (h : flags = f.flags) :
    ({ f with flags := flags } : default_face_traits) = f := by
  cases f
  simp only at h
  simp [h]

theorem flag_clear_testBit (flags k : Nat) (h : ((flags >>> k) % 2 == 1) = false) :
    flags.testBit k = false := by
  rw [← flag_bit_eq_testBit]
  exact h

theorem low_flag_clear_testBit (flags : Nat) (h : (flags % 2 == 1) = false) :
    flags.testBit 0 = false := by
  rw [← flag_bit_zero_eq_testBit]
  exact h


/-- C15 (amended). For a record with a 32-bit flag word and a flag X of its kind,
`set_X(true)` followed by `set_X(false)` gives the record that `set_X(false)` alone
gives; it restores the original record when X was clear before. -/
theorem set_then_clear {R : Type} (n : default_node_traits R) (e : default_edge_traits)
    (f : default_face_traits) (hn : n.flags < 4294967296) (he : e.flags < 4294967296)
    (hf : f.flags < 4294967296) :
    ((n.set_crossing true).set_crossing false = n.set_crossing false) ∧
      (n.is_crossing = false → (n.set_crossing true).set_crossing false = n) ∧
      ((n.set_boundary true).set_boundary false = n.set_boundary false) ∧
      (n.is_boundary = false → (n.set_boundary true).set_boundary false = n) ∧
      ((n.set_interface true).set_interface false = n.set_interface false) ∧
      (n.is_interface = false → (n.set_interface true).set_interface false = n) ∧
      ((e.set_crossing true).set_crossing false = e.set_crossing false) ∧
      (e.is_crossing = false → (e.set_crossing true).set_crossing false = e) ∧
      ((e.set_boundary true).set_boundary false = e.set_boundary false) ∧
      (e.is_boundary = false → (e.set_boundary true).set_boundary false = e) ∧
      ((e.set_interface true).set_interface false = e.set_interface false) ∧
      (e.is_interface = false → (e.set_interface true).set_interface false = e) ∧
      ((f.set_locked true).set_locked false = f.set_locked false) ∧
      (f.is_locked = false → (f.set_locked true).set_locked false = f) ∧
      ((f.set_boundary true).set_boundary false = f.set_boundary false) ∧
      (f.is_boundary = false → (f.set_boundary true).set_boundary false = f) ∧
      ((f.set_processed true).set_processed false = f.set_processed false) ∧
      (f.is_processed = false → (f.set_processed true).set_processed false = f) ∧
      ((f.set_interface true).set_interface false = f.set_interface false) ∧
      (f.is_interface = false → (f.set_interface true).set_interface false = f) ∧
      ((f.set_error true).set_error false = f.set_error false) ∧
      (f.is_error = false → (f.set_error true).set_error false = f) :=
  ⟨congrArg (fun w => { n with flags := w })
      (assignMask_roundtrip n.flags 0 (by decide) hn).1,
    fun h => node_flags_ext n _
      ((assignMask_roundtrip n.flags 0 (by decide) hn).2 (low_flag_clear_testBit n.flags h)),
    congrArg (fun w => { n with flags := w })
      (assignMask_roundtrip n.flags 1 (by decide) hn).1,
    fun h => node_flags_ext n _
      ((assignMask_roundtrip n.flags 1 (by decide) hn).2 (flag_clear_testBit n.flags 1 h)),
    congrArg (fun w => { n with flags := w })
      (assignMask_roundtrip n.flags 2 (by decide) hn).1,
    fun h => node_flags_ext n _
      ((assignMask_roundtrip n.flags 2 (by decide) hn).2 (flag_clear_testBit n.flags 2 h)),
    congrArg (fun w => { e with flags := w })
      (assignMask_roundtrip e.flags 0 (by decide) he).1,
    fun h => edge_flags_ext e _
      ((assignMask_roundtrip e.flags 0 (by decide) he).2 (low_flag_clear_testBit e.flags h)),
    congrArg (fun w => { e with flags := w })
      (assignMask_roundtrip e.flags 1 (by decide) he).1,
    fun h => edge_flags_ext e _
      ((assignMask_roundtrip e.flags 1 (by decide) he).2 (flag_clear_testBit e.flags 1 h)),
    congrArg (fun w => { e with flags := w })
      (assignMask_roundtrip e.flags 2 (by decide) he).1,
    fun h => edge_flags_ext e _
      ((assignMask_roundtrip e.flags 2 (by decide) he).2 (flag_clear_testBit e.flags 2 h)),
    congrArg (fun w => { f with flags := w })
      (assignMask_roundtrip f.flags 0 (by decide) hf).1,
    fun h => face_flags_ext f _
      ((assignMask_roundtrip f.flags 0 (by decide) hf).2 (low_flag_clear_testBit f.flags h)),
    congrArg (fun w => { f with flags := w })
      (assignMask_roundtrip f.flags 1 (by decide) hf).1,
    fun h => face_flags_ext f _
      ((assignMask_roundtrip f.flags 1 (by decide) hf).2 (flag_clear_testBit f.flags 1 h)),
    congrArg (fun w => { f with flags := w })
      (assignMask_roundtrip f.flags 2 (by decide) hf).1,
    fun h => face_flags_ext f _
      ((assignMask_roundtrip f.flags 2 (by decide) hf).2 (flag_clear_testBit f.flags 2 h)),
    congrArg (fun w => { f with flags := w })
      (assignMask_roundtrip f.flags 3 (by decide) hf).1,
    fun h => face_flags_ext f _
      ((assignMask_roundtrip f.flags 3 (by decide) hf).2 (flag_clear_testBit f.flags 3 h)),
    congrArg (fun w => { f with flags := w })
      (assignMask_roundtrip f.flags 4 (by decide) hf).1,
    fun h => face_flags_ext f _
      ((assignMask_roundtrip f.flags 4 (by decide) hf).2 (flag_clear_testBit f.flags 4 h))⟩

theorem set_then_clear_witness :
    (4 : Nat) < 4294967296 ∧ (6 : Nat) < 4294967296 ∧ (20 : Nat) < 4294967296 ∧
      (default_face_traits.mk 20).is_boundary = false ∧
      ((default_face_traits.mk 20).set_boundary true).set_boundary false =
        default_face_traits.mk 20 :=
  ⟨by decide, by decide, by decide, by decide,
    (set_then_clear (default_node_traits.mk (⟨1, 2, 3⟩ : Vec3 ℚ) ⟨4, 5, 6⟩ 4) ⟨6⟩ ⟨20⟩
      (by decide) (by decide) (by decide)).2.2.2.2.2.2.2.2.2.2.2.2.2.2.2.1 (by decide)⟩

/-- C15 (as stated) fails when the flag was set before: on the flag word `1`,
`set_locked(true)` then `set_locked(false)` leaves `0`. -/
theorem set_then_clear_counterexample :
    (default_face_traits.mk 1).flags < 4294967296 ∧
      ((default_face_traits.mk 1).set_locked true).set_locked false = default_face_traits.mk 0 ∧
      ((default_face_traits.mk 1).set_locked true).set_locked false ≠ default_face_traits.mk 1 := by
  decide

/-! # Theorems on the walking step and `next()` -/

theorem passesFilter_eq_filterAccepts {R : Type} (m : ISMesh R) (query_type : QueryType)
    (fk : Nat) : passesFilter m query_type fk = filterAccepts m query_type fk := by
  cases query_type <;> simp [passesFilter, filterAccepts]

theorem tetWalking_cases {R : Type} [LinearOrderedField R] (g : Geometry R) (m : ISMesh R)
    (it : QueryResultIterator R) (faces : List Nat) :
    ((∀ f ∈ faces, hitFace g m it.ray f = none) ∧
        QueryResultIterator.tetWalking g m it faces = (false, it)) ∨
      ∃ pre fk post d, faces = pre ++ fk :: post ∧ (∀ f ∈ pre, hitFace g m it.ray f = none) ∧
        hitFace g m it.ray fk = some d ∧
        QueryResultIterator.tetWalking g m it faces =
          (passesFilter m it.query_type fk,
            { it with
              face_key := fk
              tetrahedron_key := simplexSetDiff (m.face_co_boundary fk) it.tetrahedron_key
              dist := d }) := by
  induction faces with
  | nil => exact Or.inl ⟨by simp, rfl⟩
  | cons f faces ih =>
    cases hf : hitFace g m it.ray f with
    | some d =>
      right
      refine ⟨[], f, faces, d, rfl, by simp, hf, ?_⟩
      simp [QueryResultIterator.tetWalking, hf]
    | none =>
      have hw : QueryResultIterator.tetWalking g m it (f :: faces) =
          QueryResultIterator.tetWalking g m it faces := by
        simp only [QueryResultIterator.tetWalking, hf]
      rcases ih with ⟨hnone, hres⟩ | ⟨pre, fk, post, d, hsplit, hpre, hhit, hres⟩
      · left
        refine ⟨?_, by rw [hw, hres]⟩
        intro x hx
        rcases List.mem_cons.mp hx with h | h
        · rw [h]
          exact hf
        · exact hnone x h
      · right
        refine ⟨f :: pre, fk, post, d, by rw [hsplit]; rfl, ?_, hhit, by rw [hw, hres]⟩
        intro x hx
        rcases List.mem_cons.mp hx with h | h
        · rw [h]
          exact hf
        · exact hpre x h

theorem tetWalking_frame {R : Type} [LinearOrderedField R] (g : Geometry R) (m : ISMesh R)
    (it : QueryResultIterator R) (faces : List Nat) :
    (QueryResultIterator.tetWalking g m it faces).2.query_type = it.query_type ∧
      (QueryResultIterator.tetWalking g m it faces).2.mesh = it.mesh ∧
      (QueryResultIterator.tetWalking g m it faces).2.ray = it.ray ∧
      ((QueryResultIterator.tetWalking g m it faces).1 = true →
        passesFilter m it.query_type
          (QueryResultIterator.tetWalking g m it faces).2.face_key = true) := by
  rcases tetWalking_cases g m it faces with ⟨_, hres⟩ | ⟨pre, fk, post, d, _, _, _, hres⟩
  · rw [hres]
    simp
  · rw [hres]
    simp

theorem nextLoop_empty {R : Type} [LinearOrderedField R] (g : Geometry R) (m : ISMesh R)
    (fuel : Nat) (it : QueryResultIterator R) (h : it.tetrahedron_key = []) :
    QueryResultIterator.nextLoop g m (fuel + 1) it =
      Run.done { it with face_key := sentinelKey } := by
  unfold QueryResultIterator.nextLoop
  simp [h]

theorem nextLoop_found {R : Type} [LinearOrderedField R] (g : Geometry R) (m : ISMesh R)
    (fuel : Nat) (it it1 : QueryResultIterator R) (h : it.tetrahedron_key ≠ [])
    (hw : QueryResultIterator.tetWalking g m it (it.scanFaces m) = (true, it1)) :
    QueryResultIterator.nextLoop g m (fuel + 1) it = Run.done it1 := by
  have hpos : it.tetrahedron_key.length > 0 := List.length_pos.mpr h
  unfold QueryResultIterator.scanFaces at hw
  unfold QueryResultIterator.nextLoop
  simp only [hpos, if_true, hw]

theorem nextLoop_continue {R : Type} [LinearOrderedField R] (g : Geometry R) (m : ISMesh R)
    (fuel : Nat) (it it1 : QueryResultIterator R) (h : it.tetrahedron_key ≠ [])
    (hw : QueryResultIterator.tetWalking g m it (it.scanFaces m) = (false, it1))
    (hd : it.dist ≠ it1.dist) :
    QueryResultIterator.nextLoop g m (fuel + 1) it =
      QueryResultIterator.nextLoop g m fuel it1 := by
  have hpos : it.tetrahedron_key.length > 0 := List.length_pos.mpr h
  unfold QueryResultIterator.scanFaces at hw
  conv_lhs => unfold QueryResultIterator.nextLoop
  simp only [hpos, if_true, hw, hd, ne_eq, not_false_eq_true]

theorem nextLoop_break {R : Type} [LinearOrderedField R] (g : Geometry R) (m : ISMesh R)
    (fuel : Nat) (it it1 : QueryResultIterator R) (h : it.tetrahedron_key ≠ [])
    (hw : QueryResultIterator.tetWalking g m it (it.scanFaces m) = (false, it1))
    (hd : it.dist = it1.dist) :
    QueryResultIterator.nextLoop g m (fuel + 1) it =
      Run.done { it1 with face_key := sentinelKey } := by
  have hpos : it.tetrahedron_key.length > 0 := List.length_pos.mpr h
  unfold QueryResultIterator.scanFaces at hw
  unfold QueryResultIterator.nextLoop
  simp only [hpos, if_true, hw, hd, ne_eq, not_true_eq_false, if_false]

theorem nextLoop_result {R : Type} [LinearOrderedField R] (g : Geometry R) (m : ISMesh R)
    (fuel : Nat) (it res : QueryResultIterator R)
    (h : QueryResultIterator.nextLoop g m fuel it = Run.done res) :
    res.query_type = it.query_type ∧ res.mesh = it.mesh ∧ res.ray = it.ray ∧
      (res.face_key = sentinelKey ∨ passesFilter m it.query_type res.face_key = true) := by
  induction fuel generalizing it with
  | zero => simp [QueryResultIterator.nextLoop] at h
  | succ fuel ih =>
    by_cases ht : it.tetrahedron_key = []
    · rw [nextLoop_empty g m fuel it ht] at h
      simp only [Run.done.injEq] at h
      subst h
      exact ⟨rfl, rfl, rfl, Or.inl rfl⟩
    · obtain ⟨hq, hm, hr, hp⟩ := tetWalking_frame g m it (it.scanFaces m)
      rcases hw : QueryResultIterator.tetWalking g m it (it.scanFaces m) with ⟨found, it1⟩
      rw [hw] at hq hm hr hp
      simp only at hq hm hr hp
      cases found with
      | true =>
        rw [nextLoop_found g m fuel it it1 ht hw] at h
        simp only [Run.done.injEq] at h
        subst h
        exact ⟨hq, hm, hr, Or.inr (hp rfl)⟩
      | false =>
        by_cases hd : it.dist = it1.dist
        · rw [nextLoop_break g m fuel it it1 ht hw hd] at h
          simp only [Run.done.injEq] at h
          subst h
          exact ⟨hq, hm, hr, Or.inl rfl⟩
        · rw [nextLoop_continue g m fuel it it1 ht hw hd] at h
          obtain ⟨h1, h2, h3, h4⟩ := ih it1 h
          rw [hq] at h1 h4
          exact ⟨h1, h2.trans hm, h3.trans hr, h4⟩

theorem next_result {R : Type} [LinearOrderedField R] (g : Geometry R) (fuel : Nat)
    (it res : QueryResultIterator R) (h : it.next g fuel = Run.done res) :
    res.query_type = it.query_type ∧ res.mesh = it.mesh ∧ res.ray = it.ray ∧
      (res.face_key = sentinelKey ∨
        ∃ m, it.mesh = some m ∧ passesFilter m it.query_type res.face_key = true) := by
  unfold QueryResultIterator.next at h
  split_ifs at h with h0
  · simp only [Run.done.injEq] at h
    subst h
    exact ⟨rfl, rfl, rfl, Or.inl rfl⟩
  · cases hm : it.mesh with
    | none => simp [hm] at h
    | some m =>
      simp only [hm] at h
      obtain ⟨h1, h2, h3, h4⟩ := nextLoop_result g m fuel it res h
      refine ⟨h1, h2.trans hm, h3, ?_⟩
      rcases h4 with h4 | h4
      · exact Or.inl h4
      · exact Or.inr ⟨m, rfl, h4⟩

/-- C11. A walking step that finds an intersected face yields it exactly when the
face passes the query-type filter; after `next()` the face key is the sentinel or
a face that passes the filter; and every result of an `Interface` query, the first
one included, is the sentinel or a face with the interface flag. -/
theorem walking_yields_iff_filter {R : Type} [LinearOrderedField R] (g : Geometry R) :
    (∀ (m : ISMesh R) (it : QueryResultIterator R) (pre post : List Nat) (fk : Nat) (d : R),
        (∀ f ∈ pre, hitFace g m it.ray f = none) → hitFace g m it.ray fk = some d →
        (QueryResultIterator.tetWalking g m it (pre ++ fk :: post)).1 =
            filterAccepts m it.query_type fk ∧
          (QueryResultIterator.tetWalking g m it (pre ++ fk :: post)).2.face_key = fk) ∧
      (∀ (fuel : Nat) (it res : QueryResultIterator R), it.next g fuel = Run.done res →
        res.query_type = it.query_type ∧
          (res.face_key = sentinelKey ∨
            ∃ m, it.mesh = some m ∧ filterAccepts m it.query_type res.face_key = true)) ∧
      (∀ (fuel : Nat) (r : QueryResult R) (res : QueryResultIterator R),
        r.query_type = QueryType.Interface → r.begin g fuel = Run.done res →
        res.face_key = sentinelKey ∨
          ∃ m, r.mesh = some m ∧ is_interface (m.face_flags res.face_key) = true) := by
  refine ⟨?_, ?_, ?_⟩
  · intro m it pre post fk d hpre hhit
    rcases tetWalking_cases g m it (pre ++ fk :: post) with
      ⟨hnone, _⟩ | ⟨pre2, fk2, post2, d2, hsplit, hpre2, hhit2, hres⟩
    · rw [hnone fk (by simp)] at hhit
      simp at hhit
    · have hfk : fk2 = fk := by
        by_contra hne
        rcases List.append_eq_append_iff.mp hsplit with ⟨as, h1, h2⟩ | ⟨bs, h1, h2⟩
        · cases as with
          | nil =>
            simp only [List.nil_append, List.cons.injEq] at h2
            exact hne h2.1.symm
          | cons a as =>
            simp only [List.cons_append, List.cons.injEq] at h2
            have : fk ∈ pre2 := by rw [h1, h2.1]; simp
            rw [hpre2 fk this] at hhit
            simp at hhit
        · cases bs with
          | nil =>
            simp only [List.nil_append, List.cons.injEq] at h2
            exact hne h2.1
          | cons b bs =>
            simp only [List.cons_append, List.cons.injEq] at h2
            have : fk2 ∈ pre := by rw [h1, h2.1]; simp
            rw [hpre fk2 this] at hhit2
            simp at hhit2
      rw [hres, hfk, passesFilter_eq_filterAccepts]
      exact ⟨rfl, rfl⟩
  · intro fuel it res h
    obtain ⟨h1, _, _, h4⟩ := next_result g fuel it res h
    refine ⟨h1, ?_⟩
    rcases h4 with h4 | ⟨m, hm, hp⟩
    · exact Or.inl h4
    · exact Or.inr ⟨m, hm, by rw [← passesFilter_eq_filterAccepts]; exact hp⟩
  · intro fuel r res hq h
    unfold QueryResult.begin at h
    cases hm : r.mesh with
    | none =>
      simp only [hm, Run.done.injEq] at h
      subst h
      exact Or.inl rfl
    | some m =>
      simp only [hm] at h
      unfold QueryResultIterator.create at h
      simp only [hq, or_true, if_true] at h
      obtain ⟨_, _, _, h4⟩ := next_result g fuel _ res h
      rcases h4 with h4 | ⟨m2, hm2, hp⟩
      · exact Or.inl h4
      · right
        simp only [Option.some.injEq] at hm2
        subst hm2
        refine ⟨m, rfl, ?_⟩
        simpa [passesFilter] using hp

theorem walking_yields_iff_filter_witness :
    (∀ f ∈ [1, 2], hitFace testGeometry singleTetMesh upRayStart.ray f = none) ∧
      hitFace testGeometry singleTetMesh upRayStart.ray 3 = some (1589 / 1000) ∧
      (QueryResultIterator.tetWalking testGeometry singleTetMesh upRayStart
          ([1, 2] ++ 3 :: [])).1 = filterAccepts singleTetMesh upRayStart.query_type 3 ∧
      (QueryResultIterator.tetWalking testGeometry singleTetMesh upRayStart
          ([1, 2] ++ 3 :: [])).2.face_key = 3 :=
  have hpre : ∀ f ∈ [1, 2], hitFace testGeometry singleTetMesh upRayStart.ray f = none := by
    intro f hf
    simp only [List.mem_cons, List.mem_singleton, List.not_mem_nil, or_false] at hf
    rcases hf with rfl | rfl
    · exact upRay_hits.2.1
    · exact upRay_hits.2.2.1
  ⟨hpre, upRay_hits.2.2.2,
    (walking_yields_iff_filter testGeometry).1 singleTetMesh upRayStart [1, 2] [] 3
      (1589 / 1000) hpre upRay_hits.2.2.2⟩

/-- C12. If the candidate tetrahedron set is empty, or no face of the candidate
tetrahedra other than the current face intersects the ray, `next()` returns with
the face key set to the sentinel: the iterator equals the end iterator
(`operator==` true, `operator!=` false). -/
theorem next_terminal {R : Type} [LinearOrderedField R] (g : Geometry R) (fuel : Nat)
    (it : QueryResultIterator R)
    (h : it.tetrahedron_key = [] ∨
      ∃ m, it.mesh = some m ∧ ∀ f ∈ it.scanFaces m, hitFace g m it.ray f = none) :
    ∃ res, it.next g (fuel + 1) = Run.done res ∧ res.face_key = sentinelKey ∧
      res.eq QueryResultIterator.default = true ∧
      res.ne QueryResultIterator.default = false := by
  by_cases ht : it.tetrahedron_key = []
  · refine ⟨_, next_of_no_tets g (fuel + 1) it ht, rfl, ?_, ?_⟩ <;>
      simp [QueryResultIterator.eq, QueryResultIterator.ne, QueryResultIterator.default]
  · rcases h with h | ⟨m, hm, hmiss⟩
    · exact absurd h ht
    · have hw : QueryResultIterator.tetWalking g m it (it.scanFaces m) = (false, it) := by
        rcases tetWalking_cases g m it (it.scanFaces m) with
          ⟨_, hres⟩ | ⟨pre, fk, post, d, hsplit, _, hhit, _⟩
        · exact hres
        · rw [hmiss fk (by rw [hsplit]; simp)] at hhit
          simp at hhit
      have hlen : it.tetrahedron_key.length ≠ 0 := fun e => ht (List.length_eq_zero.mp e)
      have hnext : it.next g (fuel + 1) = Run.done { it with face_key := sentinelKey } := by
        unfold QueryResultIterator.next
        simp only [hlen, if_false, hm]
        have h2 := nextLoop_break g m fuel it it ht hw rfl
        simp only [hm] at h2
        exact h2
      refine ⟨_, hnext, rfl, ?_, ?_⟩ <;>
        simp [QueryResultIterator.eq, QueryResultIterator.ne, QueryResultIterator.default]

theorem missRayStart_misses :
    ∀ f ∈ missRayStart.scanFaces singleTetMesh,
      hitFace testGeometry singleTetMesh missRayStart.ray f = none := by
  intro f hf
  have hf4 : f ∈ singleTetQuery.cachedFaces := by
    rw [singleTetQuery_cachedFaces]
    have : missRayStart.scanFaces singleTetMesh = [1, 2, 3] := by decide
    rw [this] at hf
    simp only [List.mem_cons, List.mem_singleton, List.not_mem_nil, or_false] at hf ⊢
    tauto
  exact missRay_misses f hf4

theorem next_terminal_witness :
    (missRayStart.tetrahedron_key = [] ∨
        ∃ m, missRayStart.mesh = some m ∧
          ∀ f ∈ missRayStart.scanFaces m, hitFace testGeometry m missRayStart.ray f = none) ∧
      ∃ res, missRayStart.next testGeometry (0 + 1) = Run.done res ∧
        res.face_key = sentinelKey ∧ res.eq QueryResultIterator.default = true ∧
        res.ne QueryResultIterator.default = false :=
  ⟨Or.inr ⟨singleTetMesh, rfl, missRayStart_misses⟩,
    next_terminal testGeometry 0 missRayStart
      (Or.inr ⟨singleTetMesh, rfl, missRayStart_misses⟩)⟩

/-! # Termination of `Query::filter_subset` -/

theorem faceBoundaryTets_mem {tets : List Nat} {look : List Bool} {inc add : List Nat}
    (hlook : ∀ k ∈ inc, ∀ b, vecGet look (keyToInt k) = some b → b = decide (k ∈ tets))
    (h : faceBoundaryTets look inc = some add) : ∀ x ∈ add, x ∈ tets := by
  match inc, hlook, h with
  | [], _, h =>
    simp only [faceBoundaryTets, Option.some.injEq] at h
    subst h
    simp
  | [a], hlook, h =>
    simp only [faceBoundaryTets] at h
    split at h
    · rename_i la hla
      have := hlook a (by simp) la hla
      simp only [Option.some.injEq] at h
      subst h
      subst this
      by_cases ha : a ∈ tets <;> simp [ha]
    · exact absurd h (by simp)
  | [a, b], hlook, h =>
    simp only [faceBoundaryTets] at h
    split at h
    · rename_i la lb hla hlb
      have h1 := hlook a (by simp) la hla
      have h2 := hlook b (by simp) lb hlb
      simp only [Option.some.injEq] at h
      subst h
      subst h1
      subst h2
      by_cases ha : a ∈ tets <;> by_cases hb : b ∈ tets <;> simp [ha, hb]
    · exact absurd h (by simp)
  | _ :: _ :: _ :: _, _, h =>
    simp only [faceBoundaryTets, Option.some.injEq] at h
    subst h
    simp

theorem foldlM_boundaryTets_mem {R : Type} (m : ISMesh R) (tets : List Nat)
    {look : List Bool} {fks acc bt : List Nat}
    (hlook : ∀ fk ∈ fks, ∀ k ∈ m.face_tet_keys fk, ∀ b,
      vecGet look (keyToInt k) = some b → b = decide (k ∈ tets))
    (hacc : ∀ x ∈ acc, x ∈ tets)
    (h : fks.foldlM
      (fun boundaryTets fk =>
        match faceBoundaryTets look (m.face_tet_keys fk) with
        | some add => some (boundaryTets ++ add)
        | none => none) acc = some bt) :
    ∀ x ∈ bt, x ∈ tets := by
  induction fks generalizing acc with
  | nil =>
    simp only [List.foldlM_nil, pure, Option.some.injEq] at h
    subst h
    exact hacc
  | cons fk fks ih =>
    simp only [List.foldlM_cons, bind, Option.bind_eq_some] at h
    obtain ⟨mid, hmid, hrest⟩ := h
    split at hmid
    · rename_i add hadd
      simp only [Option.some.injEq] at hmid
      subst hmid
      have hadd2 := faceBoundaryTets_mem (hlook fk (by simp)) hadd
      refine ih (fun f hf => hlook f (List.mem_cons_of_mem _ hf)) ?_ hrest
      intro x hx
      rcases List.mem_append.mp hx with h1 | h1
      · exact hacc x h1
      · exact hadd2 x h1
    · exact absurd hmid (by simp)

theorem foldlM_tetsToDelete_mem {R : Type} (m : ISMesh R) (tets : List Nat) {look : List Bool}
    {edges init del : List Nat}
    (hlook : ∀ k, k < 4294967296 → ∀ b,
      vecGet look (keyToInt k) = some b → b = decide (k ∈ tets))
    (hmesh : ∀ fk, ∀ k ∈ m.face_tet_keys fk, k < 4294967296)
    (hinit : ∀ x ∈ init, x ∈ tets)
    (h : edges.foldlM
      (fun tetsToDelete ek =>
        match edgeBoundaryTets m look ek with
        | some boundaryTets =>
          some (if boundaryTets.length > 2 then setInsertAll boundaryTets tetsToDelete
                else tetsToDelete)
        | none => none) init = some del) :
    ∀ x ∈ del, x ∈ tets := by
  induction edges generalizing init with
  | nil =>
    simp only [List.foldlM_nil, pure, Option.some.injEq] at h
    subst h
    exact hinit
  | cons ek edges ih =>
    simp only [List.foldlM_cons, bind, Option.bind_eq_some] at h
    obtain ⟨mid, hmid, hrest⟩ := h
    split at hmid
    · rename_i bt hbt
      simp only [Option.some.injEq] at hmid
      have hbt2 : ∀ x ∈ bt, x ∈ tets :=
        foldlM_boundaryTets_mem m tets
          (fun fk _ k hk b hb => hlook k (hmesh fk k hk) b hb) (by simp) hbt
      refine ih ?_ hrest
      intro x hx
      rw [← hmid] at hx
      split_ifs at hx
      · rcases (mem_setInsertAll _ _ _).mp hx with h1 | h1
        · exact hbt2 x h1
        · exact hinit x h1
      · exact hinit x hx
    · exact absurd hmid (by simp)

theorem length_eraseTets_le (d ts : List Nat) : (eraseTets d ts).length ≤ ts.length := by
  unfold eraseTets
  induction d generalizing ts with
  | nil => simp
  | cons k d ih =>
    simp only [List.foldl_cons]
    split_ifs with hk
    · have := ih (ts.erase k)
      rw [List.length_erase_of_mem hk] at this
      omega
    · exact ih ts

theorem length_eraseTets_lt (d ts : List Nat) (hne : d ≠ []) (hsub : ∀ x ∈ d, x ∈ ts) :
    (eraseTets d ts).length < ts.length := by
  obtain ⟨k, d2, rfl⟩ := List.exists_cons_of_ne_nil hne
  have hk : k ∈ ts := hsub k (by simp)
  have h1 : eraseTets (k :: d2) ts = eraseTets d2 (ts.erase k) := by
    unfold eraseTets
    simp [hk]
  rw [h1]
  have h2 := length_eraseTets_le d2 (ts.erase k)
  rw [List.length_erase_of_mem hk] at h2
  have h3 : 0 < ts.length := List.length_pos_of_mem hk
  omega

/-- A pass that schedules a removal erases at least one key of `tets`. -/
theorem removing_pass_shrinks {R : Type} (m : ISMesh R) (tets : List Nat)
    (look : List Bool) (edges del : List Nat)
    (hkeys : ∀ t ∈ tets, t < 4294967296)
    (hmesh : ∀ fk, ∀ k ∈ m.face_tet_keys fk, k < 4294967296)
    (hlook : tetLookupOf tets = some look) (hdel : tetsToDeleteOf m look edges = some del)
    (hne : del ≠ []) : (eraseTets del tets).length < tets.length := by
  apply length_eraseTets_lt del tets hne
  unfold tetsToDeleteOf at hdel
  exact foldlM_tetsToDelete_mem m tets
    (fun k hk b hb => vecGet_tetLookupOf hlook hkeys k hk b hb) hmesh (by simp) hdel

theorem filter_subset_fuel_ne_outOfFuel {R : Type} (m : ISMesh R) (fuel : Nat) (s : Selection)
    (hkeys : ∀ t ∈ s.tets, t < 4294967296)
    (hmesh : ∀ fk, ∀ k ∈ m.face_tet_keys fk, k < 4294967296)
    (hfuel : s.tets.length < fuel) : filter_subset_fuel m fuel s ≠ Run.outOfFuel := by
  induction fuel generalizing s with
  | zero => omega
  | succ fuel ih =>
    simp only [filter_subset_fuel]
    split
    · simp
    · rename_i look hlook
      split
      · simp
      · rename_i del hdel
        split_ifs with hne
        · have hlt := removing_pass_shrinks m s.tets look _ del hkeys hmesh hlook hdel hne
          apply ih
          · intro t ht
            exact hkeys t (mem_of_mem_eraseTets del s.tets t ht)
          · simp only
            omega
        · simp

theorem filter_subset_fuel_unfold {R : Type} (m : ISMesh R) (fuel : Nat) (s : Selection) :
    filter_subset_fuel m (fuel + 1) s =
      match tetLookupOf s.tets with
      | none => Run.undefined
      | some tetLookup =>
        match tetsToDeleteOf m tetLookup (closureEdges m (closureFaces m s.tets)) with
        | none => Run.undefined
        | some tetsToDelete =>
          if tetsToDelete ≠ [] then
            filter_subset_fuel m fuel
              { nodes := closureNodes m (closureEdges m (closureFaces m s.tets)),
                edges := closureEdges m (closureFaces m s.tets),
                faces := closureFaces m s.tets,
                tets := eraseTets tetsToDelete s.tets }
          else
            Run.done
              { nodes := closureNodes m (closureEdges m (closureFaces m s.tets)),
                edges := closureEdges m (closureFaces m s.tets),
                faces := closureFaces m s.tets, tets := s.tets } := by
  rw [filter_subset_fuel]

theorem filter_subset_fuel_succ {R : Type} (m : ISMesh R) (fuel : Nat) (s : Selection)
    (h : filter_subset_fuel m fuel s ≠ Run.outOfFuel) :
    filter_subset_fuel m (fuel + 1) s = filter_subset_fuel m fuel s := by
  induction fuel generalizing s with
  | zero => simp [filter_subset_fuel] at h
  | succ fuel ih =>
    rw [filter_subset_fuel_unfold m fuel] at h
    rw [filter_subset_fuel_unfold m (fuel + 1), filter_subset_fuel_unfold m fuel]
    cases hlook : tetLookupOf s.tets with
    | none => rfl
    | some look =>
      simp only [hlook] at h ⊢
      cases hdel : tetsToDeleteOf m look (closureEdges m (closureFaces m s.tets)) with
      | none => rfl
      | some del =>
        simp only [hdel] at h ⊢
        by_cases hne : del = []
        · simp [hne]
        · simp only [ne_eq, hne, not_false_eq_true, if_true] at h ⊢
          exact ih _ h

theorem filter_subset_fuel_stable {R : Type} (m : ISMesh R) (fuel extra : Nat) (s : Selection)
    (h : filter_subset_fuel m fuel s ≠ Run.outOfFuel) :
    filter_subset_fuel m (fuel + extra) s = filter_subset_fuel m fuel s := by
  induction extra with
  | zero => rfl
  | succ extra ih =>
    rw [← Nat.add_assoc, filter_subset_fuel_succ m (fuel + extra) s (by rw [ih]; exact h), ih]

/-- C17. For 32-bit keys, `filter_subset` never needs more than `|tets| + 1` calls:
every pass that schedules a removal erases at least one key of `tets`, so the run
returns or stops at an undefined vector read, and more calls change nothing. -/
theorem filter_subset_terminates {R : Type} (q : Query R) (s : Selection)
    (hkeys : ∀ t ∈ s.tets, t < 4294967296)
    (hmesh : ∀ fk, ∀ k ∈ q.mesh.face_tet_keys fk, k < 4294967296) :
    q.filter_subset s ≠ Run.outOfFuel ∧
      (∀ extra, filter_subset_fuel q.mesh (s.tets.length + 1 + extra) s = q.filter_subset s) ∧
      (∀ look del, tetLookupOf s.tets = some look →
        tetsToDeleteOf q.mesh look (closureEdges q.mesh (closureFaces q.mesh s.tets)) = some del →
        del ≠ [] → (eraseTets del s.tets).length < s.tets.length) := by
  have h1 : q.filter_subset s ≠ Run.outOfFuel :=
    filter_subset_fuel_ne_outOfFuel q.mesh _ s hkeys hmesh (Nat.lt_succ_self _)
  refine ⟨h1, ?_, ?_⟩
  · intro extra
    exact filter_subset_fuel_stable q.mesh _ extra s h1
  · intro look del hlook hdel hne
    exact removing_pass_shrinks q.mesh s.tets look _ del hkeys hmesh hlook hdel hne

theorem filter_subset_terminates_witness :
    (∀ t ∈ [0, 1, 2], t < 4294967296) ∧
      bowtieQuery.filter_subset ⟨[], [], [], [0, 1, 2]⟩ ≠ Run.outOfFuel :=
  ⟨by decide,
    (filter_subset_terminates bowtieQuery ⟨[], [], [], [0, 1, 2]⟩ (by decide)
      (fun fk => (bowtieMesh_face_tet_keys fk).1)).1⟩

/-! # The membership array read out of bounds -/

/-- C18 (failing input). In `wedgeMesh` with the subset `{0}` the array has one
entry; edge 0 of the closure has the shared face 1 whose tetrahedra are 0 and 1, and
the read at index 1 is outside the array: the run is undefined. -/
theorem tetLookup_read_out_of_bounds :
    tetLookupOf [0] = some [true] ∧
      0 ∈ closureEdges wedgeMesh (closureFaces wedgeMesh [0]) ∧
      1 ∈ wedgeMesh.edge_face_keys 0 ∧ wedgeMesh.face_tet_keys 1 = [0, 1] ∧
      vecGet [true] (keyToInt 1) = none ∧
      wedgeQuery.filter_subset ⟨[], [], [], [0]⟩ = Run.undefined := by
  decide

/-! # A rejected face: when the walk goes on -/

/-- One round of `next()` that finds a face the filter rejects: the walk goes on
into the tetrahedra behind that face when the hit distance differs from the
previous distance, and ends at the sentinel when it is equal. -/
theorem nextLoop_rejected {R : Type} [LinearOrderedField R] (g : Geometry R) (m : ISMesh R)
    (fuel : Nat) (it : QueryResultIterator R) (pre post : List Nat) (fk : Nat) (d : R)
    (htets : it.tetrahedron_key ≠ []) (hscan : it.scanFaces m = pre ++ fk :: post)
    (hpre : ∀ f ∈ pre, hitFace g m it.ray f = none) (hhit : hitFace g m it.ray fk = some d)
    (hreject : passesFilter m it.query_type fk = false) :
    (d ≠ it.dist →
        QueryResultIterator.nextLoop g m (fuel + 1) it =
          QueryResultIterator.nextLoop g m fuel
            { it with
              face_key := fk
              tetrahedron_key := simplexSetDiff (m.face_co_boundary fk) it.tetrahedron_key
              dist := d }) ∧
      (d = it.dist →
        QueryResultIterator.nextLoop g m (fuel + 1) it =
          Run.done
            { it with
              face_key := sentinelKey
              tetrahedron_key := simplexSetDiff (m.face_co_boundary fk) it.tetrahedron_key
              dist := d }) := by
  have hw : QueryResultIterator.tetWalking g m it (it.scanFaces m) =
      (false,
        { it with
          face_key := fk
          tetrahedron_key := simplexSetDiff (m.face_co_boundary fk) it.tetrahedron_key
          dist := d }) := by
    rw [hscan]
    clear hscan
    induction pre with
    | nil => simp [QueryResultIterator.tetWalking, hhit, hreject]
    | cons a pre ih =>
      have ha := hpre a (by simp)
      simp only [List.cons_append, QueryResultIterator.tetWalking, ha]
      exact ih (fun f hf => hpre f (List.mem_cons_of_mem _ hf))
  constructor
  · intro hd
    exact nextLoop_continue g m fuel it _ htets hw (fun e => hd e.symm)
  · intro hd
    exact nextLoop_break g m fuel it _ htets hw hd.symm

theorem edgeRay_hits :
    hitFace testGeometry wedgeMesh (offsetRay edgeRay) 0 = some 1 ∧
      hitFace testGeometry wedgeMesh (offsetRay edgeRay) 1 = some 1 ∧
      hitFace testGeometry wedgeMesh (offsetRay edgeRay) 2 = none ∧
      hitFace testGeometry wedgeMesh (offsetRay edgeRay) 3 = some (5 / 4) ∧
      hitFace testGeometry wedgeMesh (offsetRay edgeRay) 4 = some 1 ∧
      hitFace testGeometry wedgeMesh (offsetRay edgeRay) 5 = none ∧
      hitFace testGeometry wedgeMesh (offsetRay edgeRay) 6 = none := by
  refine ⟨?_, ?_, ?_, ?_, ?_, ?_, ?_⟩ <;>
    norm_num [hitFace, get_pos, wedgeMesh, testGeometry, rayTriangle,
      Vec3.sub, Vec3.cross, Vec3.dot, offsetRay, addEpsilonOffset, Vec3.add, edgeRay]

theorem wedge_raycast_boundary :
    (wedgeQuery.raycast_faces testGeometry edgeRay QueryType.Boundary).1 =
      { first_intersection := 0, dist := 1, ray := offsetRay edgeRay,
        query_type := QueryType.Boundary, mesh := some wedgeMesh } := by
  have hc : wedgeQuery.cachedFaces = [0, 2, 3, 4, 5, 6] := by decide
  have hm : wedgeQuery.mesh = wedgeMesh := rfl
  obtain ⟨h0, _, h2, h3, h4, h5, h6⟩ := edgeRay_hits
  have hmax : ¬ (1 : ℚ) = testGeometry.dblMax := by norm_num [testGeometry]
  unfold Query.raycast_faces
  rw [hc, hm]
  simp only [List.foldl, raycastStep, h0, h2, h3, h4, h5, h6, if_true, hmax, if_false]
  norm_num [sentinelKey, hmax]

theorem wedge_begin_boundary (fuel : Nat) :
    (wedgeQuery.raycast_faces testGeometry edgeRay QueryType.Boundary).1.begin testGeometry fuel =
      Run.done edgeRayStart := by
  rw [wedge_raycast_boundary]
  have h : wedgeMesh.face_tet_keys 0 = [0] := by decide
  simp [QueryResult.begin, QueryResultIterator.create, edgeRayStart, h, offsetRay]

/-- C19 (failing input). `Boundary` query in `wedgeMesh` along `edgeRay`: the
raycast is anchored at boundary face 0 at distance 1 and `begin()` is there; the
walking step of `next()` finds the interior face 1 at the same distance 1, which
the filter rejects, with tetrahedron 1 behind it; `next()` ends the sequence
there, although the boundary face 3 is intersected at distance 5/4. -/
theorem next_stops_at_equal_distance :
    (wedgeQuery.raycast_faces testGeometry edgeRay QueryType.Boundary).1.begin testGeometry 0 =
        Run.done edgeRayStart ∧
      edgeRayStart.face_key = 0 ∧ edgeRayStart.dist = 1 ∧
      edgeRayStart.scanFaces wedgeMesh = [1, 2, 3] ∧
      hitFace testGeometry wedgeMesh edgeRayStart.ray 1 = some edgeRayStart.dist ∧
      passesFilter wedgeMesh edgeRayStart.query_type 1 = false ∧
      simplexSetDiff (wedgeMesh.face_co_boundary 1) edgeRayStart.tetrahedron_key = [1] ∧
      hitFace testGeometry wedgeMesh edgeRayStart.ray 3 = some (5 / 4) ∧
      passesFilter wedgeMesh edgeRayStart.query_type 3 = true ∧
      ∃ res, edgeRayStart.next testGeometry 7 = Run.done res ∧ res.face_key = sentinelKey ∧
        res.tetrahedron_key = [1] := by
  have hscan : edgeRayStart.scanFaces wedgeMesh = [] ++ 1 :: [2, 3] := by decide
  have hstop := (nextLoop_rejected testGeometry wedgeMesh 6 edgeRayStart [] [2, 3] 1 1
    (by decide) hscan (by simp) edgeRay_hits.2.1 (by decide)).2 rfl
  have hnext : edgeRayStart.next testGeometry 7 = Run.done _ := hstop
  exact ⟨wedge_begin_boundary 0, rfl, rfl, by decide, edgeRay_hits.2.1,
    by decide, by decide, edgeRay_hits.2.2.2.1, by decide, _, hnext, rfl, by decide⟩

/-! # Termination of `next()` -/

theorem nextLoop_accepted {R : Type} [LinearOrderedField R] (g : Geometry R) (m : ISMesh R)
    (fuel : Nat) (it : QueryResultIterator R) (pre post : List Nat) (fk : Nat) (d : R)
    (htets : it.tetrahedron_key ≠ []) (hscan : it.scanFaces m = pre ++ fk :: post)
    (hpre : ∀ f ∈ pre, hitFace g m it.ray f = none) (hhit : hitFace g m it.ray fk = some d)
    (haccept : passesFilter m it.query_type fk = true) :
    QueryResultIterator.nextLoop g m (fuel + 1) it =
      Run.done
        { it with
          face_key := fk
          tetrahedron_key := simplexSetDiff (m.face_co_boundary fk) it.tetrahedron_key
          dist := d } := by
  have hw : QueryResultIterator.tetWalking g m it (it.scanFaces m) =
      (true,
        { it with
          face_key := fk
          tetrahedron_key := simplexSetDiff (m.face_co_boundary fk) it.tetrahedron_key
          dist := d }) := by
    rw [hscan]
    clear hscan
    induction pre with
    | nil => simp [QueryResultIterator.tetWalking, hhit, haccept]
    | cons a pre ih =>
      have ha := hpre a (by simp)
      simp only [List.cons_append, QueryResultIterator.tetWalking, ha]
      exact ih (fun f hf => hpre f (List.mem_cons_of_mem _ hf))
  exact nextLoop_found g m fuel it _ htets hw

/-- With the exact test primitive, the `All` walk in the convex `wedgeMesh` along
`edgeRay` (through a point of edge 0) visits faces 0, 1 and 4, all at distance 1,
and then ends; face 3, intersected at distance 5/4, is not visited. -/
theorem wedge_all_query_walk :
    ∃ s1 s2 s3 : QueryResultIterator ℚ,
      edgeRayAllStart.next testGeometry 1 = Run.done s1 ∧ s1.face_key = 1 ∧ s1.dist = 1 ∧
        s1.next testGeometry 1 = Run.done s2 ∧ s2.face_key = 4 ∧ s2.dist = 1 ∧
        s2.tetrahedron_key = [] ∧
        s2.next testGeometry 1 = Run.done s3 ∧ s3.face_key = sentinelKey := by
  obtain ⟨_, h1, _, _, h4, _, _⟩ := edgeRay_hits
  have hscan0 : edgeRayAllStart.scanFaces wedgeMesh = [] ++ 1 :: [2, 3] := by decide
  have step0 := nextLoop_accepted testGeometry wedgeMesh 0 edgeRayAllStart [] [2, 3] 1 1
    (by decide) hscan0 (by simp) h1 (by decide)
  have n0 : edgeRayAllStart.next testGeometry 1 = Run.done _ := step0
  have hscan1 : QueryResultIterator.scanFaces wedgeMesh
      { edgeRayAllStart with
        face_key := 1
        tetrahedron_key :=
          simplexSetDiff (wedgeMesh.face_co_boundary 1) edgeRayAllStart.tetrahedron_key
        dist := 1 } = [] ++ 4 :: [5, 6] := by decide
  have step1 := nextLoop_accepted testGeometry wedgeMesh 0 _ [] [5, 6] 4 1
    (by decide) hscan1 (by simp) h4 (by decide)
  exact ⟨_, _, _, n0, rfl, rfl, step1, rfl, rfl, by decide,
    next_of_no_tets testGeometry 1 _ (by decide), rfl⟩

/-! # The `All` walk of a ray that crosses the mesh cleanly -/

theorem Pierces.leave_ne_entry {R : Type} [LinearOrderedField R] {g : Geometry R}
    {m : ISMesh R} {ray : Ray R} {t fentry fleave : Nat} {dentry dleave : R}
    (h : Pierces g m ray t fentry fleave dentry dleave) : fleave ≠ fentry := by
  intro heq
  have h1 := h.hit_leave
  rw [heq, h.hit_entry] at h1
  simp only [Option.some.injEq] at h1
  exact absurd h1 (ne_of_lt h.lt)

/-- One `next()` of an `All` query at the face by which the ray enters its
candidate tetrahedron: the iterator moves to the face by which the ray leaves. -/
theorem next_of_pierces {R : Type} [LinearOrderedField R] (g : Geometry R) (m : ISMesh R)
    (it : QueryResultIterator R) (t fleave : Nat) (dleave : R) (fuel : Nat)
    (hmesh : it.mesh = some m) (hq : it.query_type = QueryType.All)
    (htets : it.tetrahedron_key = [t])
    (hp : Pierces g m it.ray t it.face_key fleave it.dist dleave) :
    it.next g (fuel + 1) =
      Run.done { it with
        face_key := fleave
        tetrahedron_key := simplexSetDiff (m.face_co_boundary fleave) [t]
        dist := dleave } := by
  have h := next_of_single_hit g m it fuel fleave dleave hmesh (by rw [htets]; simp)
    (by
      rw [htets]
      simp only [simplexSetRemove, List.mem_filter, decide_eq_true_eq]
      exact ⟨hp.mem_leave, hp.leave_ne_entry⟩)
    hp.hit_leave
    (by
      intro f hf hne
      rw [htets] at hf
      simp only [simplexSetRemove, List.mem_filter, decide_eq_true_eq] at hf
      exact hp.miss f hf.1 hf.2 hne)
    (by simp [passesFilter, hq])
  rw [h, htets]

theorem walkInvariant_next {R : Type} [LinearOrderedField R] (g : Geometry R) (q : Query R)
    (ray : Ray R) (hclean : CrossesCleanly g q ray) (it : QueryResultIterator R)
    (hinv : walkInvariant g q.mesh (offsetRay ray) it) (fuel : Nat) :
    ∃ it1, it.next g (fuel + 1) = Run.done it1 ∧
      walkInvariant g q.mesh (offsetRay ray) it1 ∧
      (it.tetrahedron_key = [] → it1.face_key = sentinelKey) ∧
      (it.tetrahedron_key ≠ [] → it1.face_key ≠ sentinelKey ∧ it.dist < it1.dist ∧
        hitFace g q.mesh (offsetRay ray) it1.face_key = some it1.dist) := by
  obtain ⟨hmesh, hray, hq, hcase⟩ := hinv
  rcases hcase with hnil | ⟨t, fleave, dleave, htets, hp⟩
  · refine ⟨_, next_of_no_tets g (fuel + 1) it hnil, ⟨hmesh, hray, hq, Or.inl hnil⟩,
      fun _ => rfl, fun h => absurd hnil h⟩
  · have hp' : Pierces g q.mesh it.ray t it.face_key fleave it.dist dleave := by
      rw [hray]
      exact hp
    refine ⟨_, next_of_pierces g q.mesh it t fleave dleave fuel hmesh hq htets hp',
      ⟨hmesh, hray, hq, ?_⟩, ?_, ?_⟩
    · rcases hclean.onward t it.face_key fleave it.dist dleave hp with h | ⟨t1, f1, d1, h, hp1⟩
      · exact Or.inl h
      · exact Or.inr ⟨t1, f1, d1, h, hp1⟩
    · intro h
      rw [htets] at h
      simp at h
    · intro _
      refine ⟨?_, hp.lt, hp.hit_leave⟩
      intro heq
      have hv := hclean.valid
      simp only at heq
      rw [← heq, hp.hit_leave] at hv
      simp at hv

theorem walkInvariant_of_next {R : Type} [LinearOrderedField R] (g : Geometry R) (q : Query R)
    (ray : Ray R) (hclean : CrossesCleanly g q ray) (it it1 : QueryResultIterator R)
    (hinv : walkInvariant g q.mesh (offsetRay ray) it) (fuel : Nat)
    (hnext : it.next g fuel = Run.done it1) :
    walkInvariant g q.mesh (offsetRay ray) it1 := by
  cases fuel with
  | zero =>
    obtain ⟨hmesh, hray, hq, hcase⟩ := hinv
    rcases hcase with hnil | ⟨t, fleave, dleave, htets, _⟩
    · rw [next_of_no_tets g 0 it hnil] at hnext
      simp only [Run.done.injEq] at hnext
      rw [← hnext]
      exact ⟨hmesh, hray, hq, Or.inl hnil⟩
    · exfalso
      unfold QueryResultIterator.next at hnext
      simp [htets, hmesh, QueryResultIterator.nextLoop] at hnext
  | succ fuel =>
    obtain ⟨it2, h2, hinv2, _⟩ := walkInvariant_next g q ray hclean it hinv fuel
    rw [h2] at hnext
    simp only [Run.done.injEq] at hnext
    rw [← hnext]
    exact hinv2

/-- The iterator that the constructor builds at the anchor of the raycast, before
its guarded call of `next()`. -/
theorem walkInvariant_anchor {R : Type} [LinearOrderedField R] (g : Geometry R) (q : Query R)
    (ray : Ray R) (hclean : CrossesCleanly g q ray) (f : Nat) (d : R)
    (hfirst : IsFirstMinHit (hitFace g q.mesh (offsetRay ray)) q.cachedFaces f d) :
    walkInvariant g q.mesh (offsetRay ray)
      { face_key := f, dist := d, ray := Ray.mk (offsetRay ray).origin (offsetRay ray).direction,
        query_type := QueryType.All, mesh := some q.mesh,
        tetrahedron_key := q.mesh.face_tet_keys f } := by
  obtain ⟨t, fleave, dleave, htets, hp⟩ := hclean.enters f d hfirst
  exact ⟨rfl, rfl, rfl, Or.inr ⟨t, fleave, dleave, htets, hp⟩⟩

theorem begin_anchor {R : Type} [LinearOrderedField R] (g : Geometry R) (m : ISMesh R)
    (f : Nat) (d : R) (ray : Ray R) (queryType : QueryType) (fuel : Nat) (r : QueryResult R)
    (hr : r =
      { first_intersection := f, dist := d, ray := ray, query_type := queryType,
        mesh := some m }) :
    r.begin g fuel =
      if d < 0 ∨ queryType = QueryType.Interface then
        QueryResultIterator.next g fuel
          { face_key := f, dist := d, ray := Ray.mk ray.origin ray.direction,
            query_type := queryType, mesh := some m, tetrahedron_key := m.face_tet_keys f }
      else
        Run.done
          { face_key := f, dist := d, ray := Ray.mk ray.origin ray.direction,
            query_type := queryType, mesh := some m, tetrahedron_key := m.face_tet_keys f } := by
  rw [hr]
  rfl

theorem walkInvariant_visits {R : Type} [LinearOrderedField R] (g : Geometry R) (q : Query R)
    (ray : Ray R) (hclean : CrossesCleanly g q ray)
    (hkey : ∀ f ∈ q.cachedFaces, f ≠ sentinelKey)
    (hhit : ∃ f ∈ q.cachedFaces, ∃ d, hitFace g q.mesh (offsetRay ray) f = some d ∧
      d < g.dblMax)
    (it : QueryResultIterator R)
    (hv : Visits g (q.raycast_faces g ray QueryType.All).1 it) :
    walkInvariant g q.mesh (offsetRay ray) it := by
  obtain ⟨f, d, hfirst, _, hres⟩ := raycast_faces_anchor_below g q ray QueryType.All hkey hhit
  induction hv with
  | first fuel it hb =>
    rw [begin_anchor g q.mesh f d (offsetRay ray) QueryType.All fuel _ hres] at hb
    have h0 := walkInvariant_anchor g q ray hclean f d hfirst
    by_cases hneg : d < 0 ∨ QueryType.All = QueryType.Interface
    · rw [if_pos hneg] at hb
      exact walkInvariant_of_next g q ray hclean _ it h0 fuel hb
    · rw [if_neg hneg] at hb
      simp only [Run.done.injEq] at hb
      rw [← hb]
      exact h0
  | step fuel it it1 _ _ hnext ih => exact walkInvariant_of_next g q ray hclean it it1 ih fuel hnext

/-- C16 (amended). For a ray that crosses the mesh cleanly (it enters by the
closest intersected boundary face, below `DBL_MAX`, and passes every tetrahedron
on its way through two faces, at two different distances), iterating the `All`
raycast result visits faces at strictly increasing hit distances: `begin()` is at
a face, every `operator++` from a visited iterator with candidate tetrahedra moves
to a face at a strictly larger distance, and the iteration ends exactly at the
`operator++` from an iterator whose candidate tetrahedron set is empty. The
distance of an iterator is the hit distance of its face. -/
theorem all_walk_increasing {R : Type} [LinearOrderedField R] (g : Geometry R) (q : Query R)
    (ray : Ray R) (hclean : CrossesCleanly g q ray)
    (hkey : ∀ f ∈ q.cachedFaces, f ≠ sentinelKey)
    (hhit : ∃ f ∈ q.cachedFaces, ∃ d, hitFace g q.mesh (offsetRay ray) f = some d ∧
      d < g.dblMax) :
    (∀ fuel, ∃ it, (q.raycast_faces g ray QueryType.All).1.begin g (fuel + 1) = Run.done it ∧
        it.face_key ≠ sentinelKey ∧
        hitFace g q.mesh (offsetRay ray) it.face_key = some it.dist) ∧
      ∀ it, Visits g (q.raycast_faces g ray QueryType.All).1 it → it.face_key ≠ sentinelKey →
        ∀ fuel, ∃ it1, it.next g (fuel + 1) = Run.done it1 ∧
          (it.tetrahedron_key = [] → it1.face_key = sentinelKey) ∧
          (it.tetrahedron_key ≠ [] → it1.face_key ≠ sentinelKey ∧ it.dist < it1.dist ∧
            hitFace g q.mesh (offsetRay ray) it1.face_key = some it1.dist) := by
  constructor
  · intro fuel
    obtain ⟨f, d, hfirst, _, hres⟩ := raycast_faces_anchor_below g q ray QueryType.All hkey hhit
    have h0 := walkInvariant_anchor g q ray hclean f d hfirst
    obtain ⟨t, fleave, dleave, htets, hp⟩ := hclean.enters f d hfirst
    rw [begin_anchor g q.mesh f d (offsetRay ray) QueryType.All (fuel + 1) _ hres]
    by_cases hneg : d < 0 ∨ QueryType.All = QueryType.Interface
    · rw [if_pos hneg]
      obtain ⟨it1, h1, _, _, h3⟩ := walkInvariant_next g q ray hclean _ h0 fuel
      exact ⟨it1, h1, (h3 (by simp [htets])).1, (h3 (by simp [htets])).2.2⟩
    · rw [if_neg hneg]
      refine ⟨_, rfl, ?_, hp.hit_entry⟩
      intro heq
      have hv := hclean.valid
      simp only at heq
      rw [← heq, hp.hit_entry] at hv
      simp at hv
  · intro it hv _ fuel
    have hinv := walkInvariant_visits g q ray hclean hkey hhit it hv
    obtain ⟨it1, h1, _, h2, h3⟩ := walkInvariant_next g q ray hclean it hinv fuel
    exact ⟨it1, h1, h2, h3⟩

/-! ## A clean crossing of `wedgeMesh` -/

theorem crossRay_hits :
    hitFace testGeometry wedgeMesh (offsetRay crossRay) 0 = none ∧
      hitFace testGeometry wedgeMesh (offsetRay crossRay) 1 = some (1 / 2) ∧
      hitFace testGeometry wedgeMesh (offsetRay crossRay) 2 = none ∧
      hitFace testGeometry wedgeMesh (offsetRay crossRay) 3 = some (3 / 4) ∧
      hitFace testGeometry wedgeMesh (offsetRay crossRay) 4 = some (1 / 4) ∧
      hitFace testGeometry wedgeMesh (offsetRay crossRay) 5 = none ∧
      hitFace testGeometry wedgeMesh (offsetRay crossRay) 6 = none := by
  refine ⟨?_, ?_, ?_, ?_, ?_, ?_, ?_⟩ <;>
    norm_num [hitFace, get_pos, wedgeMesh, testGeometry, rayTriangle,
      Vec3.sub, Vec3.cross, Vec3.dot, offsetRay, addEpsilonOffset, Vec3.add, crossRay]

theorem crossRay_hit_cases (f : Nat) (d : ℚ)
    (h : hitFace testGeometry wedgeMesh (offsetRay crossRay) f = some d) :
    (f = 1 ∧ d = 1 / 2) ∨ (f = 3 ∧ d = 3 / 4) ∨ (f = 4 ∧ d = 1 / 4) := by
  obtain ⟨h0, h1, h2, h3, h4, h5, h6⟩ := crossRay_hits
  rcases f with _ | _ | _ | _ | _ | _ | _ | f
  · rw [h0] at h
    simp at h
  · rw [h1] at h
    simp only [Option.some.injEq] at h
    exact Or.inl ⟨rfl, h.symm⟩
  · rw [h2] at h
    simp at h
  · rw [h3] at h
    simp only [Option.some.injEq] at h
    exact Or.inr (Or.inl ⟨rfl, h.symm⟩)
  · rw [h4] at h
    simp only [Option.some.injEq] at h
    exact Or.inr (Or.inr ⟨rfl, h.symm⟩)
  · rw [h5] at h
    simp at h
  · rw [h6] at h
    simp at h
  · exfalso
    have hk : wedgeMesh.face_node_keys (f + 1 + 1 + 1 + 1 + 1 + 1 + 1) = (0, 0, 0) := by
      unfold wedgeMesh
      simp only
      exact List.getD_eq_default _ _ (by simp)
    revert h
    norm_num [hitFace, get_pos, hk, testGeometry, rayTriangle, Vec3.sub, Vec3.cross, Vec3.dot]
    simp

theorem wedge_get_faces (t : Nat) :
    wedgeMesh.get_faces [t] =
      if t = 0 then [0, 1, 2, 3] else if t = 1 then [1, 4, 5, 6] else [0, 0, 0, 0] := by
  rcases t with _ | _ | t
  · rfl
  · rfl
  · have hk : [((0 : Nat), (1 : Nat), (2 : Nat), (3 : Nat)), (1, 4, 5, 6)].getD (t + 1 + 1)
        (0, 0, 0, 0) = (0, 0, 0, 0) := List.getD_eq_default _ _ (by simp)
    simp [wedgeMesh, facesOfTets, hk, keys4]

theorem crossRay_pierces_one :
    Pierces testGeometry wedgeMesh (offsetRay crossRay) 1 4 1 (1 / 4) (1 / 2) where
  mem_entry := by decide
  mem_leave := by decide
  hit_entry := crossRay_hits.2.2.2.2.1
  hit_leave := crossRay_hits.2.1
  miss := by
    intro f hf h1 h2
    have hf4 : f = 1 ∨ f = 4 ∨ f = 5 ∨ f = 6 := by
      rw [wedge_get_faces] at hf
      simpa using hf
    rcases hf4 with h | h | h | h
    · exact absurd h h2
    · exact absurd h h1
    · rw [h]
      exact crossRay_hits.2.2.2.2.2.1
    · rw [h]
      exact crossRay_hits.2.2.2.2.2.2
  lt := by norm_num

theorem crossRay_pierces_zero :
    Pierces testGeometry wedgeMesh (offsetRay crossRay) 0 1 3 (1 / 2) (3 / 4) where
  mem_entry := by decide
  mem_leave := by decide
  hit_entry := crossRay_hits.2.1
  hit_leave := crossRay_hits.2.2.2.1
  miss := by
    intro f hf h1 h2
    have hf4 : f = 0 ∨ f = 1 ∨ f = 2 ∨ f = 3 := by
      rw [wedge_get_faces] at hf
      simpa using hf
    rcases hf4 with h | h | h | h
    · rw [h]
      exact crossRay_hits.1
    · exact absurd h h1
    · rw [h]
      exact crossRay_hits.2.2.1
    · exact absurd h h2
  lt := by norm_num

theorem crossRay_crosses_cleanly : CrossesCleanly testGeometry wedgeQuery crossRay where
  valid := by
    have hm : wedgeQuery.mesh = wedgeMesh := rfl
    rw [hm]
    cases h : hitFace testGeometry wedgeMesh (offsetRay crossRay) sentinelKey with
    | none => rfl
    | some d =>
      exfalso
      rcases crossRay_hit_cases _ _ h with ⟨h1, _⟩ | ⟨h1, _⟩ | ⟨h1, _⟩ <;>
        exact absurd h1 (by decide)
  enters := by
    have hm : wedgeQuery.mesh = wedgeMesh := rfl
    have hc : wedgeQuery.cachedFaces = [0, 2, 3, 4, 5, 6] := by decide
    rw [hm, hc]
    intro f d hfirst
    have hmem := hfirst.mem
    obtain ⟨pre, post, hcache, hf, hlt, hle⟩ := hfirst
    rcases crossRay_hit_cases f d hf with ⟨h1, h2⟩ | ⟨h1, h2⟩ | ⟨h1, h2⟩
    · subst h1
      simp at hmem
    · exfalso
      subst h1
      subst h2
      have h4 : 4 ∈ pre ++ 3 :: post := by
        rw [← hcache]
        simp
      rcases List.mem_append.mp h4 with h | h
      · have := hlt 4 h (1 / 4) crossRay_hits.2.2.2.2.1
        norm_num at this
      · rcases List.mem_cons.mp h with h | h
        · simp at h
        · have := hle 4 h (1 / 4) crossRay_hits.2.2.2.2.1
          norm_num at this
    · subst h1
      subst h2
      exact ⟨1, 1, 1 / 2, by decide, crossRay_pierces_one⟩
  onward := by
    have hm : wedgeQuery.mesh = wedgeMesh := rfl
    rw [hm]
    intro t fentry fleave dentry dleave hp
    have he := hp.mem_entry
    have hl := hp.mem_leave
    have hlt := hp.lt
    rw [wedge_get_faces] at he hl
    rcases crossRay_hit_cases _ _ hp.hit_entry with ⟨e1, e2⟩ | ⟨e1, e2⟩ | ⟨e1, e2⟩ <;>
    rcases crossRay_hit_cases _ _ hp.hit_leave with ⟨l1, l2⟩ | ⟨l1, l2⟩ | ⟨l1, l2⟩ <;>
    subst e1 e2 l1 l2 <;>
    (try (norm_num at hlt; done))
    · -- entry 1, leave 3: tetrahedron 0
      have ht : t = 0 := by
        split_ifs at hl with h0 h1
        · exact h0
        · simp at hl
        · simp at hl
      subst ht
      left
      decide
    · -- entry 4, leave 1: tetrahedron 1
      have ht : t = 1 := by
        split_ifs at he with h0 h1
        · simp at he
        · exact h1
        · simp at he
      subst ht
      right
      exact ⟨0, 3, 3 / 4, by decide, crossRay_pierces_zero⟩
    · -- entry 4, leave 3: no tetrahedron has both
      exfalso
      split_ifs at he hl with h0 h1
      · simp at he
      · simp at hl
      · simp at he

theorem wedge_raycast_cross :
    (wedgeQuery.raycast_faces testGeometry crossRay QueryType.All).1 =
      { first_intersection := 4, dist := 1 / 4, ray := offsetRay crossRay,
        query_type := QueryType.All, mesh := some wedgeMesh } := by
  have hc : wedgeQuery.cachedFaces = [0, 2, 3, 4, 5, 6] := by decide
  have hm : wedgeQuery.mesh = wedgeMesh := rfl
  obtain ⟨h0, _, h2, h3, h4, h5, h6⟩ := crossRay_hits
  have hmax : ¬ (3 / 4 : ℚ) = testGeometry.dblMax := by norm_num [testGeometry]
  unfold Query.raycast_faces
  rw [hc, hm]
  simp only [List.foldl, raycastStep, h0, h2, h3, h4, h5, h6, if_true, hmax, if_false]
  norm_num [sentinelKey, hmax]

/-- The `All` iteration in `wedgeMesh` along `crossRay`: faces 4, 1 and 3 at the
distances 1/4, 1/2 and 3/4, then the end. -/
theorem crossRay_walk :
    (wedgeQuery.raycast_faces testGeometry crossRay QueryType.All).1.begin testGeometry 1 =
        Run.done crossRayStart ∧
      ∃ s1 s2 s3 : QueryResultIterator ℚ,
        crossRayStart.next testGeometry 1 = Run.done s1 ∧ s1.face_key = 1 ∧ s1.dist = 1 / 2 ∧
          s1.next testGeometry 1 = Run.done s2 ∧ s2.face_key = 3 ∧ s2.dist = 3 / 4 ∧
          s2.tetrahedron_key = [] ∧
          s2.next testGeometry 1 = Run.done s3 ∧ s3.face_key = sentinelKey := by
  obtain ⟨h0, h1, h2, h3, _⟩ := crossRay_hits
  have hb : (wedgeQuery.raycast_faces testGeometry crossRay QueryType.All).1.begin
      testGeometry 1 = Run.done crossRayStart := by
    rw [wedge_raycast_cross]
    have h : wedgeMesh.face_tet_keys 4 = [1] := by decide
    simp [QueryResult.begin, QueryResultIterator.create, crossRayStart, h, offsetRay]
  have hscan0 : crossRayStart.scanFaces wedgeMesh = [] ++ 1 :: [5, 6] := by decide
  have step0 := nextLoop_accepted testGeometry wedgeMesh 0 crossRayStart [] [5, 6] 1 (1 / 2)
    (by decide) hscan0 (by simp) h1 (by decide)
  have n0 : crossRayStart.next testGeometry 1 = Run.done _ := step0
  have hscan1 : QueryResultIterator.scanFaces wedgeMesh
      { crossRayStart with
        face_key := 1
        tetrahedron_key :=
          simplexSetDiff (wedgeMesh.face_co_boundary 1) crossRayStart.tetrahedron_key
        dist := 1 / 2 } = [0, 2] ++ 3 :: [] := by decide
  have step1 := nextLoop_accepted testGeometry wedgeMesh 0 _ [0, 2] [] 3 (3 / 4)
    (by decide) hscan1
    (by
      intro f hf
      simp only [List.mem_cons, List.mem_singleton, List.not_mem_nil, or_false] at hf
      rcases hf with rfl | rfl
      · exact h0
      · exact h2)
    h3 (by decide)
  exact ⟨hb, _, _, _, n0, rfl, rfl, step1, rfl, rfl, by decide,
    next_of_no_tets testGeometry 1 _ (by decide), rfl⟩

theorem all_walk_increasing_witness :
    CrossesCleanly testGeometry wedgeQuery crossRay ∧
      (∀ f ∈ wedgeQuery.cachedFaces, f ≠ sentinelKey) ∧
      (∃ f ∈ wedgeQuery.cachedFaces, ∃ d,
        hitFace testGeometry wedgeQuery.mesh (offsetRay crossRay) f = some d ∧
          d < testGeometry.dblMax) ∧
      (∀ fuel, ∃ it,
        (wedgeQuery.raycast_faces testGeometry crossRay QueryType.All).1.begin testGeometry
            (fuel + 1) = Run.done it ∧
          it.face_key ≠ sentinelKey ∧
          hitFace testGeometry wedgeQuery.mesh (offsetRay crossRay) it.face_key = some it.dist) ∧
      ∀ it, Visits testGeometry (wedgeQuery.raycast_faces testGeometry crossRay QueryType.All).1
          it →
        it.face_key ≠ sentinelKey →
        ∀ fuel, ∃ it1, it.next testGeometry (fuel + 1) = Run.done it1 ∧
          (it.tetrahedron_key = [] → it1.face_key = sentinelKey) ∧
          (it.tetrahedron_key ≠ [] → it1.face_key ≠ sentinelKey ∧ it.dist < it1.dist ∧
            hitFace testGeometry wedgeQuery.mesh (offsetRay crossRay) it1.face_key =
              some it1.dist) :=
  ⟨crossRay_crosses_cleanly, by decide,
    ⟨4, by decide, 1 / 4, crossRay_hits.2.2.2.2.1, by norm_num [testGeometry]⟩,
    all_walk_increasing testGeometry wedgeQuery crossRay crossRay_crosses_cleanly (by decide)
      ⟨4, by decide, 1 / 4, crossRay_hits.2.2.2.2.1, by norm_num [testGeometry]⟩⟩

/-! ## Equal distances on a convex mesh -/

theorem wedgeMesh_convex : convexBoundary wedgeMesh := by
  intro f hf hb
  have hf7 : f = 0 ∨ f = 1 ∨ f = 2 ∨ f = 3 ∨ f = 4 ∨ f = 5 ∨ f = 6 := by
    simpa [wedgeMesh] using hf
  have hn5 : ∀ n ∈ wedgeMesh.nodes, n = 0 ∨ n = 1 ∨ n = 2 ∨ n = 3 ∨ n = 4 := by
    intro n hn
    simpa [wedgeMesh] using hn
  rcases hf7 with rfl | rfl | rfl | rfl | rfl | rfl | rfl
  · left
    intro n hn
    rcases hn5 n hn with rfl | rfl | rfl | rfl | rfl <;>
      norm_num [orient3, wedgeMesh, Vec3.sub, Vec3.cross, Vec3.dot]
  · exact absurd hb (by decide)
  · left
    intro n hn
    rcases hn5 n hn with rfl | rfl | rfl | rfl | rfl <;>
      norm_num [orient3, wedgeMesh, Vec3.sub, Vec3.cross, Vec3.dot]
  · right
    intro n hn
    rcases hn5 n hn with rfl | rfl | rfl | rfl | rfl <;>
      norm_num [orient3, wedgeMesh, Vec3.sub, Vec3.cross, Vec3.dot]
  · right
    intro n hn
    rcases hn5 n hn with rfl | rfl | rfl | rfl | rfl <;>
      norm_num [orient3, wedgeMesh, Vec3.sub, Vec3.cross, Vec3.dot]
  · left
    intro n hn
    rcases hn5 n hn with rfl | rfl | rfl | rfl | rfl <;>
      norm_num [orient3, wedgeMesh, Vec3.sub, Vec3.cross, Vec3.dot]
  · right
    intro n hn
    rcases hn5 n hn with rfl | rfl | rfl | rfl | rfl <;>
      norm_num [orient3, wedgeMesh, Vec3.sub, Vec3.cross, Vec3.dot]

theorem wedge_raycast_all :
    (wedgeQuery.raycast_faces testGeometry edgeRay QueryType.All).1 =
      { first_intersection := 0, dist := 1, ray := offsetRay edgeRay,
        query_type := QueryType.All, mesh := some wedgeMesh } := by
  have hc : wedgeQuery.cachedFaces = [0, 2, 3, 4, 5, 6] := by decide
  have hm : wedgeQuery.mesh = wedgeMesh := rfl
  obtain ⟨h0, _, h2, h3, h4, h5, h6⟩ := edgeRay_hits
  have hmax : ¬ (1 : ℚ) = testGeometry.dblMax := by norm_num [testGeometry]
  unfold Query.raycast_faces
  rw [hc, hm]
  simp only [List.foldl, raycastStep, h0, h2, h3, h4, h5, h6, if_true, hmax, if_false]
  norm_num [sentinelKey, hmax]

theorem wedge_begin_all (fuel : Nat) :
    (wedgeQuery.raycast_faces testGeometry edgeRay QueryType.All).1.begin testGeometry fuel =
      Run.done edgeRayAllStart := by
  rw [wedge_raycast_all]
  have h : wedgeMesh.face_tet_keys 0 = [0] := by decide
  simp [QueryResult.begin, QueryResultIterator.create, edgeRayAllStart, h, offsetRay]

/-- C16 (as stated) fails: `wedgeMesh` has a convex boundary, and the ray `edgeRay`
hits it at a point of the edge common to the faces 0, 1 and 4. Iterating the `All`
raycast result visits face 0, face 1 and face 4, all three at distance 1, so the
distances do not increase; the iteration then ends with an empty candidate set,
and face 3, by which the ray leaves the mesh at distance 5/4, is not visited. -/
theorem convex_walk_equal_distances_counterexample :
    convexBoundary wedgeMesh ∧
      (wedgeQuery.raycast_faces testGeometry edgeRay QueryType.All).1.begin testGeometry 1 =
        Run.done edgeRayAllStart ∧
      edgeRayAllStart.face_key = 0 ∧ edgeRayAllStart.dist = 1 ∧
      hitFace testGeometry wedgeMesh (offsetRay edgeRay) 3 = some (5 / 4) ∧
      ∃ s1 s2 s3 : QueryResultIterator ℚ,
        edgeRayAllStart.next testGeometry 1 = Run.done s1 ∧ s1.face_key = 1 ∧ s1.dist = 1 ∧
          ¬ edgeRayAllStart.dist < s1.dist ∧
          s1.next testGeometry 1 = Run.done s2 ∧ s2.face_key = 4 ∧ s2.dist = 1 ∧
          ¬ s1.dist < s2.dist ∧ s2.tetrahedron_key = [] ∧
          s2.next testGeometry 1 = Run.done s3 ∧ s3.face_key = sentinelKey := by
  obtain ⟨s1, s2, s3, n0, f1, d1, n1, f2, d2, t2, n2, f3⟩ := wedge_all_query_walk
  refine ⟨wedgeMesh_convex, wedge_begin_all 1, rfl, rfl, edgeRay_hits.2.2.2.1,
    s1, s2, s3, n0, f1, d1, ?_, n1, f2, d2, ?_, t2, n2, f3⟩
  · rw [d1]
    exact lt_irrefl _
  · rw [d1, d2]
    exact lt_irrefl _
/-! # Rays through an interior edge of a convex mesh -/

theorem pyramidMesh_convex : convexBoundary pyramidMesh := by
  intro f hf hb
  have hf9 : f = 0 ∨ f = 1 ∨ f = 2 ∨ f = 3 ∨ f = 4 ∨ f = 5 ∨ f = 6 ∨ f = 7 ∨ f = 8 := by
    simpa [pyramidMesh] using hf
  have hn5 : ∀ n ∈ pyramidMesh.nodes, n = 0 ∨ n = 1 ∨ n = 2 ∨ n = 3 ∨ n = 4 := by
    intro n hn
    simpa [pyramidMesh] using hn
  rcases hf9 with rfl | rfl | rfl | rfl | rfl | rfl | rfl | rfl | rfl
  · exact absurd hb (by decide)
  · exact absurd hb (by decide)
  · exact absurd hb (by decide)
  · left
    intro n hn
    rcases hn5 n hn with rfl | rfl | rfl | rfl | rfl <;>
      norm_num [orient3, pyramidMesh, Vec3.sub, Vec3.cross, Vec3.dot]
  · right
    intro n hn
    rcases hn5 n hn with rfl | rfl | rfl | rfl | rfl <;>
      norm_num [orient3, pyramidMesh, Vec3.sub, Vec3.cross, Vec3.dot]
  · left
    intro n hn
    rcases hn5 n hn with rfl | rfl | rfl | rfl | rfl <;>
      norm_num [orient3, pyramidMesh, Vec3.sub, Vec3.cross, Vec3.dot]
  · right
    intro n hn
    rcases hn5 n hn with rfl | rfl | rfl | rfl | rfl <;>
      norm_num [orient3, pyramidMesh, Vec3.sub, Vec3.cross, Vec3.dot]
  · left
    intro n hn
    rcases hn5 n hn with rfl | rfl | rfl | rfl | rfl <;>
      norm_num [orient3, pyramidMesh, Vec3.sub, Vec3.cross, Vec3.dot]
  · right
    intro n hn
    rcases hn5 n hn with rfl | rfl | rfl | rfl | rfl <;>
      norm_num [orient3, pyramidMesh, Vec3.sub, Vec3.cross, Vec3.dot]

theorem backRay_hits :
    hitFace testGeometry pyramidMesh (offsetRay backRay) 0 = some 1 ∧
      hitFace testGeometry pyramidMesh (offsetRay backRay) 1 = some 1 ∧
      hitFace testGeometry pyramidMesh (offsetRay backRay) 2 = some 1 ∧
      hitFace testGeometry pyramidMesh (offsetRay backRay) 3 = none ∧
      hitFace testGeometry pyramidMesh (offsetRay backRay) 4 = some (3 / 5) ∧
      hitFace testGeometry pyramidMesh (offsetRay backRay) 5 = none ∧
      hitFace testGeometry pyramidMesh (offsetRay backRay) 6 = some (3 / 2) ∧
      hitFace testGeometry pyramidMesh (offsetRay backRay) 7 = none ∧
      hitFace testGeometry pyramidMesh (offsetRay backRay) 8 = none := by
  refine ⟨?_, ?_, ?_, ?_, ?_, ?_, ?_, ?_, ?_⟩ <;>
    norm_num [hitFace, get_pos, pyramidMesh, testGeometry, rayTriangle,
      Vec3.sub, Vec3.cross, Vec3.dot, offsetRay, addEpsilonOffset, Vec3.add, backRay]

theorem roundRay_hits :
    hitFace testGeometry pyramidMesh (offsetRay roundRay) 0 = some 2 ∧
      hitFace testGeometry pyramidMesh (offsetRay roundRay) 1 = some 2 ∧
      hitFace testGeometry pyramidMesh (offsetRay roundRay) 2 = some 2 ∧
      hitFace testGeometry pyramidMesh (offsetRay roundRay) 3 = none ∧
      hitFace testGeometry pyramidMesh (offsetRay roundRay) 4 = none ∧
      hitFace testGeometry pyramidMesh (offsetRay roundRay) 5 = none ∧
      hitFace testGeometry pyramidMesh (offsetRay roundRay) 6 = some (5 / 2) ∧
      hitFace testGeometry pyramidMesh (offsetRay roundRay) 7 = none ∧
      hitFace testGeometry pyramidMesh (offsetRay roundRay) 8 = some (8 / 5) := by
  refine ⟨?_, ?_, ?_, ?_, ?_, ?_, ?_, ?_, ?_⟩ <;>
    norm_num [hitFace, get_pos, pyramidMesh, testGeometry, rayTriangle,
      Vec3.sub, Vec3.cross, Vec3.dot, offsetRay, addEpsilonOffset, Vec3.add, roundRay]

theorem pyramid_raycast_back :
    (pyramidQuery.raycast_faces testGeometry backRay QueryType.All).1 =
      { first_intersection := 4, dist := 3 / 5, ray := offsetRay backRay,
        query_type := QueryType.All, mesh := some pyramidMesh } := by
  have hc : pyramidQuery.cachedFaces = [3, 4, 5, 6, 7, 8] := by decide
  have hm : pyramidQuery.mesh = pyramidMesh := rfl
  obtain ⟨_, _, _, h3, h4, h5, h6, h7, h8⟩ := backRay_hits
  have hmax : ¬ (3 / 5 : ℚ) = testGeometry.dblMax := by norm_num [testGeometry]
  unfold Query.raycast_faces
  rw [hc, hm]
  simp only [List.foldl, raycastStep, h3, h4, h5, h6, h7, h8, if_true, hmax, if_false]
  norm_num [sentinelKey, hmax]

theorem pyramid_raycast_round :
    (pyramidQuery.raycast_faces testGeometry roundRay QueryType.All).1 =
      { first_intersection := 8, dist := 8 / 5, ray := offsetRay roundRay,
        query_type := QueryType.All, mesh := some pyramidMesh } := by
  have hc : pyramidQuery.cachedFaces = [3, 4, 5, 6, 7, 8] := by decide
  have hm : pyramidQuery.mesh = pyramidMesh := rfl
  obtain ⟨_, _, _, h3, h4, h5, h6, h7, h8⟩ := roundRay_hits
  have hmax : ¬ (5 / 2 : ℚ) = testGeometry.dblMax := by norm_num [testGeometry]
  unfold Query.raycast_faces
  rw [hc, hm]
  simp only [List.foldl, raycastStep, h3, h4, h5, h6, h7, h8, if_true, hmax, if_false]
  norm_num [sentinelKey, hmax]

theorem pyramid_begin_back (fuel : Nat) :
    (pyramidQuery.raycast_faces testGeometry backRay QueryType.All).1.begin testGeometry fuel =
      Run.done backStart := by
  rw [pyramid_raycast_back]
  have h : pyramidMesh.face_tet_keys 4 = [0] := by decide
  simp [QueryResult.begin, QueryResultIterator.create, backStart, h, offsetRay]
  norm_num

theorem pyramid_begin_round (fuel : Nat) :
    (pyramidQuery.raycast_faces testGeometry roundRay QueryType.All).1.begin testGeometry fuel =
      Run.done roundStart := by
  rw [pyramid_raycast_round]
  have h : pyramidMesh.face_tet_keys 8 = [2] := by decide
  simp [QueryResult.begin, QueryResultIterator.create, roundStart, h, offsetRay]
  norm_num

/-- On the convex `pyramidMesh` the `All` iteration along `backRay`, which passes
through a point of the interior edge, visits the faces 4, 0, 2, 1 and 4 again, at
the distances 3/5, 1, 1, 1 and 3/5: it goes once round the edge, comes back to the
tetrahedron of entry, and ends at the face of entry, at a smaller distance than
the face before. Face 6, by which the ray leaves at distance 3/2, is not visited. -/
theorem pyramid_all_walk_decreases :
    convexBoundary pyramidMesh ∧
      (pyramidQuery.raycast_faces testGeometry backRay QueryType.All).1.begin testGeometry 1 =
        Run.done backStart ∧
      backStart.face_key = 4 ∧ backStart.dist = 3 / 5 ∧
      hitFace testGeometry pyramidMesh (offsetRay backRay) 6 = some (3 / 2) ∧
      ∃ s1 s2 s3 s4 s5 : QueryResultIterator ℚ,
        backStart.next testGeometry 1 = Run.done s1 ∧ s1.face_key = 0 ∧ s1.dist = 1 ∧
          s1.next testGeometry 1 = Run.done s2 ∧ s2.face_key = 2 ∧ s2.dist = 1 ∧
          s2.next testGeometry 1 = Run.done s3 ∧ s3.face_key = 1 ∧ s3.dist = 1 ∧
          s3.next testGeometry 1 = Run.done s4 ∧ s4.face_key = 4 ∧ s4.dist = 3 / 5 ∧
          s4.dist < s3.dist ∧ s4.tetrahedron_key = [] ∧
          s4.next testGeometry 1 = Run.done s5 ∧ s5.face_key = sentinelKey := by
  obtain ⟨h0, h1, h2, h3, h4, _⟩ := backRay_hits
  have hscan0 : backStart.scanFaces pyramidMesh = [] ++ 0 :: [1, 3] := by decide
  have step0 := nextLoop_accepted testGeometry pyramidMesh 0 backStart [] [1, 3] 0 1
    (by decide) hscan0 (by simp) h0 (by decide)
  have n0 : backStart.next testGeometry 1 = Run.done _ := step0
  have hscan1 : QueryResultIterator.scanFaces pyramidMesh
      { backStart with
        face_key := 0
        tetrahedron_key :=
          simplexSetDiff (pyramidMesh.face_co_boundary 0) backStart.tetrahedron_key
        dist := 1 } = [] ++ 2 :: [7, 8] := by decide
  have step1 := nextLoop_accepted testGeometry pyramidMesh 0 _ [] [7, 8] 2 1
    (by decide) hscan1 (by simp) h2 (by decide)
  have hscan2 : QueryResultIterator.scanFaces pyramidMesh
      { backStart with
        face_key := 2
        tetrahedron_key :=
          simplexSetDiff (pyramidMesh.face_co_boundary 2)
            (simplexSetDiff (pyramidMesh.face_co_boundary 0) backStart.tetrahedron_key)
        dist := 1 } = [] ++ 1 :: [5, 6] := by decide
  have step2 := nextLoop_accepted testGeometry pyramidMesh 0 _ [] [5, 6] 1 1
    (by decide) hscan2 (by simp) h1 (by decide)
  have hscan3 : QueryResultIterator.scanFaces pyramidMesh
      { backStart with
        face_key := 1
        tetrahedron_key :=
          simplexSetDiff (pyramidMesh.face_co_boundary 1)
            (simplexSetDiff (pyramidMesh.face_co_boundary 2)
              (simplexSetDiff (pyramidMesh.face_co_boundary 0) backStart.tetrahedron_key))
        dist := 1 } = [] ++ 4 :: [0, 3] := by decide
  have step3 := nextLoop_accepted testGeometry pyramidMesh 0 _ [] [0, 3] 4 (3 / 5)
    (by decide) hscan3 (by simp) h4 (by decide)
  exact ⟨pyramidMesh_convex, pyramid_begin_back 1, rfl, rfl, backRay_hits.2.2.2.2.2.2.1,
    _, _, _, _, _, n0, rfl, rfl, step1, rfl, rfl, step2, rfl, rfl, step3, rfl, rfl,
    by norm_num, by decide, next_of_no_tets testGeometry 1 _ (by decide), rfl⟩

theorem round_steps (fuel : Nat) :
    roundStart.next testGeometry (fuel + 1) = Run.done (roundAt 2 1) ∧
      (roundAt 2 1).next testGeometry (fuel + 1) = Run.done (roundAt 1 0) ∧
      (roundAt 1 0).next testGeometry (fuel + 1) = Run.done (roundAt 0 2) ∧
      (roundAt 0 2).next testGeometry (fuel + 1) = Run.done (roundAt 2 1) := by
  obtain ⟨h0, h1, h2, h3, h4, _⟩ := roundRay_hits
  refine ⟨?_, ?_, ?_, ?_⟩
  · have hscan : roundStart.scanFaces pyramidMesh = [] ++ 2 :: [0, 7] := by decide
    have h := nextLoop_accepted testGeometry pyramidMesh fuel roundStart [] [0, 7] 2 2
      (by decide) hscan (by simp) h2 (by decide)
    exact h
  · have hscan : (roundAt 2 1).scanFaces pyramidMesh = [] ++ 1 :: [5, 6] := by decide
    have h := nextLoop_accepted testGeometry pyramidMesh fuel (roundAt 2 1) [] [5, 6] 1 2
      (by decide) hscan (by simp) h1 (by decide)
    exact h
  · have hscan : (roundAt 1 0).scanFaces pyramidMesh = [4] ++ 0 :: [3] := by decide
    have h := nextLoop_accepted testGeometry pyramidMesh fuel (roundAt 1 0) [4] [3] 0 2
      (by decide) hscan
      (by
        intro f hf
        simp only [List.mem_singleton] at hf
        rw [hf]
        exact h4)
      h0 (by decide)
    exact h
  · have hscan : (roundAt 0 2).scanFaces pyramidMesh = [] ++ 2 :: [7, 8] := by decide
    have h := nextLoop_accepted testGeometry pyramidMesh fuel (roundAt 0 2) [] [7, 8] 2 2
      (by decide) hscan (by simp) h2 (by decide)
    exact h

theorem next_zero_fuel {R : Type} [LinearOrderedField R] (g : Geometry R)
    (it : QueryResultIterator R) (m : ISMesh R) (hmesh : it.mesh = some m)
    (htets : it.tetrahedron_key ≠ []) : it.next g 0 = Run.outOfFuel := by
  unfold QueryResultIterator.next
  have hlen : it.tetrahedron_key.length ≠ 0 := fun h => htets (List.length_eq_zero.mp h)
  simp [hlen, hmesh, QueryResultIterator.nextLoop]

/-- On the convex `pyramidMesh` the `All` iteration along `roundRay`, which passes
through a point of the interior edge, never ends: after the face of entry it
visits the faces 2, 1, 0, 2, 1, 0, ... round the edge, all at distance 2, with a
candidate tetrahedron at every step. Face 6, by which the ray leaves at distance
5/2, is never visited. -/
theorem pyramid_all_walk_never_ends :
    convexBoundary pyramidMesh ∧
      (∀ fuel,
        (pyramidQuery.raycast_faces testGeometry roundRay QueryType.All).1.begin testGeometry
          fuel = Run.done roundStart) ∧
      ∀ it, Visits testGeometry
          (pyramidQuery.raycast_faces testGeometry roundRay QueryType.All).1 it →
        (it = roundStart ∨ it = roundAt 2 1 ∨ it = roundAt 1 0 ∨ it = roundAt 0 2) ∧
          it.face_key ≠ sentinelKey ∧ it.tetrahedron_key ≠ [] ∧
          ∃ it1, it.next testGeometry 1 = Run.done it1 ∧ it1.face_key ≠ sentinelKey ∧
            it1.dist = 2 := by
  refine ⟨pyramidMesh_convex, pyramid_begin_round, ?_⟩
  intro it hv
  have hmem : it = roundStart ∨ it = roundAt 2 1 ∨ it = roundAt 1 0 ∨ it = roundAt 0 2 := by
    induction hv with
    | first fuel it hb =>
      rw [pyramid_begin_round] at hb
      simp only [Run.done.injEq] at hb
      exact Or.inl hb.symm
    | step fuel it it1 _ _ hnext ih =>
      cases fuel with
      | zero =>
        exfalso
        rcases ih with h | h | h | h <;>
          (rw [h, next_zero_fuel testGeometry _ pyramidMesh rfl (by decide)] at hnext
           simp at hnext)
      | succ fuel =>
        obtain ⟨s0, s1, s2, s3⟩ := round_steps fuel
        rcases ih with h | h | h | h
        · rw [h, s0] at hnext
          simp only [Run.done.injEq] at hnext
          exact Or.inr (Or.inl hnext.symm)
        · rw [h, s1] at hnext
          simp only [Run.done.injEq] at hnext
          exact Or.inr (Or.inr (Or.inl hnext.symm))
        · rw [h, s2] at hnext
          simp only [Run.done.injEq] at hnext
          exact Or.inr (Or.inr (Or.inr hnext.symm))
        · rw [h, s3] at hnext
          simp only [Run.done.injEq] at hnext
          exact Or.inr (Or.inl hnext.symm)
  obtain ⟨s0, s1, s2, s3⟩ := round_steps 0
  refine ⟨hmem, ?_⟩
  rcases hmem with h | h | h | h
  · rw [h]
    exact ⟨by decide, by decide, _, s0, by decide, rfl⟩
  · rw [h]
    exact ⟨by decide, by decide, _, s1, by decide, rfl⟩
  · rw [h]
    exact ⟨by decide, by decide, _, s2, by decide, rfl⟩
  · rw [h]
    exact ⟨by decide, by decide, _, s3, by decide, rfl⟩

end is_mesh
